import Mathlib

/-!
# rpl2elf: a shallow embedding of the conversion pipeline of `main.cpp`

The development models the container (`Rpl`, `Section`, the headers), the
relocation fixer `fixRelocations`, the rebase operation `relocateSection`,
the relocator of import sections `relocateImports` and the layout planner
`calculateSectionOffsets`, and proves properties of them.

Conventions.
* Every 32-bit field is a `Nat` holding the value of the field; arithmetic that
  the program performs in 32 bits carries an explicit `% 2 ^ 32`.  The signed
  relocation addend is held as its 32-bit two's complement pattern, on which
  `+ 2` and `- 2` are the wrapping operations.
* Section payloads are byte lists; multi-byte fields inside payloads are
  big-endian, as in the console's container format.
* `std::size_t` is 64 bits wide: sums of an address and a buffer length that
  the program forms in `size_t` are plain natural-number sums.
-/

namespace Rpl2Elf



/-! ## Constants and layouts of `elf.h` -/

/-- Modelled from the spec: section type "null" of the absent `elf.h`, with its ELF32 value. -/
def SHT_NULL : Nat := 0

/-- Modelled from the spec: section type "symbol table" of the absent `elf.h`. -/
def SHT_SYMTAB : Nat := 2

/-- Modelled from the spec: section type "relocation-with-addend table" of the absent `elf.h`. -/
def SHT_RELA : Nat := 4

/-- Modelled from the spec: section type "no-bits" of the absent `elf.h`. -/
def SHT_NOBITS : Nat := 8

/-- Modelled from the spec: container-specific section type "exports" of the absent `elf.h`. -/
def SHT_RPL_EXPORTS : Nat := 0x80000001

/-- Modelled from the spec: container-specific section type "imports" of the absent `elf.h`. -/
def SHT_RPL_IMPORTS : Nat := 0x80000002

/-- Modelled from the spec: container-specific section type "CRCs" of the absent `elf.h`. -/
def SHT_RPL_CRCS : Nat := 0x80000003

/-- Modelled from the spec: container-specific section type "file-info" of the absent `elf.h`. -/
def SHT_RPL_FILEINFO : Nat := 0x80000004

/-- Modelled from the spec: flag bit "write" of the absent `elf.h`. -/
def SHF_WRITE : Nat := 0x1

/-- Modelled from the spec: flag bit "alloc" of the absent `elf.h`. -/
def SHF_ALLOC : Nat := 0x2

/-- Modelled from the spec: flag bit "exec-instructions" of the absent `elf.h`. -/
def SHF_EXECINSTR : Nat := 0x4

/-- Modelled from the spec: container-specific flag bit "deflated" of the absent `elf.h`. -/
def SHF_DEFLATED : Nat := 0x08000000

/-- Modelled from the spec: symbol type tag "object" of the absent `elf.h`. -/
def STT_OBJECT : Nat := 1

/-- Modelled from the spec: symbol type tag "function" of the absent `elf.h`. -/
def STT_FUNC : Nat := 2

/-- Modelled from the spec: symbol type tag "section" of the absent `elf.h`. -/
def STT_SECTION : Nat := 3

/-- Modelled from the spec: relocation kind of the absent `elf.h` (whitelisted, "none"). -/
def R_PPC_NONE : Nat := 0

/-- Modelled from the spec: relocation kind of the absent `elf.h` (whitelisted, direct address). -/
def R_PPC_ADDR32 : Nat := 1

/-- Modelled from the spec: relocation kind of the absent `elf.h` (whitelisted, address lo). -/
def R_PPC_ADDR16_LO : Nat := 4

/-- Modelled from the spec: relocation kind of the absent `elf.h` (whitelisted, address hi). -/
def R_PPC_ADDR16_HI : Nat := 5

/-- Modelled from the spec: relocation kind of the absent `elf.h` (whitelisted, address ha). -/
def R_PPC_ADDR16_HA : Nat := 6

/-- Modelled from the spec: relocation kind of the absent `elf.h` (whitelisted, relative branch). -/
def R_PPC_REL24 : Nat := 10

/-- Modelled from the spec: relocation kind of the absent `elf.h` (whitelisted, relative branch). -/
def R_PPC_REL14 : Nat := 11

/-- Modelled from the spec: relocation kind of the absent `elf.h`, the merged 32-bit relative kind. -/
def R_PPC_REL32 : Nat := 26

/-- Modelled from the spec: relocation kind of the absent `elf.h` (whitelisted, TLS form). -/
def R_PPC_DTPMOD32 : Nat := 68

/-- Modelled from the spec: relocation kind of the absent `elf.h` (whitelisted, TLS form). -/
def R_PPC_DTPREL32 : Nat := 78

/-- Modelled from the spec: relocation kind of the absent `elf.h` (whitelisted, small data). -/
def R_PPC_EMB_SDA21 : Nat := 109

/-- Modelled from the spec: relocation kind of the absent `elf.h` (whitelisted, small data). -/
def R_PPC_EMB_RELSDA : Nat := 116

/-- Modelled from the spec: relocation kind of the absent `elf.h` (whitelisted, small data). -/
def R_PPC_DIAB_SDA21_LO : Nat := 180

/-- Modelled from the spec: relocation kind of the absent `elf.h` (whitelisted, small data). -/
def R_PPC_DIAB_SDA21_HI : Nat := 181

/-- Modelled from the spec: relocation kind of the absent `elf.h` (whitelisted, small data). -/
def R_PPC_DIAB_SDA21_HA : Nat := 182

/-- Modelled from the spec: relocation kind of the absent `elf.h` (whitelisted, small data). -/
def R_PPC_DIAB_RELSDA_LO : Nat := 183

/-- Modelled from the spec: relocation kind of the absent `elf.h` (whitelisted, small data). -/
def R_PPC_DIAB_RELSDA_HI : Nat := 184

/-- Modelled from the spec: relocation kind of the absent `elf.h` (whitelisted, small data). -/
def R_PPC_DIAB_RELSDA_HA : Nat := 185

/-- Modelled from the spec: relocation kind of the absent `elf.h`, the split "high half" kind. -/
def R_PPC_GHS_REL16_HI : Nat := 252

/-- Modelled from the spec: relocation kind of the absent `elf.h`, the split "low half" kind. -/
def R_PPC_GHS_REL16_LO : Nat := 253

/-- Modelled from the spec: `sizeof(elf::SectionHeader)` of the absent `elf.h`, ten 32-bit fields. -/
def sizeofSectionHeader : Nat := 40

/-- Modelled from the spec: `sizeof(elf::Rela)` of the absent `elf.h`: offset, info, addend. -/
def sizeofRela : Nat := 12

/-- Modelled from the spec: `sizeof(elf::Symbol)` of the absent `elf.h`:
name, value, size (32 bits each), info, other (one byte each), shndx (16 bits). -/
def sizeofSymbol : Nat := 16

/-- Modelled from the spec: the helper `align_up` of the absent `rpl2elf.h`, which rounds
`value` up to the next multiple of `alignment` ("aligns the cursor up to the section's
required alignment", "rounded up to a 64-byte boundary"). -/
def align_up (value alignment : Nat) : Nat :=
  (value + (alignment - 1)) / alignment * alignment

/-- `elfImportsRelocationAddress` (main.cpp, line 11). -/
def elfImportsRelocationAddress : Nat := 0x01000000

/-! ## Data model -/

/-- One byte of a payload. -/
abbrev Byte := Fin 256

/-- The fields of `elf::SectionHeader`. -/
structure SectionHeader where
  name : Nat
  type : Nat
  flags : Nat
  addr : Nat
  offset : Nat
  size : Nat
  link : Nat
  info : Nat
  addralign : Nat
  entsize : Nat
deriving DecidableEq

/-- A `Section`: its header and its byte buffer `data`. -/
structure Section where
  header : SectionHeader
  data : List Byte
deriving DecidableEq

/-- The fields of `elf::Header`: first the ones that the pipeline reads or writes, then the
remaining ones, which it only carries from the source file to the destination file. -/
structure Header where
  magic : Nat
  abi : Nat
  type : Nat
  shoff : Nat
  shnum : Nat
  shentsize : Nat
  shstrndx : Nat
  fileClass : Nat := 0
  encoding : Nat := 0
  elfVersion : Nat := 0
  pad : Nat := 0
  machine : Nat := 0
  version : Nat := 0
  entry : Nat := 0
  phoff : Nat := 0
  flags : Nat := 0
  ehsize : Nat := 0
  phentsize : Nat := 0
  phnum : Nat := 0
deriving DecidableEq

/-- The container `Rpl`: header and ordered sections. -/
structure Rpl where
  header : Header
  sections : List Section
deriving DecidableEq

/-- One relocation entry `elf::Rela`. -/
structure Rela where
  offset : Nat
  info : Nat
  addend : Nat
deriving DecidableEq

/-! ## Big-endian fields inside a byte buffer -/

/-- The 32-bit big-endian value stored at byte position `p` of `buf`. -/
def rd32 (buf : List Byte) (p : Nat) : Nat :=
  (buf.getD p 0).val * 2 ^ 24 + (buf.getD (p + 1) 0).val * 2 ^ 16
    + (buf.getD (p + 2) 0).val * 2 ^ 8 + (buf.getD (p + 3) 0).val

/-- Store the 32-bit value `v` big-endian at byte position `p` of `buf`. -/
def wr32 (buf : List Byte) (p : Nat) (v : Nat) : List Byte :=
  (((buf.set p (Fin.ofNat (v / 2 ^ 24))).set (p + 1) (Fin.ofNat (v / 2 ^ 16))).set (p + 2)
    (Fin.ofNat (v / 2 ^ 8))).set (p + 3) (Fin.ofNat v)

/-- The four bytes of a 32-bit value, big-endian. -/
def be32 (v : Nat) : List Byte :=
  [Fin.ofNat (v / 2 ^ 24), Fin.ofNat (v / 2 ^ 16), Fin.ofNat (v / 2 ^ 8), Fin.ofNat v]

/-- The entry `rels[i]` of a buffer reinterpreted as an array of `elf::Rela`, with the field
order of the absent `elf.h` (offset, info, addend, 32 bits each, big-endian). -/
def readRela (buf : List Byte) (i : Nat) : Rela :=
  { offset := rd32 buf (sizeofRela * i)
    info := rd32 buf (sizeofRela * i + 4)
    addend := rd32 buf (sizeofRela * i + 8) }

/-- The array of `numRels = data.size() / sizeof(elf::Rela)` entries of a buffer. -/
def readRelas (buf : List Byte) : List Rela :=
  (List.range (buf.length / sizeofRela)).map (readRela buf)

/-- The raw bytes of one `elf::Rela`. -/
def relaBytes (r : Rela) : List Byte :=
  be32 r.offset ++ be32 r.info ++ be32 r.addend

/-- The raw bytes of a vector of `elf::Rela`. -/
def relasBytes (rs : List Rela) : List Byte :=
  (rs.map relaBytes).flatten

/-! ## `fixRelocations` (main.cpp, lines 143-277) -/

/-- The all-zero entry that the fixer writes over a consumed partner. -/
def zeroRela : Rela := { offset := 0, info := 0, addend := 0 }

/-- The `case` labels of lines 172-188: the kinds copied verbatim. -/
def isWhitelisted (type : Nat) : Bool :=
  type = R_PPC_NONE || type = R_PPC_ADDR32 || type = R_PPC_ADDR16_LO
    || type = R_PPC_ADDR16_HI || type = R_PPC_ADDR16_HA || type = R_PPC_REL24
    || type = R_PPC_REL14 || type = R_PPC_DTPMOD32 || type = R_PPC_DTPREL32
    || type = R_PPC_EMB_SDA21 || type = R_PPC_EMB_RELSDA || type = R_PPC_DIAB_SDA21_LO
    || type = R_PPC_DIAB_SDA21_HI || type = R_PPC_DIAB_SDA21_HA || type = R_PPC_DIAB_RELSDA_LO
    || type = R_PPC_DIAB_RELSDA_HI || type = R_PPC_DIAB_RELSDA_HA

/-- The inner `for (j ...)` loop of lines 207-225 and 238-256, over the entries `rels[j]`
in index order.  An entry whose info, addend and offset equal the sought values is
overwritten with zeros and one copy of `merged` is appended to the new relocations; every
other entry is left alone.  Returns the array after the loop and the entries appended. -/
def mergeScan (wantInfo wantAddend wantOffset : Nat) (merged : Rela) :
    List Rela → List Rela × List Rela
  | [] => ([], [])
  | r :: rs =>
    let rest := mergeScan wantInfo wantAddend wantOffset merged rs
    if r.info ≠ wantInfo then (r :: rest.1, rest.2)
    else if r.addend ≠ wantAddend then (r :: rest.1, rest.2)
    else if r.offset ≠ wantOffset then (r :: rest.1, rest.2)
    else (zeroRela :: rest.1, merged :: rest.2)

/-- The body of the outer loop (lines 162-267) for index `i`, on the state made of the
array `rels` (mutated in place by the program) and the vector `newRelocations`. -/
def fixStep (st : List Rela × List Rela) (i : Nat) : List Rela × List Rela :=
  let rels := st.1
  let newRelocations := st.2
  let info := (rels.getD i zeroRela).info
  let addend := (rels.getD i zeroRela).addend
  let offset := (rels.getD i zeroRela).offset
  let index := info >>> 8
  let type := info &&& 0xFF
  if info = 0 ∧ addend = 0 ∧ offset = 0 then (rels, newRelocations)
  else if isWhitelisted type then
    (rels, newRelocations ++ [{ offset := offset, info := info, addend := addend }])
  else if type = R_PPC_GHS_REL16_HI then
    let res := mergeScan ((index <<< 8) % 2 ^ 32 ||| R_PPC_GHS_REL16_LO)
      ((addend + 2) % 2 ^ 32) ((offset + 2) % 2 ^ 32)
      { offset := offset, info := (index <<< 8) % 2 ^ 32 ||| R_PPC_REL32, addend := addend } rels
    (res.1, newRelocations ++ res.2)
  else if type = R_PPC_GHS_REL16_LO then
    let res := mergeScan ((index <<< 8) % 2 ^ 32 ||| R_PPC_GHS_REL16_HI)
      ((addend + 2 ^ 32 - 2) % 2 ^ 32) ((offset + 2 ^ 32 - 2) % 2 ^ 32)
      { offset := (offset + 2 ^ 32 - 2) % 2 ^ 32
        info := (index <<< 8) % 2 ^ 32 ||| R_PPC_REL32
        addend := (addend + 2 ^ 32 - 2) % 2 ^ 32 } rels
    (res.1, newRelocations ++ res.2)
  else (rels, newRelocations)

/-- The outer loop `for (i = 0; i < numRels; ++i)` of lines 161-268 on a decoded array:
the vector `newRelocations` it builds. -/
def fixRels (rels : List Rela) : List Rela :=
  ((List.range rels.length).foldl fixStep (rels, [])).2

/-- The body of the section loop of `fixRelocations` (lines 146-274).  The references
`symbolSection` and `targetSection` of lines 156-157 are never used and are left out. -/
def fixSection (s : Section) : Section :=
  if s.header.type ≠ SHT_RELA then s
  else
    { header := { s.header with flags := 0 }
      data := relasBytes (fixRels (readRelas s.data)) }

/-- The function `fixRelocations`: the rewritten container and the returned flag. -/
def fixRelocations (file : Rpl) : Rpl × Bool :=
  ({ file with sections := file.sections.map fixSection }, true)

/-! ## `relocateSection` and `relocateImports` (main.cpp, lines 462-534) -/

/-- The count `data.size() / sizeof(elf::Symbol)` of a symbol-table buffer. -/
def numSymbols (data : List Byte) : Nat := data.length / sizeofSymbol

/-- The field `symbols[i].value` of a buffer reinterpreted as an array of `elf::Symbol`,
at byte 4 of the entry in the layout of the absent `elf.h`. -/
def symValue (data : List Byte) (i : Nat) : Nat := rd32 data (sizeofSymbol * i + 4)

/-- The field `symbols[i].info` (one byte) of such a buffer, at byte 12 of the entry. -/
def symInfo (data : List Byte) (i : Nat) : Nat := (data.getD (sizeofSymbol * i + 12) 0).val

/-- The body of the symbol loop (lines 481-493) for index `i`, on the buffer. -/
def relocateSymbolStep (oldSectionAddress oldSectionAddressEnd newSectionAddress : Nat)
    (data : List Byte) (i : Nat) : List Byte :=
  let type := symInfo data i &&& 0xf
  let value := symValue data i
  if type ≠ STT_OBJECT ∧ type ≠ STT_FUNC ∧ type ≠ STT_SECTION then data
  else if value ≥ oldSectionAddress ∧ value ≤ oldSectionAddressEnd then
    wr32 data (sizeofSymbol * i + 4) ((value - oldSectionAddress + newSectionAddress) % 2 ^ 32)
  else data

/-- The loop over the symbols of one symbol-table buffer (lines 478-494). -/
def relocateSymbols (oldSectionAddress oldSectionAddressEnd newSectionAddress : Nat)
    (data : List Byte) : List Byte :=
  (List.range (numSymbols data)).foldl
    (relocateSymbolStep oldSectionAddress oldSectionAddressEnd newSectionAddress) data

/-- The count `data.size() / sizeof(elf::Rela)` of a relocation buffer. -/
def numRelas (data : List Byte) : Nat := data.length / sizeofRela

/-- The body of the relocation loop (lines 507-511) for index `i`, on the buffer. -/
def relocateRelaStep (oldSectionAddress oldSectionAddressEnd newSectionAddress : Nat)
    (data : List Byte) (i : Nat) : List Byte :=
  let offset := (readRela data i).offset
  if offset ≥ oldSectionAddress ∧ offset ≤ oldSectionAddressEnd then
    wr32 data (sizeofRela * i) ((offset - oldSectionAddress + newSectionAddress) % 2 ^ 32)
  else data

/-- The loop over the entries of one relocation buffer (lines 504-512). -/
def relocateRelas (oldSectionAddress oldSectionAddressEnd newSectionAddress : Nat)
    (data : List Byte) : List Byte :=
  (List.range (numRelas data)).foldl
    (relocateRelaStep oldSectionAddress oldSectionAddressEnd newSectionAddress) data

/-- The assignment `section.header.addr = newSectionAddress` on the section at position
`sec` of the table. -/
def setSectionAddr (sections : List Section) (sec : Nat) (newSectionAddress : Nat) :
    List Section :=
  match sections[sec]? with
  | none => sections
  | some s => sections.set sec { s with header := { s.header with addr := newSectionAddress } }

/-- The body of the loop over `symSection` (lines 473-495). -/
def relocateSymSection (oldSectionAddress oldSectionAddressEnd newSectionAddress : Nat)
    (symSection : Section) : Section :=
  if symSection.header.type ≠ SHT_SYMTAB then symSection
  else { symSection with
          data := relocateSymbols oldSectionAddress oldSectionAddressEnd newSectionAddress
            symSection.data }

/-- The body of the loop over `relaSection` (lines 498-513). -/
def relocateRelaSection (oldSectionAddress oldSectionAddressEnd newSectionAddress
    sectionIndex : Nat) (relaSection : Section) : Section :=
  if relaSection.header.type ≠ SHT_RELA ∨ relaSection.header.info ≠ sectionIndex then
    relaSection
  else { relaSection with
          data := relocateRelas oldSectionAddress oldSectionAddressEnd newSectionAddress
            relaSection.data }

/-- The function `relocateSection`.  The reference `section` is given by its position `sec`
in `file.sections`; `sectionIndex` and `newSectionAddress` are the two 32-bit arguments.
A position outside the table stands for no section at all and leaves the container as it
is. -/
def relocateSection (file : Rpl) (sec : Nat) (sectionIndex newSectionAddress : Nat) :
    Rpl × Bool :=
  match file.sections[sec]? with
  | none => (file, true)
  | some sect =>
    let sectionSize := if sect.data.length ≠ 0 then sect.data.length else sect.header.size
    let oldSectionAddress := sect.header.addr
    let oldSectionAddressEnd := sect.header.addr + sectionSize
    -- Relocate symbols pointing into this section
    let sections1 := file.sections.map
      (relocateSymSection oldSectionAddress oldSectionAddressEnd newSectionAddress)
    -- Relocate relocations pointing into this section
    let sections2 := sections1.map
      (relocateRelaSection oldSectionAddress oldSectionAddressEnd newSectionAddress sectionIndex)
    ({ file with sections := setSectionAddr sections2 sec newSectionAddress }, true)

/-- The body of the loop of `relocateImports` (lines 525-530) for index `i`, on the state
made of the container and the cursor `newLoc`. -/
def relocateImportsStep (st : Rpl × Nat) (i : Nat) : Rpl × Nat :=
  let file := st.1
  let newLoc := st.2
  match file.sections[i]? with
  | none => (file, newLoc)
  | some sect =>
    if sect.header.type = SHT_RPL_IMPORTS then
      let file1 := (relocateSection file i i
        (align_up newLoc sect.header.addralign % 2 ^ 32)).1
      let sections2 := match file1.sections[i]? with
        | none => file1.sections
        | some s =>
          file1.sections.set i { s with header := { s.header with flags := s.header.flags ||| SHF_ALLOC } }
      let size := match file1.sections[i]? with
        | none => 0
        | some s => s.data.length
      ({ file1 with sections := sections2 }, (newLoc + size) % 2 ^ 32)
    else (file, newLoc)

/-- The function `relocateImports`. -/
def relocateImports (file : Rpl) : Rpl × Bool :=
  (((List.range file.sections.length).foldl relocateImportsStep
      (file, elfImportsRelocationAddress)).1, true)

/-! ## `calculateSectionOffsets` (main.cpp, lines 282-420) -/

/-- The first loop (lines 288-294): a no-bits or null section gets offset 0 and loses its
buffer. -/
def clearNoData (s : Section) : Section :=
  if s.header.type = SHT_NOBITS ∨ s.header.type = SHT_NULL then
    { header := { s.header with offset := 0 }, data := [] }
  else s

/-- The three statements shared by the seven placement loops: the section gets the running
offset and its size becomes its buffer length. -/
def placeSection (offset : Nat) (s : Section) : Section :=
  { s with header := { s.header with offset := offset, size := s.data.length % 2 ^ 32 } }

/-- One placement loop over the sections in table order, for the test `p` of that loop:
returns the running offset after the loop and the sections. -/
def placeLoop (p : Section → Bool) : Nat → List Section → Nat × List Section
  | offset, [] => (offset, [])
  | offset, s :: rest =>
    if p s then
      let rest' := placeLoop p ((offset + (placeSection offset s).header.size) % 2 ^ 32) rest
      (rest'.1, placeSection offset s :: rest'.2)
    else
      let rest' := placeLoop p offset rest
      (rest'.1, s :: rest'.2)

/-- The `continue` test shared by the data, read, text and temp loops (lines 317-323). -/
def skipsSection (s : Section) : Bool :=
  s.header.size = 0 || s.header.type = SHT_RPL_FILEINFO || s.header.type = SHT_RPL_IMPORTS
    || s.header.type = SHT_RPL_CRCS || s.header.type = SHT_NOBITS

/-- The test of the CRCs loop (line 297). -/
def isCrcsSection (s : Section) : Bool := s.header.type = SHT_RPL_CRCS

/-- The test of the file-info loop (line 305). -/
def isFileInfoSection (s : Section) : Bool := s.header.type = SHT_RPL_FILEINFO

/-- The test of the data loop (lines 317-327). -/
def isDataSection (s : Section) : Bool :=
  !skipsSection s && (s.header.flags &&& SHF_EXECINSTR = 0 && s.header.flags &&& SHF_WRITE ≠ 0
    && s.header.flags &&& SHF_ALLOC ≠ 0)

/-- The test of the read loop (lines 339-350). -/
def isReadSection (s : Section) : Bool :=
  !skipsSection s && ((s.header.flags &&& SHF_EXECINSTR = 0 || s.header.type = SHT_RPL_EXPORTS)
    && s.header.flags &&& SHF_WRITE = 0 && s.header.flags &&& SHF_ALLOC ≠ 0)

/-- The test of the imports loop (line 360). -/
def isImportsSection (s : Section) : Bool := s.header.type = SHT_RPL_IMPORTS

/-- The test of the text loop (lines 371-380). -/
def isTextSection (s : Section) : Bool :=
  !skipsSection s && (s.header.flags &&& SHF_EXECINSTR ≠ 0 && s.header.type ≠ SHT_RPL_EXPORTS)

/-- The test of the temp loop (lines 391-400). -/
def isTempSection (s : Section) : Bool :=
  !skipsSection s && (s.header.flags &&& SHF_EXECINSTR = 0 && s.header.flags &&& SHF_ALLOC = 0)

/-- The test of the final loop (lines 409-411): a section left without an offset. -/
def lacksOffset (s : Section) : Bool :=
  s.header.offset = 0 && s.header.type ≠ SHT_NULL && s.header.type ≠ SHT_NOBITS

/-- The initial value of `offset` (lines 285-286). -/
def layoutStart (file : Rpl) : Nat :=
  (file.header.shoff
    + align_up ((file.sections.length * sizeofSectionHeader) % 2 ^ 32) 64 % 2 ^ 32) % 2 ^ 32

/-- The function `calculateSectionOffsets`: the container after the loops and the returned
flag. -/
def calculateSectionOffsets (file : Rpl) : Rpl × Bool :=
  let offset := layoutStart file
  let sections0 := file.sections.map clearNoData
  let st1 := placeLoop isCrcsSection offset sections0
  let st2 := placeLoop isFileInfoSection st1.1 st1.2
  let st3 := placeLoop isDataSection st2.1 st2.2
  let st4 := placeLoop isReadSection st3.1 st3.2
  let st5 := placeLoop isImportsSection st4.1 st4.2
  let st6 := placeLoop isTextSection st5.1 st5.2
  let st7 := placeLoop isTempSection st6.1 st6.2
  ({ file with sections := st7.2 }, !st7.2.any lacksOffset)

/-! ## `fixFileHeader` (main.cpp, lines 131-137) -/

/-- Modelled from the spec: ABI value "none" of the absent `elf.h`. -/
def EABI_NONE : Nat := 0

/-- Modelled from the spec: file type "executable" of the absent `elf.h`. -/
def ET_EXEC : Nat := 2

/-- The function `fixFileHeader`. -/
def fixFileHeader (file : Rpl) : Rpl × Bool :=
  ({ file with header := { file.header with abi := EABI_NONE, type := ET_EXEC } }, true)

/-! ## The source file, the loader `readSection` / `readRpl` (main.cpp, lines 21-126) -/

/-- Modelled from the spec: the expected magic constant `elf::HeaderMagic` of the absent
`elf.h`, the four bytes `7f 45 4c 46`. -/
def HeaderMagic : Nat := 0x7f454c46

/-- Modelled from the spec: `sizeof(elf::Header)` of the absent `elf.h`. -/
def sizeofHeader : Nat := 52

/-- The constant `Z_OK` of zlib. -/
def Z_OK : Int := 0

/-- The constant `Z_STREAM_END` of zlib. -/
def Z_STREAM_END : Int := 1

/-- The 8-bit value stored at byte position `p` of `buf`. -/
def rd8 (buf : List Byte) (p : Nat) : Nat := (buf.getD p 0).val

/-- The 16-bit big-endian value stored at byte position `p` of `buf`. -/
def rd16 (buf : List Byte) (p : Nat) : Nat :=
  (buf.getD p 0).val * 2 ^ 8 + (buf.getD (p + 1) 0).val

/-- The 56-bit big-endian value of the seven bytes stored at byte position `p` of `buf`. -/
def rd56 (buf : List Byte) (p : Nat) : Nat :=
  (buf.getD p 0).val * 2 ^ 48 + (buf.getD (p + 1) 0).val * 2 ^ 40
    + (buf.getD (p + 2) 0).val * 2 ^ 32 + (buf.getD (p + 3) 0).val * 2 ^ 24
    + (buf.getD (p + 4) 0).val * 2 ^ 16 + (buf.getD (p + 5) 0).val * 2 ^ 8
    + (buf.getD (p + 6) 0).val

/-- The byte of an 8-bit value. -/
def be8 (v : Nat) : List Byte := [Fin.ofNat v]

/-- The two bytes of a 16-bit value, big-endian. -/
def be16 (v : Nat) : List Byte := [Fin.ofNat (v / 2 ^ 8), Fin.ofNat v]

/-- The seven bytes of a 56-bit value, big-endian. -/
def be56 (v : Nat) : List Byte :=
  [Fin.ofNat (v / 2 ^ 48), Fin.ofNat (v / 2 ^ 40), Fin.ofNat (v / 2 ^ 32),
   Fin.ofNat (v / 2 ^ 24), Fin.ofNat (v / 2 ^ 16), Fin.ofNat (v / 2 ^ 8), Fin.ofNat v]

/-- Modelled from the spec: the struct `elf::Header` of the absent `elf.h` read from its 52
raw bytes: magic (32 bits), file class, encoding, version (8 bits each), ABI (16 bits), seven
padding bytes, then type, machine (16 bits), version, entry, phoff, shoff, flags (32 bits),
ehsize, phentsize, phnum, shentsize, shnum, shstrndx (16 bits), all big-endian. -/
def parseHeader (bs : List Byte) : Header :=
  { magic := rd32 bs 0, fileClass := rd8 bs 4, encoding := rd8 bs 5, elfVersion := rd8 bs 6
    abi := rd16 bs 7, pad := rd56 bs 9, type := rd16 bs 16, machine := rd16 bs 18
    version := rd32 bs 20, entry := rd32 bs 24, phoff := rd32 bs 28, shoff := rd32 bs 32
    flags := rd32 bs 36, ehsize := rd16 bs 40, phentsize := rd16 bs 42, phnum := rd16 bs 44
    shentsize := rd16 bs 46, shnum := rd16 bs 48, shstrndx := rd16 bs 50 }

/-- The 52 raw bytes of the struct `elf::Header`, in the layout of `parseHeader`. -/
def headerBytes (h : Header) : List Byte :=
  be32 h.magic ++ be8 h.fileClass ++ be8 h.encoding ++ be8 h.elfVersion ++ be16 h.abi
    ++ be56 h.pad ++ be16 h.type ++ be16 h.machine ++ be32 h.version ++ be32 h.entry
    ++ be32 h.phoff ++ be32 h.shoff ++ be32 h.flags ++ be16 h.ehsize ++ be16 h.phentsize
    ++ be16 h.phnum ++ be16 h.shentsize ++ be16 h.shnum ++ be16 h.shstrndx

/-- Modelled from the spec: the struct `elf::SectionHeader` of the absent `elf.h` read from
its 40 raw bytes: name, type, flags, addr, offset, size, link, info, addralign, entsize, 32
bits each, big-endian. -/
def parseSectionHeader (bs : List Byte) : SectionHeader :=
  { name := rd32 bs 0, type := rd32 bs 4, flags := rd32 bs 8, addr := rd32 bs 12
    offset := rd32 bs 16, size := rd32 bs 20, link := rd32 bs 24, info := rd32 bs 28
    addralign := rd32 bs 32, entsize := rd32 bs 36 }

/-- The 40 raw bytes of the struct `elf::SectionHeader`. -/
def sectionHeaderBytes (h : SectionHeader) : List Byte :=
  be32 h.name ++ be32 h.type ++ be32 h.flags ++ be32 h.addr ++ be32 h.offset ++ be32 h.size
    ++ be32 h.link ++ be32 h.info ++ be32 h.addralign ++ be32 h.entsize

/-- The state of the input stream `fh`: the read position and whether a read has failed. -/
structure Stream where
  pos : Nat
  fail : Bool
deriving DecidableEq

/-- `fh.read(dest, n)` into a destination that holds zeros: the `n` bytes of the destination
after the call and the stream after it.  A failed stream reads nothing; a read that runs
past the end of the source delivers the bytes that are there and fails the stream. -/
def streamRead (src : List Byte) (st : Stream) (n : Nat) : List Byte × Stream :=
  if st.fail then (List.replicate n 0, st)
  else if n = 0 then ([], st)
  else if st.pos + n ≤ src.length then ((src.drop st.pos).take n, { st with pos := st.pos + n })
  else ((src.drop st.pos).take n ++ List.replicate (n - (src.length - st.pos)) 0,
        { st with fail := true })

/-- `fh.seekg(p)`: sets the position, unless the stream has failed. -/
def seekg (st : Stream) (p : Nat) : Stream :=
  if st.fail then st else { st with pos := p }

/-- The decompression primitive of zlib, kept abstract: the code returned by `inflateInit`,
and `inflate` as a function of the input buffer, of the declared input length `avail_in` and
of the output capacity `avail_out`, giving the returned code and the bytes produced. -/
structure Zlib where
  inflateInit : Int
  inflate : List Byte → Nat → Nat → Int × List Byte

/-- The buffer `section.data` after `inflate`: `size` bytes, the produced ones first. -/
def inflatedData (size : Nat) (produced : List Byte) : List Byte :=
  produced.take size ++ List.replicate (size - produced.length) 0

/-- The function `readSection`: the returned flag, the section and the stream after the
call; `none` when the program is terminated by the exception that `temp.resize` throws for a
deflated section of fewer than four bytes (the difference `size - sizeof(uint32_t)` is taken
in `size_t`, where it wraps to a length that no vector can have).  The host is
little-endian, so that `byte_swap` gives the big-endian value of the size prefix. -/
def readSection (z : Zlib) (src : List Byte) (st : Stream) : Option (Bool × Section × Stream) :=
  -- Read section header
  let hd := streamRead src st sizeofSectionHeader
  let header := parseSectionHeader hd.1
  if header.type = SHT_NOBITS ∨ header.size = 0 then
    some (true, { header := header, data := [] }, hd.2)
  else if header.flags &&& SHF_DEFLATED ≠ 0 then
    -- Read the original size
    let sz := streamRead src (seekg hd.2 header.offset) 4
    let size := rd32 sz.1 0
    if z.inflateInit ≠ Z_OK then some (false, { header := header, data := [] }, sz.2)
    else if header.size < 4 then none
    else
      let temp := streamRead src sz.2 (header.size - 4)
      let ret := z.inflate temp.1 header.size size
      if ret.1 ≠ Z_OK ∧ ret.1 ≠ Z_STREAM_END then
        some (false, { header := header, data := [] }, temp.2)
      else some (true, { header := header, data := inflatedData size ret.2 }, temp.2)
  else
    let dat := streamRead src (seekg hd.2 header.offset) header.size
    some (true, { header := header, data := dat.1 }, dat.2)

/-- The section loop of `readRpl` (lines 107-117) from index `i`, with `count` iterations
left, on the stream and the sections pushed so far. -/
def readSections (z : Zlib) (src : List Byte) (header : Header) :
    Nat → Nat → Stream → List Section → Option (Bool × List Section × Stream)
  | 0, _, st, sections => some (true, sections, st)
  | count + 1, i, st, sections =>
    match readSection z src (seekg st ((header.shoff + header.shentsize * i) % 2 ^ 32)) with
    | none => none
    | some (false, _, st') => some (false, sections, st')
    | some (true, s, st') => readSections z src header count (i + 1) st' (sections ++ [s])

/-- The read of one name in the name loop (line 122): the string built from
`shStrTab + name` ends inside the buffer of the name table when that buffer holds a zero
byte at or after the position `name`.  With an empty buffer `shStrTab` is the null pointer
and no read ends. -/
def nameEnds (table : List Byte) (name : Nat) : Bool :=
  (table.drop name).any (fun b => decide (b = 0))

/-- The name loop of `readRpl` (lines 119-123) has a defined result: `shstrndx` is inside the
section vector and the name of every section ends inside the buffer of the section at
`shstrndx`. -/
def nameLoopDefined (header : Header) (sections : List Section) : Bool :=
  match sections[header.shstrndx]? with
  | none => false
  | some table => sections.all (fun s => nameEnds table.data s.header.name)

/-- The function `readRpl` on the content of the source file (`none` when the file cannot
be opened): the returned flag and the container.  The header struct is taken to hold zeros
before the read.  The result is `none` when `readSection` is terminated by an exception, and
when the name loop has no defined result: it indexes the section vector at a `shstrndx` out
of its range, or reads a name through the null pointer of an empty buffer or past the end of
the buffer.  The name strings that this loop resolves are not kept in the model, no later
stage reads them. -/
def readRpl (z : Zlib) (src : Option (List Byte)) : Option (Bool × Rpl) :=
  match src with
  | none =>
    some (false, { header := parseHeader (List.replicate sizeofHeader 0), sections := [] })
  | some bytes =>
    let hd := streamRead bytes { pos := 0, fail := false } sizeofHeader
    let header := parseHeader hd.1
    if header.magic ≠ HeaderMagic then some (false, { header := header, sections := [] })
    else
      -- Read sections
      match readSections z bytes header header.shnum 0 hd.2 [] with
      | none => none
      | some (false, sections, _) => some (false, { header := header, sections := sections })
      | some (true, sections, _) =>
        -- Set section names
        if nameLoopDefined header sections then
          some (true, { header := header, sections := sections })
        else none

/-! ## The writer `writeElf` (main.cpp, lines 425-457) and `main` (lines 574-606) -/

/-- `out.seekp(p); out.write(bs)` on the content of the destination file: a gap between the
end of the file and `p` is filled with zeros. -/
def writeAt (f : List Byte) (p : Nat) (bs : List Byte) : List Byte :=
  if bs = [] then f
  else f.take p ++ List.replicate (p - f.length) 0 ++ bs ++ f.drop (p + bs.length)

/-- The function `writeElf`: the returned flag and the content of the destination file,
`none` when the file cannot be opened (`dstOpens = false`). -/
def writeElf (file : Rpl) (dstOpens : Bool) : Bool × Option (List Byte) :=
  if !dstOpens then (false, none)
  else
    -- Write file header
    let out0 := writeAt [] 0 (headerBytes file.header)
    -- Write section headers
    let out1 := writeAt out0 file.header.shoff
      (file.sections.map fun s => sectionHeaderBytes s.header).flatten
    -- Write sections
    let out2 := file.sections.foldl
      (fun out s => if s.data.length ≠ 0 then writeAt out s.header.offset s.data else out) out1
    (true, some out2)

/-- The stages that `main` runs, in its order. -/
inductive Stage where
  | readRpl
  | fixFileHeader
  | fixRelocations
  | relocateImports
  | calculateSectionOffsets
  | writeElf
deriving DecidableEq

/-- What a run of `main` leaves: the exit code, the stages it invoked with the flag each one
returned, and the content of the destination file (`none` when it was never opened). -/
structure Run where
  exitCode : Int
  trace : List (Stage × Bool)
  dst : Option (List Byte)
deriving DecidableEq

/-- The function `main` from line 574 on, after the two paths are known: `src` is the
content of the source file (`none` when it cannot be opened), `dstOpens` tells whether the
destination file can be opened for writing; `none` when the loader is terminated by an
exception. -/
def main (z : Zlib) (src : Option (List Byte)) (dstOpens : Bool) : Option Run :=
  match readRpl z src with
  | none => none
  | some (false, _) => some { exitCode := -1, trace := [(Stage.readRpl, false)], dst := none }
  | some (true, rpl) =>
    let r1 := fixFileHeader rpl
    if !r1.2 then
      some { exitCode := -1
             trace := [(Stage.readRpl, true), (Stage.fixFileHeader, false)], dst := none }
    else
    let r2 := fixRelocations r1.1
    if !r2.2 then
      some { exitCode := -1
             trace := [(Stage.readRpl, true), (Stage.fixFileHeader, true),
                       (Stage.fixRelocations, false)]
             dst := none }
    else
    let r3 := relocateImports r2.1
    if !r3.2 then
      some { exitCode := -1
             trace := [(Stage.readRpl, true), (Stage.fixFileHeader, true),
                       (Stage.fixRelocations, true), (Stage.relocateImports, false)]
             dst := none }
    else
    let r4 := calculateSectionOffsets r3.1
    if !r4.2 then
      some { exitCode := -1
             trace := [(Stage.readRpl, true), (Stage.fixFileHeader, true),
                       (Stage.fixRelocations, true), (Stage.relocateImports, true),
                       (Stage.calculateSectionOffsets, false)]
             dst := none }
    else
    let r5 := writeElf r4.1 dstOpens
    if !r5.1 then
      some { exitCode := -1
             trace := [(Stage.readRpl, true), (Stage.fixFileHeader, true),
                       (Stage.fixRelocations, true), (Stage.relocateImports, true),
                       (Stage.calculateSectionOffsets, true), (Stage.writeElf, false)]
             dst := r5.2 }
    else
      some { exitCode := 0
             trace := [(Stage.readRpl, true), (Stage.fixFileHeader, true),
                       (Stage.fixRelocations, true), (Stage.relocateImports, true),
                       (Stage.calculateSectionOffsets, true), (Stage.writeElf, true)]
             dst := r5.2 }

/-! ## Notions used in the statements -/

/-- The packed info word `(index << 8) | kind` of a relocation entry. -/
def packInfo (index kind : Nat) : Nat := index <<< 8 ||| kind

/-- The relocation kind `info & 0xFF` of an entry. -/
def Rela.kind (r : Rela) : Nat := r.info &&& 0xFF

/-- An entry that is not a fully-zeroed sentinel (info, addend, offset all zero). -/
def Rela.nonZero (r : Rela) : Bool := !(r.info = 0 && r.addend = 0 && r.offset = 0)

/-- An entry with each field reduced to 32 bits, as it is stored. -/
def wrapRela (r : Rela) : Rela :=
  { offset := r.offset % 2 ^ 32, info := r.info % 2 ^ 32, addend := r.addend % 2 ^ 32 }

/-- An entry whose three fields are 32-bit values. -/
def Rela.wf (r : Rela) : Prop := r.offset < 2 ^ 32 ∧ r.info < 2 ^ 32 ∧ r.addend < 2 ^ 32

/-- The tests of lines 208-210 and 239-241: `l` is the entry sought as the other half of the
split entry `r`. -/
def isPartner (r l : Rela) : Bool :=
  (r.kind = R_PPC_GHS_REL16_HI
      && l.info = ((r.info >>> 8) <<< 8) % 2 ^ 32 ||| R_PPC_GHS_REL16_LO
      && l.addend = (r.addend + 2) % 2 ^ 32 && l.offset = (r.offset + 2) % 2 ^ 32)
  || (r.kind = R_PPC_GHS_REL16_LO
      && l.info = ((r.info >>> 8) <<< 8) % 2 ^ 32 ||| R_PPC_GHS_REL16_HI
      && l.addend = (r.addend + 2 ^ 32 - 2) % 2 ^ 32
      && l.offset = (r.offset + 2 ^ 32 - 2) % 2 ^ 32)

/-- The symbol type test of lines 485-487 passes: object, function or section. -/
def isRelocatableSymbol (info : Nat) : Prop :=
  info &&& 0xf = STT_OBJECT ∨ info &&& 0xf = STT_FUNC ∨ info &&& 0xf = STT_SECTION

instance (info : Nat) : Decidable (isRelocatableSymbol info) := by
  unfold isRelocatableSymbol; infer_instance

/-- The size that `relocateSection` attributes to a section (line 468): its buffer length,
or its header size when the buffer is empty. -/
def sectionSizeOf (s : Section) : Nat :=
  if s.data.length ≠ 0 then s.data.length else s.header.size

/-- The test of the `c`-th placement loop, in the order of the source: CRCs, file-info, data,
read, imports, text, temp. -/
def scanPred : Nat → Section → Bool
  | 0 => isCrcsSection
  | 1 => isFileInfoSection
  | 2 => isDataSection
  | 3 => isReadSection
  | 4 => isImportsSection
  | 5 => isTextSection
  | 6 => isTempSection
  | _ => fun _ => false

/-- The state (running offset, sections) after the first `c` placement loops. -/
def runScans : Nat → Nat × List Section → Nat × List Section
  | 0, st => st
  | c + 1, st => placeLoop (scanPred c) (runScans c st).1 (runScans c st).2

/-- The category of a section: the number of the first placement loop whose test it
passes, if any. -/
def category (s : Section) : Option Nat :=
  if isCrcsSection s then some 0
  else if isFileInfoSection s then some 1
  else if isDataSection s then some 2
  else if isReadSection s then some 3
  else if isImportsSection s then some 4
  else if isTextSection s then some 5
  else if isTempSection s then some 6
  else none

/-- The sum of the buffer lengths of a list of sections. -/
def sumLen (l : List Section) : Nat := (l.map (fun s => s.data.length)).sum

/-- The sections of `l` whose category is `k`. -/
def inCategory (k : Nat) (s : Section) : Bool := decide (category s = some k)

/-- The sections whose category comes before `k`. -/
def beforeCategory (k : Nat) (s : Section) : Bool :=
  match category s with
  | some j => decide (j < k)
  | none => false

/-- The offset that the planner gives to the section at index `i` of the table when its
category is `k`: the start of the layout, plus the buffer lengths of the sections of
earlier categories, plus those of the sections of category `k` at earlier indices. -/
def plannedOffset (file : Rpl) (i k : Nat) : Nat :=
  (layoutStart file + sumLen ((file.sections.map clearNoData).filter (beforeCategory k))
    + sumLen (((file.sections.map clearNoData).take i).filter (inCategory k))) % 2 ^ 32

/-- The planner runs without 32-bit overflow: the end of the aligned section table plus
the buffer lengths of all the sections that some loop places fits in 32 bits. -/
def layoutFits (file : Rpl) : Prop :=
  file.header.shoff + align_up (file.sections.length * sizeofSectionHeader) 64
    + sumLen ((file.sections.map clearNoData).filter (fun s => (category s).isSome)) < 2 ^ 32

instance (file : Rpl) : Decidable (layoutFits file) := by
  unfold layoutFits; infer_instance

/-- Section `i` is assigned an offset by placement loop `c`: when that loop runs, the
section at index `i` passes its test. -/
def assignedBy (file : Rpl) (c i : Nat) : Prop :=
  ∃ s : Section,
    (runScans c (layoutStart file, file.sections.map clearNoData)).2[i]? = some s
      ∧ scanPred c s = true

/-- A section type that is an ordinary program section: none of null, no-bits and the four
container-specific types. -/
def isProgramType (type : Nat) : Prop :=
  type ≠ SHT_NULL ∧ type ≠ SHT_NOBITS ∧ type ≠ SHT_RPL_EXPORTS ∧ type ≠ SHT_RPL_IMPORTS
    ∧ type ≠ SHT_RPL_CRCS ∧ type ≠ SHT_RPL_FILEINFO

instance (type : Nat) : Decidable (isProgramType type) := by
  unfold isProgramType; infer_instance

/-- The `n` bytes of a file that start at position `p`. -/
def bytesAt (f : List Byte) (p n : Nat) : List Byte := (f.drop p).take n

/-- The header that `readRpl` reads from the content of the source file. -/
def loadedHeader (bytes : List Byte) : Header :=
  parseHeader (streamRead bytes { pos := 0, fail := false } sizeofHeader).1

/-- The stream right after `readRpl` has read the header. -/
def afterHeader (bytes : List Byte) : Stream :=
  (streamRead bytes { pos := 0, fail := false } sizeofHeader).2

/-- The order in which `main` runs the stages. -/
def stageOrder : List Stage :=
  [Stage.readRpl, Stage.fixFileHeader, Stage.fixRelocations, Stage.relocateImports,
   Stage.calculateSectionOffsets, Stage.writeElf]

/-- The section header stored at position `p` of a file. -/
def sectionHeaderAt (f : List Byte) (p : Nat) : SectionHeader :=
  parseSectionHeader (bytesAt f p sizeofSectionHeader)

/-- The input buffer `temp` that `readSection` fills for a deflated section with header `h`
when the stream has not failed before: what a read of `h.size - 4` bytes delivers right
after the size prefix. -/
def compressedInput (src : List Byte) (h : SectionHeader) : List Byte :=
  (streamRead src { pos := h.offset + 4, fail := false } (h.size - 4)).1

/-- The position that `readRpl` seeks to before it reads section `i`. -/
def tableEntry (h : Header) (i : Nat) : Nat := (h.shoff + h.shentsize * i) % 2 ^ 32

/-- Every field of the file header fits the width it has in the file. -/
def Header.inRange (h : Header) : Prop :=
  h.magic < 2 ^ 32 ∧ h.fileClass < 2 ^ 8 ∧ h.encoding < 2 ^ 8 ∧ h.elfVersion < 2 ^ 8
  ∧ h.abi < 2 ^ 16 ∧ h.pad < 2 ^ 56 ∧ h.type < 2 ^ 16 ∧ h.machine < 2 ^ 16
  ∧ h.version < 2 ^ 32 ∧ h.entry < 2 ^ 32 ∧ h.phoff < 2 ^ 32 ∧ h.shoff < 2 ^ 32
  ∧ h.flags < 2 ^ 32 ∧ h.ehsize < 2 ^ 16 ∧ h.phentsize < 2 ^ 16 ∧ h.phnum < 2 ^ 16
  ∧ h.shentsize < 2 ^ 16 ∧ h.shnum < 2 ^ 16 ∧ h.shstrndx < 2 ^ 16

instance (h : Header) : Decidable h.inRange := by
  unfold Header.inRange; infer_instance

/-- Every field of the section header fits in 32 bits. -/
def SectionHeader.inRange (h : SectionHeader) : Prop :=
  h.name < 2 ^ 32 ∧ h.type < 2 ^ 32 ∧ h.flags < 2 ^ 32 ∧ h.addr < 2 ^ 32 ∧ h.offset < 2 ^ 32
  ∧ h.size < 2 ^ 32 ∧ h.link < 2 ^ 32 ∧ h.info < 2 ^ 32 ∧ h.addralign < 2 ^ 32
  ∧ h.entsize < 2 ^ 32

instance (h : SectionHeader) : Decidable h.inRange := by
  unfold SectionHeader.inRange; infer_instance

/-- The header and the buffer of a section agree in the way the loader expects, for a
section table that ends at `tableEnd`: a section of no-bits type or of size 0 has no buffer;
any other section has the deflated flag clear, a buffer of exactly `size` bytes and an
offset at or after the end of the section table. -/
def storedPlain (tableEnd : Nat) (s : Section) : Prop :=
  if s.header.type = SHT_NOBITS ∨ s.header.size = 0 then s.data = []
  else s.header.flags &&& SHF_DEFLATED = 0 ∧ s.data.length = s.header.size
    ∧ tableEnd ≤ s.header.offset

instance (tableEnd : Nat) (s : Section) : Decidable (storedPlain tableEnd s) := by
  unfold storedPlain; infer_instance

/-- The file ranges of two sections do not meet, or one of them has no buffer. -/
def apart (a b : Section) : Prop :=
  a.data = [] ∨ b.data = [] ∨ a.header.offset + a.data.length ≤ b.header.offset
  ∨ b.header.offset + b.data.length ≤ a.header.offset

instance (a b : Section) : Decidable (apart a b) := by
  unfold apart; infer_instance

/-- The container that `main` hands to the writer when the loader delivered `c`. -/
def transformed (c : Rpl) : Rpl :=
  (calculateSectionOffsets (relocateImports (fixRelocations (fixFileHeader c).1).1).1).1

/-- The stream at the end of the section loop of `readRpl`, when the loop runs to its end. -/
def finalStream (z : Zlib) (src : List Byte) : Option Stream :=
  (readSections z src (loadedHeader src) (loadedHeader src).shnum 0 (afterHeader src) []).map
    fun r => r.2.2

/-- The container that reaches the planner when the loader delivered `c`. -/
def prePlanned (c : Rpl) : Rpl :=
  (relocateImports (fixRelocations (fixFileHeader c).1).1).1

/-- The section header that `readSection` reads on the stream `st`. -/
def headerRead (src : List Byte) (st : Stream) : SectionHeader :=
  parseSectionHeader (streamRead src st sizeofSectionHeader).1

/-- The four bytes that `readSection` reads as the size prefix of a deflated section, and
the stream after this read. -/
def prefixStream (src : List Byte) (st : Stream) : List Byte × Stream :=
  streamRead src (seekg (streamRead src st sizeofSectionHeader).2 (headerRead src st).offset) 4

/-- The value `size` of the size prefix after `byte_swap`. -/
def prefixRead (src : List Byte) (st : Stream) : Nat := rd32 (prefixStream src st).1 0

/-- The buffer `temp` that `readSection` hands to `inflate`. -/
def inputRead (src : List Byte) (st : Stream) : List Byte :=
  (streamRead src (prefixStream src st).2 ((headerRead src st).size - 4)).1

/-- The value of the cursor `newLoc` of `relocateImports` (lines 521 and 529) when its loop
reaches the index `i`: the base address plus the buffer lengths of the imports sections at
smaller indices, in 32 bits. -/
def importsCursor (file : Rpl) (i : Nat) : Nat :=
  (elfImportsRelocationAddress + sumLen ((file.sections.take i).filter isImportsSection))
    % 2 ^ 32

/-- The address that `relocateImports` passes to `relocateSection` (line 527) for the section
`s` at index `i`: the cursor aligned up to the alignment of `s`, in 32 bits. -/
def importsTarget (file : Rpl) (i : Nat) (s : Section) : Nat :=
  align_up (importsCursor file i) s.header.addralign % 2 ^ 32

/-- The address range `[addr, addr + size]`, both ends included, that `relocateSection`
tests a value against (lines 468-470 and 491), for the section `s`. -/
def inRangeOf (s : Section) (v : Nat) : Prop :=
  s.header.addr ≤ v ∧ v ≤ s.header.addr + sectionSizeOf s

instance (s : Section) (v : Nat) : Decidable (inRangeOf s v) := by
  unfold inRangeOf; infer_instance

/-- The header fields by which the sections of a container are told apart and refer to each
other by table index: name, type, link and info. -/
def Section.key (s : Section) : Nat × Nat × Nat × Nat :=
  (s.header.name, s.header.type, s.header.link, s.header.info)

/-- The container `b` has the shape of the container `a`: the same magic, section-table
offset, section count, section-header size and name-table index in the header, as many
sections, and at every table index a section with the same name, type, link and info. -/
def sameShape (a b : Rpl) : Prop :=
  b.header.magic = a.header.magic ∧ b.header.shoff = a.header.shoff
    ∧ b.header.shnum = a.header.shnum ∧ b.header.shentsize = a.header.shentsize
    ∧ b.header.shstrndx = a.header.shstrndx
    ∧ b.sections.length = a.sections.length
    ∧ b.sections.map Section.key = a.sections.map Section.key

instance (a b : Rpl) : Decidable (sameShape a b) := by
  unfold sameShape; infer_instance

/-- The original address ranges `[addr, addr + size]` of the imports sections of `file` are
pairwise disjoint. -/
def importsApart (file : Rpl) : Prop :=
  ∀ j < file.sections.length, ∀ k < file.sections.length,
    ∀ sj ∈ file.sections[j]?, ∀ sk ∈ file.sections[k]?,
      j ≠ k → sj.header.type = SHT_RPL_IMPORTS → sk.header.type = SHT_RPL_IMPORTS →
        sj.header.addr + sectionSizeOf sj < sk.header.addr
          ∨ sk.header.addr + sectionSizeOf sk < sj.header.addr

instance (file : Rpl) : Decidable (importsApart file) := by
  unfold importsApart; infer_instance

/-- The range `[new, new + size]` that `relocateImports` moves the imports section `sk` at
index `k` to ends below `2 ^ 32` and does not meet the original range of the section `sj`. -/
def targetClear (file : Rpl) (sj : Section) (k : Nat) (sk : Section) : Prop :=
  importsTarget file k sk + sectionSizeOf sk < 2 ^ 32
    ∧ (sj.header.addr + sectionSizeOf sj < importsTarget file k sk
        ∨ importsTarget file k sk + sectionSizeOf sk < sj.header.addr)

instance (file : Rpl) (sj : Section) (k : Nat) (sk : Section) :
    Decidable (targetClear file sj k sk) := by
  unfold targetClear; infer_instance

/-- The target window of `relocateImports` is clear: the range `[new, new + size]` that an
imports section is moved to ends below `2 ^ 32`, and the original range of no imports
section meets it. -/
def windowClear (file : Rpl) : Prop :=
  ∀ j < file.sections.length, ∀ k < file.sections.length,
    ∀ sj ∈ file.sections[j]?, ∀ sk ∈ file.sections[k]?,
      sj.header.type = SHT_RPL_IMPORTS → sk.header.type = SHT_RPL_IMPORTS →
        targetClear file sj k sk

instance (file : Rpl) : Decidable (windowClear file) := by
  unfold windowClear; infer_instance

/-- The result of the section loop of `readRpl` (lines 107-117) on the content of a source
file: the flag of the loop and the sections it pushed, before the name loop runs. -/
def loadedSections (z : Zlib) (src : List Byte) : Option (Bool × List Section) :=
  (readSections z src (loadedHeader src) (loadedHeader src).shnum 0 (afterHeader src) []).map
    (fun r => (r.1, r.2.1))

/-! ## Auxiliary definitions of the proofs -/

/-- How an entry of the working array relates to the original one: untouched, or zeroed
while the original had a kind outside the whitelist. -/
def entryRel (o c : Rela) : Prop := c = o ∨ (c = zeroRela ∧ isWhitelisted o.kind = false)

/-- An emitted entry: a non-zero entry of whitelisted kind, or one of the merged kind. -/
def emittedOk (r : Rela) : Prop :=
  (isWhitelisted r.kind = true ∧ r.nonZero = true) ∨ r.kind = R_PPC_REL32

/-- The payload that `relocateSection` leaves in a section `s` of the table. -/
def relocatedData (a e n sectionIndex : Nat) (s : Section) : List Byte :=
  if s.header.type = SHT_SYMTAB then relocateSymbols a e n s.data
  else if s.header.type = SHT_RELA ∧ s.header.info = sectionIndex then relocateRelas a e n s.data
  else s.data

/-- The loop that the type and the flags of a section select, whatever its size (7 for
none). -/
def loopOfKind (type flags : Nat) : Nat :=
  if type = SHT_RPL_CRCS then 0
  else if type = SHT_RPL_FILEINFO then 1
  else if type = SHT_RPL_IMPORTS then 4
  else if type = SHT_NOBITS then 7
  else if flags &&& SHF_EXECINSTR = 0 ∧ flags &&& SHF_WRITE ≠ 0 ∧ flags &&& SHF_ALLOC ≠ 0 then 2
  else if (flags &&& SHF_EXECINSTR = 0 ∨ type = SHT_RPL_EXPORTS) ∧ flags &&& SHF_WRITE = 0
      ∧ flags &&& SHF_ALLOC ≠ 0 then 3
  else if flags &&& SHF_EXECINSTR ≠ 0 ∧ type ≠ SHT_RPL_EXPORTS then 5
  else if flags &&& SHF_EXECINSTR = 0 ∧ flags &&& SHF_ALLOC = 0 then 6
  else 7

/-- Advance the running offset of loop `k` by a buffer length, in 32 bits. -/
def bump (base : Nat → Nat) (k len : Nat) : Nat → Nat :=
  fun j => if j = k then (base k + len % 2 ^ 32) % 2 ^ 32 else base j

/-- The sections after the first `c` placement loops, computed in a single pass over the
table, `base k` being the running offset of loop `k`. -/
def assignUpTo (c : Nat) : (Nat → Nat) → List Section → (Nat → Nat) × List Section
  | base, [] => (base, [])
  | base, s :: rest =>
    match category s with
    | some k =>
      if k < c then
        ((assignUpTo c (bump base k s.data.length) rest).1,
          placeSection (base k) s :: (assignUpTo c (bump base k s.data.length) rest).2)
      else ((assignUpTo c base rest).1, s :: (assignUpTo c base rest).2)
    | none => ((assignUpTo c base rest).1, s :: (assignUpTo c base rest).2)

/-- The running offset of loop `k` after the sections `l`, from `base k`. -/
def offsetIn (base : Nat → Nat) (k : Nat) (l : List Section) : Nat :=
  (base k + sumLen (l.filter (inCategory k))) % 2 ^ 32

/-- The section that the first `c` loops leave at a place of the table where the cleared
table holds `s`, the running offsets having reached `off`. -/
def placedAs (c : Nat) (off : Nat → Nat) (s : Section) : Section :=
  match category s with
  | some k => if k < c then placeSection (off k) s else s
  | none => s

/-- The running offset at which loop `k` starts: the start of the layout plus the buffer
lengths of the sections of the earlier categories, in 32 bits. -/
def loopStart (start : Nat) (s0 : List Section) (k : Nat) : Nat :=
  (start + sumLen (s0.filter (beforeCategory k))) % 2 ^ 32

/-- The third step of `writeElf`: the buffers of the sections written into the file `f`. -/
def writePayloads (f : List Byte) (sections : List Section) : List Byte :=
  sections.foldl
    (fun out s => if s.data.length ≠ 0 then writeAt out s.header.offset s.data else out) f

/-- The bytes of the section table that `writeElf` writes at `shoff`. -/
def tableBytes (sections : List Section) : List Byte :=
  (sections.map fun s => sectionHeaderBytes s.header).flatten

/-- The section that the planner leaves at index `i` for the incoming section `s`. -/
def plannedSection (file : Rpl) (i : Nat) (s : Section) : Section :=
  match category s with
  | some k => placeSection (plannedOffset file i k) (clearNoData s)
  | none => clearNoData s

/-- An entry that the outer loop of the fixer still has to copy: not zero, of whitelisted
kind. -/
def pendingEntry (r : Rela) : Bool := r.nonZero && isWhitelisted r.kind

/-- An entry that an inner loop of the fixer can still consume: not zero, of a kind that is
not whitelisted. -/
def liveEntry (r : Rela) : Bool := r.nonZero && !isWhitelisted r.kind

/-- The buffer of the section `s` of `file` after the first `k` iterations of the loop of
`relocateImports`. -/
def importsData (file : Rpl) : Nat → Section → List Byte
  | 0, s => s.data
  | k + 1, s =>
    match file.sections[k]? with
    | none => importsData file k s
    | some sect =>
      if sect.header.type = SHT_RPL_IMPORTS then
        relocatedData sect.header.addr (sect.header.addr + sectionSizeOf sect)
          (importsTarget file k sect) k { s with data := importsData file k s }
      else importsData file k s

/-- The section `s` at index `j` of `file` after the first `k` iterations of the loop of
`relocateImports`. -/
def importsSection (file : Rpl) (k j : Nat) (s : Section) : Section :=
  { header := if j < k ∧ s.header.type = SHT_RPL_IMPORTS then
      { s.header with addr := importsTarget file j s, flags := s.header.flags ||| SHF_ALLOC }
    else s.header
    data := importsData file k s }

/-! ## Example containers -/

/-- A relocation section holding a high-half entry without partner, a whitelisted entry and
an entry of an unsupported kind. -/
def exampleRelaSection : Section :=
  { header := { name := 1, type := SHT_RELA, flags := 0x08000000, addr := 0, offset := 0x200,
                size := 36, link := 2, info := 1, addralign := 4, entsize := 12 }
    data := relasBytes [{ offset := 0x10, info := packInfo 3 R_PPC_GHS_REL16_HI, addend := 4 },
                        { offset := 0x20, info := packInfo 3 R_PPC_ADDR32, addend := 0 },
                        { offset := 0x30, info := packInfo 3 99, addend := 8 }] }

/-- A container with a null section and `exampleRelaSection`. -/
def exampleRelaFile : Rpl :=
  { header := { magic := 0x7f454c46, abi := 0xcafe, type := 0xfe01, shoff := 0x40, shnum := 2,
                shentsize := 40, shstrndx := 0 }
    sections := [{ header := { name := 0, type := SHT_NULL, flags := 0, addr := 0, offset := 0,
                               size := 0, link := 0, info := 0, addralign := 0, entsize := 0 }
                   data := [] },
                 exampleRelaSection] }

/-- The sixteen bytes of a symbol-table entry with the given value and info byte. -/
def exampleSymbol (value : Nat) (info : Byte) : List Byte :=
  be32 0 ++ be32 value ++ be32 0 ++ [info, 0, 0, 0]

/-- A container with an imports section at address `0x100` holding eight bytes, and a symbol
table with a function symbol at the end of that section, an object symbol one byte further
and an untyped symbol inside the section. -/
def exampleSymFile : Rpl :=
  { header := { magic := 0x7f454c46, abi := 0xcafe, type := 0xfe01, shoff := 0x40, shnum := 2,
                shentsize := 40, shstrndx := 0 }
    sections := [{ header := { name := 0, type := SHT_RPL_IMPORTS, flags := 4, addr := 0x100,
                               offset := 0, size := 8, link := 0, info := 0, addralign := 4,
                               entsize := 0 }
                   data := [1, 2, 3, 4, 5, 6, 7, 8] },
                 { header := { name := 0, type := SHT_SYMTAB, flags := 0, addr := 0,
                               offset := 0, size := 48, link := 0, info := 0, addralign := 4,
                               entsize := 16 }
                   data := exampleSymbol 0x108 0x12 ++ exampleSymbol 0x109 0x11
                     ++ exampleSymbol 0x104 0x10 }] }

/-- A container with an imports section at address `0x100` holding eight bytes, a relocation
section for it (info 0) and a relocation section for another section (info 5). -/
def exampleRelocFile : Rpl :=
  { header := { magic := 0x7f454c46, abi := 0xcafe, type := 0xfe01, shoff := 0x40, shnum := 3,
                shentsize := 40, shstrndx := 0 }
    sections := [{ header := { name := 0, type := SHT_RPL_IMPORTS, flags := 4, addr := 0x100,
                               offset := 0, size := 8, link := 0, info := 0, addralign := 4,
                               entsize := 0 }
                   data := [1, 2, 3, 4, 5, 6, 7, 8] },
                 { header := { name := 0, type := SHT_RELA, flags := 0, addr := 0,
                               offset := 0, size := 24, link := 0, info := 0, addralign := 4,
                               entsize := 12 }
                   data := relasBytes [{ offset := 0x104, info := 0x101, addend := 3 },
                                       { offset := 0x109, info := 0x101, addend := 4 }] },
                 { header := { name := 0, type := SHT_RELA, flags := 0, addr := 0,
                               offset := 0, size := 12, link := 0, info := 5, addralign := 4,
                               entsize := 12 }
                   data := relasBytes [{ offset := 0x104, info := 0x101, addend := 3 }] }] }

/-- A container with a null section, a text section of 16 bytes and a data section of 8
bytes, the section table at `0x40`. -/
def exampleLayoutFile : Rpl :=
  { header := { magic := 0x7f454c46, abi := 0xcafe, type := 0xfe01, shoff := 0x40, shnum := 3,
                shentsize := 40, shstrndx := 0 }
    sections := [{ header := { name := 0, type := SHT_NULL, flags := 0, addr := 0, offset := 0,
                               size := 0, link := 0, info := 0, addralign := 0, entsize := 0 }
                   data := [] },
                 { header := { name := 1, type := 1, flags := SHF_EXECINSTR ||| SHF_ALLOC,
                               addr := 0x02000000, offset := 0x1000, size := 16, link := 0,
                               info := 0, addralign := 32, entsize := 0 }
                   data := List.replicate 16 0x60 },
                 { header := { name := 7, type := 1, flags := SHF_WRITE ||| SHF_ALLOC,
                               addr := 0x10000000, offset := 0x2000, size := 8, link := 0,
                               info := 0, addralign := 32, entsize := 0 }
                   data := List.replicate 8 0x11 }] }

/-- A container with three imports sections of alignment 4 whose buffers hold 2, 2 and 4
bytes. -/
def exampleImportsFile : Rpl :=
  { header := { magic := 0x7f454c46, abi := 0xcafe, type := 0xfe01, shoff := 0x40, shnum := 3,
                shentsize := 40, shstrndx := 0 }
    sections := [{ header := { name := 1, type := SHT_RPL_IMPORTS, flags := SHF_EXECINSTR,
                               addr := 0xc0000000, offset := 0x100, size := 2, link := 0,
                               info := 0, addralign := 4, entsize := 0 }
                   data := [1, 2] },
                 { header := { name := 2, type := SHT_RPL_IMPORTS, flags := SHF_EXECINSTR,
                               addr := 0xc0000100, offset := 0x102, size := 2, link := 0,
                               info := 0, addralign := 4, entsize := 0 }
                   data := [3, 4] },
                 { header := { name := 3, type := SHT_RPL_IMPORTS, flags := SHF_EXECINSTR,
                               addr := 0xc0000200, offset := 0x104, size := 4, link := 0,
                               info := 0, addralign := 4, entsize := 0 }
                   data := [5, 6, 7, 8] }] }

/-- A container whose only section has type null, a declared size of 4, no flags, and the
four bytes that the loader read for it. -/
def exampleNullFile : Rpl :=
  { header := { magic := 0x7f454c46, abi := 0xcafe, type := 0xfe01, shoff := 0x40, shnum := 1,
                shentsize := 40, shstrndx := 0 }
    sections := [{ header := { name := 0, type := SHT_NULL, flags := 0, addr := 0,
                               offset := 0x68, size := 4, link := 0, info := 0, addralign := 0,
                               entsize := 0 }
                   data := [0, 0, 0, 0] }] }

/-- A container with a text section of 16 bytes and an exports section (exec, write and
alloc set) of 8 bytes that came with the file offset `0x10`. -/
def exampleUnplacedFile : Rpl :=
  { header := { magic := 0x7f454c46, abi := 0xcafe, type := 0xfe01, shoff := 0x40, shnum := 2,
                shentsize := 40, shstrndx := 0 }
    sections := [{ header := { name := 1, type := 1, flags := SHF_EXECINSTR ||| SHF_ALLOC,
                               addr := 0x02000000, offset := 0x1000, size := 16, link := 0,
                               info := 0, addralign := 32, entsize := 0 }
                   data := List.replicate 16 0x60 },
                 { header := { name := 7, type := SHT_RPL_EXPORTS,
                               flags := SHF_EXECINSTR ||| SHF_WRITE ||| SHF_ALLOC,
                               addr := 0x02000100, offset := 0x10, size := 8, link := 0,
                               info := 0, addralign := 4, entsize := 0 }
                   data := List.replicate 8 0x11 }] }

/-- The container `exampleUnplacedFile` with the incoming offset of its exports section set to
0 instead of `0x10`. -/
def exampleUnplacedFileZero : Rpl :=
  { exampleUnplacedFile with
    sections := exampleUnplacedFile.sections.map fun s =>
      if s.header.type = SHT_RPL_EXPORTS then { s with header := { s.header with offset := 0 } }
      else s }

/-- A container whose section table starts at `0x34`, right after the file header, with a
null section and a data section of 8 bytes. -/
def exampleUnalignedFile : Rpl :=
  { header := { magic := 0x7f454c46, abi := 0xcafe, type := 0xfe01, shoff := 0x34, shnum := 2,
                shentsize := 40, shstrndx := 0 }
    sections := [{ header := { name := 0, type := SHT_NULL, flags := 0, addr := 0, offset := 0,
                               size := 0, link := 0, info := 0, addralign := 0, entsize := 0 }
                   data := [] },
                 { header := { name := 7, type := 1, flags := SHF_WRITE ||| SHF_ALLOC,
                               addr := 0x10000000, offset := 0x2000, size := 8, link := 0,
                               info := 0, addralign := 32, entsize := 0 }
                   data := List.replicate 8 0x11 }] }

/-- A stand-in for the decompressor: a compressed stream is the byte `0x78` followed by the
bytes it stands for; any other input is rejected with the code -3 (`Z_DATA_ERROR`). -/
def exampleZlib : Zlib :=
  { inflateInit := Z_OK
    inflate := fun input _ availOut =>
      if input.head? = some 0x78 then (Z_STREAM_END, (input.drop 1).take availOut)
      else (-3, []) }

/-- The file header of the example source files: the section table of three entries starts
at byte 52, the section name table is section 2. -/
def exampleSourceHeader : Header :=
  { magic := 0x7f454c46, fileClass := 1, encoding := 2, elfVersion := 1, abi := 0xcafe,
    type := 0xfe01, machine := 20, version := 1, shoff := 52, ehsize := 52, shentsize := 40,
    shnum := 3, shstrndx := 2 }

/-- The bytes of a section name table holding the names `.text` and `.shstrtab`. -/
def exampleNames : List Byte :=
  [0, 0x2e, 0x74, 0x65, 0x78, 0x74, 0, 0x2e, 0x73, 0x68, 0x73, 0x74, 0x72, 0x74, 0x61, 0x62, 0]

/-- The section header of the null section. -/
def exampleNullHeader : SectionHeader :=
  { name := 0, type := SHT_NULL, flags := 0, addr := 0, offset := 0, size := 0, link := 0,
    info := 0, addralign := 0, entsize := 0 }

/-- The section header of the name table of the example source files, stored at byte 172. -/
def exampleNamesHeader : SectionHeader :=
  { name := 7, type := 3, flags := 0, addr := 0, offset := 172, size := 17, link := 0,
    info := 0, addralign := 1, entsize := 0 }

/-- The section header of the text section of `exampleSource`, stored at byte 192. -/
def exampleTextHeader : SectionHeader :=
  { name := 1, type := 1, flags := SHF_EXECINSTR ||| SHF_ALLOC, addr := 0x02000000,
    offset := 192, size := 8, link := 0, info := 0, addralign := 32, entsize := 0 }

/-- The bytes of the text section of `exampleSource`. -/
def exampleText : List Byte := [0x60, 0, 0, 0, 0x4e, 0x80, 0, 0x20]

/-- A source file with a null section, a text section of 8 stored bytes at byte 192 and the
section name table. -/
def exampleSource : List Byte :=
  headerBytes exampleSourceHeader
    ++ sectionHeaderBytes exampleNullHeader
    ++ sectionHeaderBytes exampleTextHeader
    ++ sectionHeaderBytes exampleNamesHeader
    ++ exampleNames ++ [0, 0, 0]
    ++ exampleText

/-- The container that the loader builds from `exampleSource`. -/
def exampleLoaded : Rpl :=
  { header := exampleSourceHeader
    sections := [{ header := exampleNullHeader, data := [] },
                 { header := exampleTextHeader, data := exampleText },
                 { header := exampleNamesHeader, data := exampleNames }] }

/-- The source file `exampleSource` with its text section stored deflated: the size prefix 8,
then the stream of `exampleZlib` for the 8 bytes `00 00 00 04 01 02 03 04`. -/
def exampleDeflatedSource : List Byte :=
  headerBytes exampleSourceHeader
    ++ sectionHeaderBytes exampleNullHeader
    ++ sectionHeaderBytes { name := 1, type := 1,
                            flags := SHF_DEFLATED ||| SHF_EXECINSTR ||| SHF_ALLOC,
                            addr := 0x02000000, offset := 192, size := 13, link := 0, info := 0,
                            addralign := 32, entsize := 0 }
    ++ sectionHeaderBytes exampleNamesHeader
    ++ exampleNames ++ [0, 0, 0]
    ++ be32 8 ++ [0x78, 0, 0, 0, 4, 1, 2, 3, 4]

/-- A truncated source file of 192 bytes: its section table lists the name table, a text
section whose 8 bytes would start at byte 256, past the end of the file, and a data section
without stored bytes. -/
def exampleTruncatedSource : List Byte :=
  headerBytes { exampleSourceHeader with shstrndx := 0 }
    ++ sectionHeaderBytes exampleNamesHeader
    ++ sectionHeaderBytes { name := 1, type := 1, flags := SHF_EXECINSTR ||| SHF_ALLOC,
                            addr := 0x02000000, offset := 256, size := 8, link := 0, info := 0,
                            addralign := 32, entsize := 0 }
    ++ sectionHeaderBytes { name := 7, type := 1, flags := SHF_WRITE ||| SHF_ALLOC,
                            addr := 0x10000000, offset := 0, size := 0, link := 0, info := 0,
                            addralign := 32, entsize := 0 }
    ++ exampleNames ++ [0, 0, 0]

/-- The source file `exampleDeflatedSource` with the first byte of its compressed stream
changed, so that `exampleZlib` rejects the stream. -/
def exampleCorruptSource : List Byte := exampleDeflatedSource.set 196 0x79

/-- The container that the loader builds from `exampleDeflatedSource` with `exampleZlib`:
the text section holds the 8 inflated bytes and its header still says deflated, size 13. -/
def exampleDeflatedLoaded : Rpl :=
  { header := exampleSourceHeader
    sections := [{ header := exampleNullHeader, data := [] },
                 { header := { name := 1, type := 1,
                               flags := SHF_DEFLATED ||| SHF_EXECINSTR ||| SHF_ALLOC,
                               addr := 0x02000000, offset := 192, size := 13, link := 0,
                               info := 0, addralign := 32, entsize := 0 }
                   data := [0, 0, 0, 4, 1, 2, 3, 4] },
                 { header := exampleNamesHeader, data := exampleNames }] }

/-- A source file like `exampleSource` whose section table has entries of 48 bytes: the three
section headers are stored at the bytes 52, 100 and 148, the names at byte 196 and the text
at byte 216. -/
def exampleStrideSource : List Byte :=
  headerBytes { exampleSourceHeader with shentsize := 48 }
    ++ sectionHeaderBytes exampleNullHeader ++ List.replicate 8 0
    ++ sectionHeaderBytes { exampleTextHeader with offset := 216 } ++ List.replicate 8 0
    ++ sectionHeaderBytes { exampleNamesHeader with offset := 196 } ++ List.replicate 8 0
    ++ exampleNames ++ [0, 0, 0]
    ++ exampleText

/-- A source file with a null section, the section name table at byte 172 and an exports
section with the exec, write and alloc flags whose 8 bytes are stored at byte 192. -/
def exampleExportsSource : List Byte :=
  headerBytes { exampleSourceHeader with shstrndx := 1 }
    ++ sectionHeaderBytes exampleNullHeader
    ++ sectionHeaderBytes exampleNamesHeader
    ++ sectionHeaderBytes { name := 1, type := SHT_RPL_EXPORTS,
                            flags := SHF_EXECINSTR ||| SHF_WRITE ||| SHF_ALLOC,
                            addr := 0x02000100, offset := 192, size := 8, link := 0,
                            info := 0, addralign := 4, entsize := 0 }
    ++ exampleNames ++ [0, 0, 0]
    ++ [0x11, 0x11, 0x11, 0x11, 0, 0x11, 0x11, 0x11]

/-- A stand-in for the decompressor that reports what it is given: its output is the
declared input length `avail_in` followed by the length of the input buffer, four bytes
each. -/
def exampleProbeZlib : Zlib :=
  { inflateInit := Z_OK
    inflate := fun input availIn availOut =>
      (Z_STREAM_END, (be32 availIn ++ be32 input.length).take availOut) }

/-- A relocation section that came deflated: its header still has the deflated flag and its
buffer holds one inflated entry of kind `R_PPC_ADDR32`. -/
def exampleDeflatedRela : Section :=
  { header := { name := 9, type := SHT_RELA, flags := SHF_DEFLATED, addr := 0, offset := 0x300,
                size := 20, link := 2, info := 1, addralign := 4, entsize := 12 }
    data := relasBytes [{ offset := 4, info := packInfo 3 R_PPC_ADDR32, addend := 0 }] }

/-- A relocation section whose buffer holds a high-half entry and its low-half partner. -/
def examplePairSection : Section :=
  { header := { name := 9, type := SHT_RELA, flags := 0, addr := 0, offset := 0x300,
                size := 24, link := 2, info := 1, addralign := 4, entsize := 12 }
    data := relasBytes [{ offset := 100, info := packInfo 5 R_PPC_GHS_REL16_HI, addend := 7 },
                        { offset := 102, info := packInfo 5 R_PPC_GHS_REL16_LO, addend := 9 }] }

/-- A container with two imports sections, at `0xc0000000` (eight bytes) and at `0xc0000100`
(four bytes), and a symbol table with a function symbol inside the first, an object symbol
inside the second, an object symbol inside neither and an untyped symbol inside the first. -/
def exampleTwoImportsFile : Rpl :=
  { header := { magic := 0x7f454c46, abi := 0xcafe, type := 0xfe01, shoff := 0x40, shnum := 3,
                shentsize := 40, shstrndx := 0 }
    sections := [{ header := { name := 1, type := SHT_RPL_IMPORTS, flags := 4,
                               addr := 0xc0000000, offset := 0, size := 8, link := 0,
                               info := 0, addralign := 4, entsize := 0 }
                   data := [1, 2, 3, 4, 5, 6, 7, 8] },
                 { header := { name := 2, type := SHT_RPL_IMPORTS, flags := 4,
                               addr := 0xc0000100, offset := 0, size := 4, link := 0,
                               info := 0, addralign := 4, entsize := 0 }
                   data := [9, 10, 11, 12] },
                 { header := { name := 3, type := SHT_SYMTAB, flags := 0, addr := 0,
                               offset := 0, size := 64, link := 0, info := 0, addralign := 4,
                               entsize := 16 }
                   data := exampleSymbol 0xc0000004 0x12 ++ exampleSymbol 0xc0000102 0x11
                     ++ exampleSymbol 0x02000000 0x11 ++ exampleSymbol 0xc0000004 0x10 }] }

/-- The container `exampleLayoutFile` with its section table at `0x20`, inside the 52 bytes
of the file header. -/
def exampleLowTableFile : Rpl :=
  { exampleLayoutFile with header := { exampleLayoutFile.header with shoff := 0x20 } }

/-- A source file of 160 bytes with two sections: the section name table, stored at byte 132
under the type null, and a text section of 8 bytes at byte 152. -/
def exampleNullNamesSource : List Byte :=
  headerBytes { exampleSourceHeader with shnum := 2, shstrndx := 0 }
    ++ sectionHeaderBytes { name := 7, type := SHT_NULL, flags := 0, addr := 0, offset := 132,
                            size := 17, link := 0, info := 0, addralign := 1, entsize := 0 }
    ++ sectionHeaderBytes { exampleTextHeader with offset := 152 }
    ++ exampleNames ++ [0, 0, 0]
    ++ exampleText

/-- The source file `exampleDeflatedSource` with a deflated text section of size 2, less than
the 4 bytes of the size prefix. -/
def exampleShortSource : List Byte :=
  headerBytes exampleSourceHeader
    ++ sectionHeaderBytes exampleNullHeader
    ++ sectionHeaderBytes { name := 1, type := 1,
                            flags := SHF_DEFLATED ||| SHF_EXECINSTR ||| SHF_ALLOC,
                            addr := 0x02000000, offset := 192, size := 2, link := 0, info := 0,
                            addralign := 32, entsize := 0 }
    ++ sectionHeaderBytes exampleNamesHeader
    ++ exampleNames ++ [0, 0, 0]
    ++ [0, 0]

/-! # Theorems -/

/-! ## Lemmas on the relocation fixer -/

theorem and_255 (x : Nat) : x &&& 0xFF = x % 256 :=
  Nat.and_pow_two_sub_one_eq_mod x 8

theorem shl_or (x k : Nat) (hk : k < 256) :
    (x <<< 8) % 2 ^ 32 ||| k = 256 * (x % 2 ^ 24) + k := by
  have h1 : (x <<< 8) % 2 ^ 32 = 2 ^ 8 * (x % 2 ^ 24) := by
    rw [Nat.shiftLeft_eq]; omega
  rw [h1, ← Nat.mul_add_lt_is_or (by simpa using hk)]

theorem packInfo_eq (x k : Nat) (hk : k < 256) : packInfo x k = 256 * x + k := by
  unfold packInfo
  have h1 : x <<< 8 = 2 ^ 8 * x := by rw [Nat.shiftLeft_eq]; omega
  rw [h1, ← Nat.mul_add_lt_is_or (by simpa using hk)]

theorem mergeScan_length (wi wa wo : Nat) (m : Rela) (rels : List Rela) :
    (mergeScan wi wa wo m rels).1.length = rels.length := by
  induction rels with
  | nil => rfl
  | cons r rs ih =>
    simp only [mergeScan]
    split_ifs <;> simp [ih]

theorem mergeScan_append (wi wa wo : Nat) (m : Rela) (xs ys : List Rela) :
    mergeScan wi wa wo m (xs ++ ys)
      = ((mergeScan wi wa wo m xs).1 ++ (mergeScan wi wa wo m ys).1,
         (mergeScan wi wa wo m xs).2 ++ (mergeScan wi wa wo m ys).2) := by
  induction xs with
  | nil => simp [mergeScan]
  | cons r rs ih =>
    rw [List.cons_append]
    simp only [mergeScan]
    rw [ih]
    split_ifs <;> simp

theorem mergeScan_noop (wi wa wo : Nat) (m : Rela) (rels : List Rela)
    (h : ∀ r ∈ rels, r.info ≠ wi) : mergeScan wi wa wo m rels = (rels, []) := by
  induction rels with
  | nil => rfl
  | cons r rs ih =>
    have hr : r.info ≠ wi := h r (List.mem_cons_self _ _)
    have hrs := ih (fun x hx => h x (List.mem_cons_of_mem _ hx))
    simp [mergeScan, hr, hrs]

theorem Rela.kind_eq (r : Rela) : r.kind = r.info % 256 := and_255 r.info

theorem Rela.nonZero_zeroRela : zeroRela.nonZero = false := by decide

theorem Rela.kind_zeroRela : isWhitelisted zeroRela.kind = true := by decide

theorem not_whitelisted_split {k : Nat} (h : isWhitelisted k = true) :
    k ≠ R_PPC_GHS_REL16_HI ∧ k ≠ R_PPC_GHS_REL16_LO ∧ k ≠ R_PPC_REL32 := by
  refine ⟨?_, ?_, ?_⟩ <;> intro hk <;> rw [hk] at h <;> revert h <;> decide

theorem fixStep_pass (rels out : List Rela) (i : Nat)
    (hw : isWhitelisted (rels.getD i zeroRela).kind = true) :
    fixStep (rels, out) i
      = (rels, out ++ (if (rels.getD i zeroRela).nonZero then [rels.getD i zeroRela] else [])) := by
  generalize hr : rels.getD i zeroRela = r at hw
  unfold Rela.kind at hw
  by_cases hz : r.info = 0 ∧ r.addend = 0 ∧ r.offset = 0
  · have hnz : r.nonZero = false := by simp [Rela.nonZero, hz]
    simp only [fixStep, hr, hz, and_self, if_true, hnz]
    simp
  · have hnz : r.nonZero = true := by
      simp only [Rela.nonZero, Bool.not_eq_true', Bool.and_eq_false_iff, decide_eq_false_iff_not]
      tauto
    simp only [fixStep, hr, hz, if_false, hw, if_true, hnz]

theorem fold_pass_run (run : List Rela) :
    ∀ (pre post out : List Rela), (∀ r ∈ run, isWhitelisted r.kind = true) →
      (List.range' pre.length run.length).foldl fixStep (pre ++ run ++ post, out)
        = (pre ++ run ++ post, out ++ run.filter Rela.nonZero) := by
  induction run with
  | nil => intro pre post out _; simp
  | cons r rs ih =>
    intro pre post out h
    have hr : (pre ++ r :: rs ++ post).getD pre.length zeroRela = r := by
      rw [List.getD_eq_getElem?_getD, List.append_assoc,
        List.getElem?_append_right (Nat.le_refl _)]
      simp
    have hw : isWhitelisted r.kind = true := h r (List.mem_cons_self _ _)
    have hrs : ∀ x ∈ rs, isWhitelisted x.kind = true :=
      fun x hx => h x (List.mem_cons_of_mem _ hx)
    have hstep := fixStep_pass (pre ++ r :: rs ++ post) out pre.length (by rw [hr]; exact hw)
    rw [hr] at hstep
    have ih2 := ih (pre ++ [r]) post (out ++ (if r.nonZero then [r] else [])) hrs
    simp only [List.length_append, List.length_singleton, List.append_assoc,
      List.singleton_append] at ih2
    simp only [List.length_cons, List.range'_succ, List.foldl_cons, hstep]
    simp only [List.append_assoc, List.cons_append] at ih2 ⊢
    rw [ih2]
    by_cases hnz : r.nonZero = true <;> simp [List.filter_cons, hnz]

theorem fixRels_split (pre tail : List Rela) (x : Rela)
    (hpre : ∀ r ∈ pre, isWhitelisted r.kind = true) :
    fixRels (pre ++ [x] ++ tail)
      = ((List.range' (pre.length + 1) tail.length).foldl fixStep
          (fixStep (pre ++ [x] ++ tail, pre.filter Rela.nonZero) pre.length)).2 := by
  have hlen : (pre ++ [x] ++ tail).length = tail.length + 1 + pre.length := by
    simp only [List.length_append, List.length_singleton]; omega
  have h1 := fold_pass_run pre [] ([x] ++ tail) [] hpre
  simp only [List.nil_append, List.length_nil] at h1
  unfold fixRels
  rw [hlen, List.range_eq_range', ← List.range'_append_1 0 pre.length (tail.length + 1),
    List.foldl_append, List.append_assoc, h1, Nat.zero_add, List.range'_succ, List.foldl_cons]

theorem whitelisted_info_ne (r : Rela) (hw : isWhitelisted r.kind = true) (S : Nat) :
    r.info ≠ 256 * S + 253 ∧ r.info ≠ 256 * S + 252 := by
  have h := not_whitelisted_split hw
  rw [Rela.kind_eq] at h
  simp only [R_PPC_GHS_REL16_HI, R_PPC_GHS_REL16_LO] at h
  omega

theorem fixRels_high_low_aux (S : Nat) (hS : S < 2 ^ 24) (hi lo : Rela)
    (hhi : hi.info = 256 * S + 252) (hlo : lo.info = 256 * S + 253)
    (hla : lo.addend = (hi.addend + 2) % 2 ^ 32) (hlf : lo.offset = (hi.offset + 2) % 2 ^ 32)
    (pre mid post : List Rela)
    (hpre : ∀ r ∈ pre, isWhitelisted r.kind = true)
    (hmid : ∀ r ∈ mid, isWhitelisted r.kind = true)
    (hpost : ∀ r ∈ post, isWhitelisted r.kind = true) :
    fixRels (pre ++ [hi] ++ (mid ++ ([lo] ++ post)))
      = pre.filter Rela.nonZero
        ++ [{ offset := hi.offset, info := 256 * S + 26, addend := hi.addend }]
        ++ mid.filter Rela.nonZero ++ post.filter Rela.nonZero := by
  have hidx : hi.info >>> 8 = S := by rw [hhi]; omega
  have hwantLO : (S <<< 8) % 2 ^ 32 ||| R_PPC_GHS_REL16_LO = 256 * S + 253 := by
    rw [R_PPC_GHS_REL16_LO, shl_or S 253 (by omega)]; omega
  have hmerged : (S <<< 8) % 2 ^ 32 ||| R_PPC_REL32 = 256 * S + 26 := by
    rw [R_PPC_REL32, shl_or S 26 (by omega)]; omega
  have hkind : hi.info &&& 0xFF = 252 := by rw [and_255, hhi]; omega
  rw [fixRels_split pre _ _ hpre]
  have hget : (pre ++ [hi] ++ (mid ++ ([lo] ++ post))).getD pre.length zeroRela = hi := by
    rw [List.getD_eq_getElem?_getD, List.append_assoc,
      List.getElem?_append_right (Nat.le_refl _)]
    simp
  have hscan : mergeScan (256 * S + 253) ((hi.addend + 2) % 2 ^ 32) ((hi.offset + 2) % 2 ^ 32)
      { offset := hi.offset, info := 256 * S + 26, addend := hi.addend }
      (pre ++ [hi] ++ (mid ++ ([lo] ++ post)))
      = (pre ++ [hi] ++ (mid ++ ([zeroRela] ++ post)),
         [{ offset := hi.offset, info := 256 * S + 26, addend := hi.addend }]) := by
    simp only [mergeScan_append]
    rw [mergeScan_noop _ _ _ _ pre (fun r hr => (whitelisted_info_ne r (hpre r hr) S).1),
      mergeScan_noop _ _ _ _ mid (fun r hr => (whitelisted_info_ne r (hmid r hr) S).1),
      mergeScan_noop _ _ _ _ post (fun r hr => (whitelisted_info_ne r (hpost r hr) S).1)]
    have h1 : hi.info ≠ 256 * S + 253 := by omega
    simp [mergeScan, h1, hlo, hla, hlf]
  have hstep : fixStep (pre ++ [hi] ++ (mid ++ ([lo] ++ post)), pre.filter Rela.nonZero)
      pre.length
      = (pre ++ [hi] ++ (mid ++ ([zeroRela] ++ post)),
         pre.filter Rela.nonZero
          ++ [{ offset := hi.offset, info := 256 * S + 26, addend := hi.addend }]) := by
    have hnz : ¬ (hi.info = 0 ∧ hi.addend = 0 ∧ hi.offset = 0) := by omega
    have hnw : isWhitelisted 252 = false := by decide
    simp only [fixStep, hget, hidx, hkind, hwantLO, hmerged, hnz, if_false, hscan, hnw,
      R_PPC_GHS_REL16_HI, if_true]
    simp
  rw [hstep]
  have hrun : ∀ r ∈ mid ++ ([zeroRela] ++ post), isWhitelisted r.kind = true := by
    intro r hr
    simp only [List.mem_append, List.mem_singleton] at hr
    rcases hr with h | h | h
    · exact hmid r h
    · rw [h]; exact Rela.kind_zeroRela
    · exact hpost r h
  have h2 := fold_pass_run (mid ++ ([zeroRela] ++ post)) (pre ++ [hi]) []
    (pre.filter Rela.nonZero
      ++ [{ offset := hi.offset, info := 256 * S + 26, addend := hi.addend }]) hrun
  simp only [List.append_nil, List.length_append, List.length_singleton] at h2
  simp only [List.length_append, List.length_singleton]
  rw [h2]
  simp [List.filter_append, List.filter_cons, Rela.nonZero_zeroRela]

/-- **C1.** A high-half entry `(sym S, addend A, offset O)` followed later by its low-half
partner `(sym S, addend A + 2, offset O + 2)` (the sums taken in 32 bits), in an array whose
other entries all have whitelisted kinds: the fixer emits the non-zero entries in their
order, with exactly one merged `R_PPC_REL32` entry `(sym S, addend A, offset O)` in the
place of the high-half entry and nothing in the place of the low-half entry. -/
theorem fixRels_merges_high_then_low (S A O : Nat) (hS : S < 2 ^ 24)
    (pre mid post : List Rela)
    (hpre : ∀ r ∈ pre, isWhitelisted r.kind = true)
    (hmid : ∀ r ∈ mid, isWhitelisted r.kind = true)
    (hpost : ∀ r ∈ post, isWhitelisted r.kind = true) :
    fixRels (pre ++ [{ offset := O, info := packInfo S R_PPC_GHS_REL16_HI, addend := A }]
        ++ mid
        ++ [{ offset := (O + 2) % 2 ^ 32, info := packInfo S R_PPC_GHS_REL16_LO,
              addend := (A + 2) % 2 ^ 32 }]
        ++ post)
      = pre.filter Rela.nonZero
        ++ [{ offset := O, info := packInfo S R_PPC_REL32, addend := A }]
        ++ mid.filter Rela.nonZero ++ post.filter Rela.nonZero := by
  have hHI : packInfo S R_PPC_GHS_REL16_HI = 256 * S + 252 := packInfo_eq S 252 (by omega)
  have hLO : packInfo S R_PPC_GHS_REL16_LO = 256 * S + 253 := packInfo_eq S 253 (by omega)
  have hM : packInfo S R_PPC_REL32 = 256 * S + 26 := packInfo_eq S 26 (by omega)
  rw [hHI, hLO, hM, List.append_assoc (pre ++ _ ++ mid), List.append_assoc (pre ++ _)]
  exact fixRels_high_low_aux S hS _ _ rfl rfl rfl rfl pre mid post hpre hmid hpost

/-- Witness of **C1**: symbol 5, addend 7, offset 100, between whitelisted entries and a
zero sentinel. -/
theorem fixRels_merges_high_then_low_witness :
    (5 < 2 ^ 24
      ∧ (∀ r ∈ [({ offset := 1, info := 1, addend := 1 } : Rela)], isWhitelisted r.kind = true)
      ∧ (∀ r ∈ [zeroRela], isWhitelisted r.kind = true)
      ∧ (∀ r ∈ [({ offset := 8, info := 4, addend := 0 } : Rela)], isWhitelisted r.kind = true))
    ∧ fixRels ([{ offset := 1, info := 1, addend := 1 }]
        ++ [{ offset := 100, info := packInfo 5 R_PPC_GHS_REL16_HI, addend := 7 }]
        ++ [zeroRela]
        ++ [{ offset := (100 + 2) % 2 ^ 32, info := packInfo 5 R_PPC_GHS_REL16_LO,
              addend := (7 + 2) % 2 ^ 32 }]
        ++ [{ offset := 8, info := 4, addend := 0 }])
      = List.filter Rela.nonZero [{ offset := 1, info := 1, addend := 1 }]
        ++ [{ offset := 100, info := packInfo 5 R_PPC_REL32, addend := 7 }]
        ++ List.filter Rela.nonZero [zeroRela]
        ++ List.filter Rela.nonZero [{ offset := 8, info := 4, addend := 0 }] :=
  ⟨⟨by decide, by decide, by decide, by decide⟩,
    fixRels_merges_high_then_low 5 7 100 (by decide) _ _ _ (by decide) (by decide) (by decide)⟩

theorem fixRels_low_high_aux (S : Nat) (hS : S < 2 ^ 24) (hi lo : Rela)
    (hhi : hi.info = 256 * S + 252) (hlo : lo.info = 256 * S + 253)
    (hla : hi.addend = (lo.addend + 2 ^ 32 - 2) % 2 ^ 32)
    (hlf : hi.offset = (lo.offset + 2 ^ 32 - 2) % 2 ^ 32) :
    fixRels [lo, hi] = [{ offset := hi.offset, info := 256 * S + 26, addend := hi.addend }] := by
  have hidx : lo.info >>> 8 = S := by rw [hlo]; omega
  have hwantHI : (S <<< 8) % 2 ^ 32 ||| R_PPC_GHS_REL16_HI = 256 * S + 252 := by
    rw [R_PPC_GHS_REL16_HI, shl_or S 252 (by omega)]; omega
  have hmerged : (S <<< 8) % 2 ^ 32 ||| R_PPC_REL32 = 256 * S + 26 := by
    rw [R_PPC_REL32, shl_or S 26 (by omega)]; omega
  have hkind : lo.info &&& 0xFF = 253 := by rw [and_255, hlo]; omega
  have hnz : ¬ (lo.info = 0 ∧ lo.addend = 0 ∧ lo.offset = 0) := by omega
  have hnw : isWhitelisted 253 = false := by decide
  have h1 : lo.info ≠ 256 * S + 252 := by omega
  have hscan : mergeScan (256 * S + 252) hi.addend hi.offset
      { offset := hi.offset, info := 256 * S + 26, addend := hi.addend } [lo, hi]
      = ([lo, zeroRela], [{ offset := hi.offset, info := 256 * S + 26, addend := hi.addend }]) := by
    simp [mergeScan, h1, hhi]
  have hstep0 : fixStep ([lo, hi], []) 0
      = ([lo, zeroRela], [{ offset := hi.offset, info := 256 * S + 26, addend := hi.addend }]) := by
    have hget : [lo, hi].getD 0 zeroRela = lo := rfl
    have hne : ¬ (R_PPC_GHS_REL16_LO = R_PPC_GHS_REL16_HI) := by decide
    have hkind2 : lo.info &&& 0xFF = R_PPC_GHS_REL16_LO := hkind
    have hnw2 : isWhitelisted R_PPC_GHS_REL16_LO = false := hnw
    simp only [fixStep, hget, hidx, hkind2, hwantHI, hmerged, hnz, if_false, hnw2,
      hne, ← hla, ← hlf, hscan, if_true]
    simp
  have hstep1 : fixStep
      ([lo, zeroRela], [{ offset := hi.offset, info := 256 * S + 26, addend := hi.addend }]) 1
      = ([lo, zeroRela], [{ offset := hi.offset, info := 256 * S + 26, addend := hi.addend }]) := by
    have hget : [lo, zeroRela].getD 1 zeroRela = zeroRela := rfl
    simp [fixStep, hget, zeroRela]
  have hrange : List.range [lo, hi].length = [0, 1] := rfl
  rw [fixRels, hrange, List.foldl_cons, List.foldl_cons, List.foldl_nil, hstep0, hstep1]

/-- **C2.** For the two-entry arrays made of a high-half entry `(sym S, addend A, offset O)`
and its low-half partner `(sym S, addend A + 2, offset O + 2)`, the fixer produces the same
single merged entry `(sym S, R_PPC_REL32, addend A, offset O)` whether the low-half entry
comes first or second. -/
theorem fixRels_swapped_order (S A O : Nat) (hS : S < 2 ^ 24) (hA : A + 2 < 2 ^ 32)
    (hO : O + 2 < 2 ^ 32) :
    fixRels [{ offset := O + 2, info := packInfo S R_PPC_GHS_REL16_LO, addend := A + 2 },
             { offset := O, info := packInfo S R_PPC_GHS_REL16_HI, addend := A }]
      = [{ offset := O, info := packInfo S R_PPC_REL32, addend := A }]
    ∧ fixRels [{ offset := O, info := packInfo S R_PPC_GHS_REL16_HI, addend := A },
               { offset := O + 2, info := packInfo S R_PPC_GHS_REL16_LO, addend := A + 2 }]
      = fixRels [{ offset := O + 2, info := packInfo S R_PPC_GHS_REL16_LO, addend := A + 2 },
                 { offset := O, info := packInfo S R_PPC_GHS_REL16_HI, addend := A }] := by
  have hHI : packInfo S R_PPC_GHS_REL16_HI = 256 * S + 252 := packInfo_eq S 252 (by omega)
  have hLO : packInfo S R_PPC_GHS_REL16_LO = 256 * S + 253 := packInfo_eq S 253 (by omega)
  have hM : packInfo S R_PPC_REL32 = 256 * S + 26 := packInfo_eq S 26 (by omega)
  rw [hHI, hLO, hM]
  have h1 := fixRels_low_high_aux S hS { offset := O, info := 256 * S + 252, addend := A }
    { offset := O + 2, info := 256 * S + 253, addend := A + 2 } rfl rfl
    (by dsimp only; omega) (by dsimp only; omega)
  have h2 := fixRels_high_low_aux S hS { offset := O, info := 256 * S + 252, addend := A }
    { offset := O + 2, info := 256 * S + 253, addend := A + 2 } rfl rfl
    (by dsimp only; omega) (by dsimp only; omega) [] [] []
    (by simp) (by simp) (by simp)
  simp only [List.nil_append, List.filter_nil, List.append_nil] at h2
  exact ⟨h1, by rw [h1]; exact h2⟩

/-- Witness of **C2**: symbol 5, addend 7, offset 100. -/
theorem fixRels_swapped_order_witness :
    (5 < 2 ^ 24 ∧ 7 + 2 < 2 ^ 32 ∧ 100 + 2 < 2 ^ 32)
    ∧ (fixRels [{ offset := 100 + 2, info := packInfo 5 R_PPC_GHS_REL16_LO, addend := 7 + 2 },
             { offset := 100, info := packInfo 5 R_PPC_GHS_REL16_HI, addend := 7 }]
      = [{ offset := 100, info := packInfo 5 R_PPC_REL32, addend := 7 }]
    ∧ fixRels [{ offset := 100, info := packInfo 5 R_PPC_GHS_REL16_HI, addend := 7 },
               { offset := 100 + 2, info := packInfo 5 R_PPC_GHS_REL16_LO, addend := 7 + 2 }]
      = fixRels [{ offset := 100 + 2, info := packInfo 5 R_PPC_GHS_REL16_LO, addend := 7 + 2 },
                 { offset := 100, info := packInfo 5 R_PPC_GHS_REL16_HI, addend := 7 }]) :=
  ⟨⟨by decide, by decide, by decide⟩,
    fixRels_swapped_order 5 7 100 (by decide) (by decide) (by decide)⟩

/-! ### General invariants of the fixer loop -/

theorem mergeScan_emitted (wi wa wo : Nat) (m : Rela) (rels : List Rela) :
    ∀ x ∈ (mergeScan wi wa wo m rels).2, x = m := by
  induction rels with
  | nil => intro x hx; simp [mergeScan] at hx
  | cons r rs ih =>
    intro x hx
    simp only [mergeScan] at hx
    split_ifs at hx
    · exact ih x hx
    · exact ih x hx
    · exact ih x hx
    · rcases List.mem_cons.1 hx with h | h
      · exact h
      · exact ih x h

theorem mergeScan_entryRel (wi wa wo : Nat) (m : Rela) (hwi : isWhitelisted (wi &&& 0xFF) = false)
    (orig cur : List Rela) (h : List.Forall₂ entryRel orig cur) :
    List.Forall₂ entryRel orig (mergeScan wi wa wo m cur).1 := by
  induction h with
  | nil => exact List.Forall₂.nil
  | @cons o c os cs hoc _ ih =>
    simp only [mergeScan]
    split_ifs with h1 h2 h3
    · exact List.Forall₂.cons hoc ih
    · exact List.Forall₂.cons hoc ih
    · exact List.Forall₂.cons hoc ih
    · refine List.Forall₂.cons ?_ ih
      have hc : c.info = wi := not_not.1 h1
      rcases hoc with h | ⟨h, _⟩
      · right
        refine ⟨rfl, ?_⟩
        rw [← h, Rela.kind, hc]; exact hwi
      · exfalso
        rw [h] at hc
        rw [← hc] at hwi
        revert hwi; decide

theorem merged_kind (x : Nat) : ((x <<< 8) % 2 ^ 32 ||| R_PPC_REL32) &&& 0xFF = R_PPC_REL32 := by
  rw [R_PPC_REL32, shl_or x 26 (by omega), and_255]; omega

theorem want_kind (x k : Nat) (hk : k < 256) : ((x <<< 8) % 2 ^ 32 ||| k) &&& 0xFF = k := by
  rw [shl_or x k hk, and_255]; omega

theorem nonZero_of_not_zero (r : Rela) (h : ¬ (r.info = 0 ∧ r.addend = 0 ∧ r.offset = 0)) :
    r.nonZero = true := by
  simp only [Rela.nonZero, Bool.not_eq_true', Bool.and_eq_false_iff, decide_eq_false_iff_not]
  tauto

/-- What one iteration of the outer loop does to the state, by cases on the entry read. -/
theorem fixStep_cases (rels out : List Rela) (i : Nat) :
    (fixStep (rels, out) i = (rels, out)
        ∧ ((rels.getD i zeroRela).nonZero = false
            ∨ isWhitelisted (rels.getD i zeroRela).kind = false))
      ∨ (isWhitelisted (rels.getD i zeroRela).kind = true ∧ (rels.getD i zeroRela).nonZero = true
          ∧ fixStep (rels, out) i = (rels, out ++ [rels.getD i zeroRela]))
      ∨ (isWhitelisted (rels.getD i zeroRela).kind = false
          ∧ ∃ wi wa wo m, isWhitelisted (wi &&& 0xFF) = false ∧ m.kind = R_PPC_REL32
              ∧ fixStep (rels, out) i
                  = ((mergeScan wi wa wo m rels).1, out ++ (mergeScan wi wa wo m rels).2)) := by
  generalize hr : rels.getD i zeroRela = r
  by_cases hz : r.info = 0 ∧ r.addend = 0 ∧ r.offset = 0
  · left
    exact ⟨by simp only [fixStep, hr, hz, and_self, if_true], Or.inl (by simp [Rela.nonZero, hz])⟩
  by_cases hw : isWhitelisted (r.info &&& 0xFF) = true
  · right; left
    exact ⟨hw, nonZero_of_not_zero r hz, by simp only [fixStep, hr, hz, if_false, hw, if_true]⟩
  have hw2 : isWhitelisted r.kind = false := by simpa [Rela.kind] using hw
  by_cases hhi : r.info &&& 0xFF = R_PPC_GHS_REL16_HI
  · right; right
    refine ⟨hw2, _, _, _, _, ?_, ?_, by simp only [fixStep, hr, hz, if_false, hw, hhi, if_true]; rfl⟩
    · rw [want_kind _ _ (by decide)]; decide
    · exact merged_kind _
  by_cases hlo : r.info &&& 0xFF = R_PPC_GHS_REL16_LO
  · right; right
    refine ⟨hw2, _, _, _, _, ?_, ?_,
      by simp only [fixStep, hr, hz, if_false, hw, hhi, hlo, if_true]; rfl⟩
    · rw [want_kind _ _ (by decide)]; decide
    · exact merged_kind _
  · left
    refine ⟨?_, Or.inr hw2⟩
    simp only [fixStep, hr, hz, if_false, hw, hhi, hlo]
    simp

theorem kind_rel32_not_whitelisted (r : Rela) (h : r.kind = R_PPC_REL32) :
    isWhitelisted r.kind = false := by rw [h]; decide

theorem kind_rel32_nonZero (r : Rela) (h : r.kind = R_PPC_REL32) : r.nonZero = true := by
  apply nonZero_of_not_zero
  rintro ⟨h0, _, _⟩
  rw [Rela.kind, h0] at h
  revert h; decide

theorem fixStep_emittedOk (st : List Rela × List Rela) (i : Nat)
    (h : ∀ x ∈ st.2, emittedOk x) : ∀ x ∈ (fixStep st i).2, emittedOk x := by
  obtain ⟨rels, out⟩ := st
  rcases fixStep_cases rels out i with ⟨h1, _⟩ | ⟨hw, hnz, h1⟩ | ⟨_, wi, wa, wo, m, _, hm, h1⟩
  · rw [h1]; exact h
  · rw [h1]
    intro x hx
    rcases List.mem_append.1 hx with hx | hx
    · exact h x hx
    · rw [List.mem_singleton.1 hx]; exact Or.inl ⟨hw, hnz⟩
  · rw [h1]
    intro x hx
    rcases List.mem_append.1 hx with hx | hx
    · exact h x hx
    · rw [mergeScan_emitted _ _ _ _ _ x hx]; exact Or.inr hm

theorem fold_emittedOk (idx : List Nat) :
    ∀ st : List Rela × List Rela, (∀ x ∈ st.2, emittedOk x) →
      ∀ x ∈ (idx.foldl fixStep st).2, emittedOk x := by
  induction idx with
  | nil => intro st h; exact h
  | cons i is ih => intro st h; exact ih _ (fixStep_emittedOk st i h)

theorem fixRels_emittedOk (rels : List Rela) : ∀ x ∈ fixRels rels, emittedOk x :=
  fold_emittedOk _ _ (by simp)

theorem filter_emitted (wi wa wo : Nat) (m : Rela) (hm : m.kind = R_PPC_REL32)
    (rels : List Rela) :
    (mergeScan wi wa wo m rels).2.filter (fun r => isWhitelisted r.kind) = [] := by
  rw [List.filter_eq_nil_iff]
  intro x hx
  rw [mergeScan_emitted _ _ _ _ _ x hx, kind_rel32_not_whitelisted m hm]
  simp

theorem fold_filter (orig : List Rela) : ∀ k, k ≤ orig.length →
    List.Forall₂ entryRel orig ((List.range k).foldl fixStep (orig, [])).1
    ∧ ((List.range k).foldl fixStep (orig, [])).2.filter (fun r => isWhitelisted r.kind)
        = (orig.take k).filter (fun r => isWhitelisted r.kind && r.nonZero) := by
  intro k
  induction k with
  | zero =>
    intro _
    refine ⟨?_, by simp⟩
    simp only [List.range_zero, List.foldl_nil]
    exact List.forall₂_same.2 (fun x _ => Or.inl rfl)
  | succ k ih =>
    intro hk
    obtain ⟨hrel, hfil⟩ := ih (by omega)
    rw [List.range_succ, List.foldl_append, List.foldl_cons, List.foldl_nil]
    generalize (List.range k).foldl fixStep (orig, []) = st at hrel hfil
    obtain ⟨cur, out⟩ := st
    simp only at hrel hfil
    have hlen : cur.length = orig.length := hrel.length_eq.symm
    have hk1 : k < orig.length := by omega
    have hk2 : k < cur.length := by omega
    have hoc : entryRel (orig.get ⟨k, hk1⟩) (cur.getD k zeroRela) := by
      have := hrel.get hk1 hk2
      rw [List.getD_eq_getElem?_getD, List.getElem?_eq_getElem hk2]
      simpa using this
    have htake : orig.take (k + 1) = orig.take k ++ [orig.get ⟨k, hk1⟩] := by
      rw [List.take_succ, List.getElem?_eq_getElem hk1]; rfl
    rw [htake, List.filter_append, ← hfil]
    generalize orig.get ⟨k, hk1⟩ = o at hoc
    rcases fixStep_cases cur out k with ⟨h1, hc⟩ | ⟨hw, hnz, h1⟩ | ⟨hw, wi, wa, wo, m, hwi, hm, h1⟩
    · rw [h1]
      refine ⟨hrel, ?_⟩
      have ho : (isWhitelisted o.kind && o.nonZero) = false := by
        rcases hoc with h | ⟨_, h⟩
        · rw [h] at hc
          rcases hc with hc | hc <;> simp [hc]
        · simp [h]
      simp [List.filter_cons, ho]
    · rw [h1]
      refine ⟨hrel, ?_⟩
      have ho : cur.getD k zeroRela = o := by
        rcases hoc with h | ⟨h, _⟩
        · exact h
        · rw [h, Rela.nonZero_zeroRela] at hnz; exact absurd hnz (by decide)
      rw [ho] at hw hnz ⊢
      simp [List.filter_append, List.filter_cons, hw, hnz]
    · rw [h1]
      refine ⟨mergeScan_entryRel wi wa wo m hwi orig cur hrel, ?_⟩
      have ho : cur.getD k zeroRela = o := by
        rcases hoc with h | ⟨h, _⟩
        · exact h
        · rw [h, Rela.kind_zeroRela] at hw; exact absurd hw (by decide)
      rw [ho] at hw
      simp [List.filter_append, List.filter_cons, hw, filter_emitted wi wa wo m hm cur]

/-- **C4.** For every relocation array: the entries of whitelisted kind in the output are
exactly the entries of whitelisted kind of the input that are not fully zero, with the same
info, addend and offset and in the same order; no output entry is fully zero; and for an
array holding only whitelisted kinds the output is the input without its all-zero entries. -/
theorem fixRels_passes_whitelisted (rels : List Rela) :
    (fixRels rels).filter (fun r => isWhitelisted r.kind)
        = rels.filter (fun r => isWhitelisted r.kind && r.nonZero)
    ∧ (∀ r ∈ fixRels rels, r.nonZero = true)
    ∧ ((∀ r ∈ rels, isWhitelisted r.kind = true) → fixRels rels = rels.filter Rela.nonZero) := by
  refine ⟨?_, ?_, ?_⟩
  · have h := (fold_filter rels rels.length (Nat.le_refl _)).2
    rw [List.take_length] at h
    exact h
  · intro r hr
    rcases fixRels_emittedOk rels r hr with h | h
    · exact h.2
    · exact kind_rel32_nonZero r h
  · intro h
    have h1 := fold_pass_run rels [] [] [] h
    simp only [List.nil_append, List.append_nil, List.length_nil] at h1
    rw [fixRels, List.range_eq_range', h1]

/-- Witness of **C4**: an array of three whitelisted entries around a zero sentinel. -/
theorem fixRels_passes_whitelisted_witness :
    (∀ r ∈ [({ offset := 4, info := 0x101, addend := 0 } : Rela), zeroRela,
        { offset := 8, info := 0x20a, addend := 12 }], isWhitelisted r.kind = true)
    ∧ fixRels [{ offset := 4, info := 0x101, addend := 0 }, zeroRela,
        { offset := 8, info := 0x20a, addend := 12 }]
      = List.filter Rela.nonZero [{ offset := 4, info := 0x101, addend := 0 }, zeroRela,
        { offset := 8, info := 0x20a, addend := 12 }] :=
  ⟨by decide, (fixRels_passes_whitelisted _).2.2 (by decide)⟩

/-! ### Byte-level lemmas: reading back what was written -/

theorem getD_append_right (x buf : List Byte) (p : Nat) :
    (x ++ buf).getD (x.length + p) 0 = buf.getD p 0 := by
  rw [List.getD_eq_getElem?_getD, List.getD_eq_getElem?_getD,
    List.getElem?_append_right (Nat.le_add_right _ _), Nat.add_sub_cancel_left]

theorem rd32_append_right (x buf : List Byte) (p : Nat) :
    rd32 (x ++ buf) (x.length + p) = rd32 buf p := by
  simp only [rd32, Nat.add_assoc, getD_append_right]

theorem rd32_lt (buf : List Byte) (p : Nat) : rd32 buf p < 2 ^ 32 := by
  unfold rd32
  have h0 := (buf.getD p 0).isLt
  have h1 := (buf.getD (p + 1) 0).isLt
  have h2 := (buf.getD (p + 2) 0).isLt
  have h3 := (buf.getD (p + 3) 0).isLt
  omega

theorem val_ofNat (v : Nat) : ((Fin.ofNat v : Byte)).val = v % 256 := rfl

theorem rd32_be32 (v : Nat) (rest : List Byte) : rd32 (be32 v ++ rest) 0 = v % 2 ^ 32 := by
  simp only [rd32, be32, List.cons_append, List.nil_append, List.getD_cons_zero,
    List.getD_cons_succ, val_ofNat]
  omega

theorem length_be32 (v : Nat) : (be32 v).length = 4 := rfl

theorem length_relaBytes (r : Rela) : (relaBytes r).length = 12 := rfl

theorem readRela_zero (r : Rela) (buf : List Byte) :
    readRela (relaBytes r ++ buf) 0 = wrapRela r := by
  have h0 : rd32 (be32 r.offset ++ (be32 r.info ++ (be32 r.addend ++ buf))) 0
      = r.offset % 2 ^ 32 := rd32_be32 _ _
  have h1 := rd32_append_right (be32 r.offset) (be32 r.info ++ (be32 r.addend ++ buf)) 0
  have h2 := rd32_append_right (be32 r.offset ++ be32 r.info) (be32 r.addend ++ buf) 0
  rw [rd32_be32] at h1 h2
  simp only [List.length_append, length_be32, List.append_assoc] at h1 h2
  simp only [readRela, relaBytes, List.append_assoc, sizeofRela, wrapRela, Nat.mul_zero,
    Nat.zero_add, h0, h1, h2]

theorem readRela_succ (r : Rela) (buf : List Byte) (i : Nat) :
    readRela (relaBytes r ++ buf) (i + 1) = readRela buf i := by
  have h (c : Nat) : rd32 (relaBytes r ++ buf) (sizeofRela * (i + 1) + c)
      = rd32 buf (sizeofRela * i + c) := by
    have := rd32_append_right (relaBytes r) buf (sizeofRela * i + c)
    rw [length_relaBytes] at this
    rw [← this]; congr 1; simp only [sizeofRela]; omega
  have h0 := h 0
  simp only [Nat.add_zero] at h0
  simp only [readRela, h, h0]

theorem readRelas_cons (r : Rela) (buf : List Byte) :
    readRelas (relaBytes r ++ buf) = wrapRela r :: readRelas buf := by
  have hlen : (relaBytes r ++ buf).length / sizeofRela = buf.length / sizeofRela + 1 := by
    rw [List.length_append, length_relaBytes]; simp only [sizeofRela]; omega
  have hmap : (List.range (buf.length / sizeofRela)).map (readRela (relaBytes r ++ buf) ∘ Nat.succ)
      = (List.range (buf.length / sizeofRela)).map (readRela buf) :=
    List.map_congr_left (fun i _ => readRela_succ r buf i)
  rw [readRelas, hlen, List.range_succ_eq_map, List.map_cons, List.map_map, readRela_zero, hmap,
    readRelas]

theorem readRelas_relasBytes (rs : List Rela) : readRelas (relasBytes rs) = rs.map wrapRela := by
  induction rs with
  | nil => rfl
  | cons r rs ih =>
    have : relasBytes (r :: rs) = relaBytes r ++ relasBytes rs := by simp [relasBytes]
    rw [this, readRelas_cons, ih, List.map_cons]

theorem wrapRela_kind (r : Rela) : (wrapRela r).kind = r.kind := by
  simp only [Rela.kind_eq, wrapRela]; omega

theorem wrapRela_of_wf (r : Rela) (h : r.wf) : wrapRela r = r := by
  obtain ⟨h1, h2, h3⟩ := h
  cases r
  simp only [wrapRela, Rela.mk.injEq]
  exact ⟨Nat.mod_eq_of_lt h1, Nat.mod_eq_of_lt h2, Nat.mod_eq_of_lt h3⟩

theorem readRelas_wf (buf : List Byte) : ∀ r ∈ readRelas buf, r.wf := by
  intro r hr
  simp only [readRelas, List.mem_map] at hr
  obtain ⟨i, _, rfl⟩ := hr
  exact ⟨rd32_lt _ _, rd32_lt _ _, rd32_lt _ _⟩

/-! ### Entries without a partner -/

theorem mergeScan_no_match (wi wa wo : Nat) (m : Rela) (rels : List Rela)
    (h : ∀ r ∈ rels, ¬ (r.info = wi ∧ r.addend = wa ∧ r.offset = wo)) :
    mergeScan wi wa wo m rels = (rels, []) := by
  induction rels with
  | nil => rfl
  | cons r rs ih =>
    have hr := h r (List.mem_cons_self _ _)
    have hrs := ih (fun x hx => h x (List.mem_cons_of_mem _ hx))
    simp only [mergeScan, hrs]
    split_ifs with h1 h2 h3
    · rfl
    · rfl
    · rfl
    · exact absurd ⟨not_not.1 h1, not_not.1 h2, not_not.1 h3⟩ hr

theorem fixStep_unmatched (rels out : List Rela) (i : Nat)
    (h : ∀ l ∈ rels, isPartner (rels.getD i zeroRela) l = false) :
    fixStep (rels, out) i
      = (rels, out ++ [rels.getD i zeroRela].filter
          (fun r => isWhitelisted r.kind && r.nonZero)) := by
  generalize hr : rels.getD i zeroRela = r at h
  by_cases hz : r.info = 0 ∧ r.addend = 0 ∧ r.offset = 0
  · have hnz : r.nonZero = false := by simp [Rela.nonZero, hz]
    simp only [fixStep, hr, hz, and_self, if_true]
    simp [List.filter_cons, hnz]
  have hnz : r.nonZero = true := nonZero_of_not_zero r hz
  by_cases hw : isWhitelisted (r.info &&& 0xFF) = true
  · have hw2 : isWhitelisted r.kind = true := hw
    simp only [fixStep, hr, hz, if_false, hw, if_true]
    simp [List.filter_cons, hw2, hnz]
  have hw2 : isWhitelisted r.kind = false := by simpa [Rela.kind] using hw
  have hnwHI : isWhitelisted R_PPC_GHS_REL16_HI = false := by decide
  have hnwLO : isWhitelisted R_PPC_GHS_REL16_LO = false := by decide
  have hne : ¬ (R_PPC_GHS_REL16_LO = R_PPC_GHS_REL16_HI) := by decide
  have key : (fixStep (rels, out) i) = (rels, out) := by
    by_cases hhi : r.info &&& 0xFF = R_PPC_GHS_REL16_HI
    · have hk : r.kind = R_PPC_GHS_REL16_HI := hhi
      have hno := mergeScan_no_match
        ((r.info >>> 8 <<< 8) % 2 ^ 32 ||| R_PPC_GHS_REL16_LO) ((r.addend + 2) % 2 ^ 32)
        ((r.offset + 2) % 2 ^ 32)
        { offset := r.offset, info := (r.info >>> 8 <<< 8) % 2 ^ 32 ||| R_PPC_REL32,
          addend := r.addend } rels
        (by
          intro l hl hm
          have := h l hl
          simp [isPartner, hk, hm.1, hm.2.1, hm.2.2] at this)
      simp only [fixStep, hr, hz, if_false, hw, hhi, if_true, hno, List.append_nil, hnwHI]
      simp
    by_cases hlo : r.info &&& 0xFF = R_PPC_GHS_REL16_LO
    · have hk : r.kind = R_PPC_GHS_REL16_LO := hlo
      have hno := mergeScan_no_match
        ((r.info >>> 8 <<< 8) % 2 ^ 32 ||| R_PPC_GHS_REL16_HI) ((r.addend + 2 ^ 32 - 2) % 2 ^ 32)
        ((r.offset + 2 ^ 32 - 2) % 2 ^ 32)
        { offset := (r.offset + 2 ^ 32 - 2) % 2 ^ 32,
          info := (r.info >>> 8 <<< 8) % 2 ^ 32 ||| R_PPC_REL32,
          addend := (r.addend + 2 ^ 32 - 2) % 2 ^ 32 } rels
        (by
          intro l hl hm
          have := h l hl
          simp [isPartner, hk, hm.1, hm.2.1, hm.2.2] at this)
      simp only [fixStep, hr, hz, if_false, hw, hhi, hlo, if_true, hno, List.append_nil, hnwLO,
        hne]
      simp
    · simp only [fixStep, hr, hz, if_false, hw, hhi, hlo]
      simp
  rw [key]
  simp [List.filter_cons, hw2]

theorem fold_unmatched (orig : List Rela)
    (h : ∀ r ∈ orig, ∀ l ∈ orig, isPartner r l = false) : ∀ k, k ≤ orig.length →
    (List.range k).foldl fixStep (orig, [])
      = (orig, (orig.take k).filter (fun r => isWhitelisted r.kind && r.nonZero)) := by
  intro k
  induction k with
  | zero => intro _; simp
  | succ k ih =>
    intro hk
    have hk1 : k < orig.length := by omega
    have hget : orig.getD k zeroRela = orig.get ⟨k, hk1⟩ := by
      rw [List.getD_eq_getElem?_getD, List.getElem?_eq_getElem hk1]; rfl
    have htake : orig.take (k + 1) = orig.take k ++ [orig.get ⟨k, hk1⟩] := by
      rw [List.take_succ, List.getElem?_eq_getElem hk1]; rfl
    rw [List.range_succ, List.foldl_append, List.foldl_cons, List.foldl_nil, ih (by omega),
      fixStep_unmatched _ _ _ (by rw [hget]; exact h _ (List.get_mem _ _ _)), hget, htake,
      List.filter_append]

theorem fixRels_unmatched (rels : List Rela)
    (h : ∀ r ∈ rels, ∀ l ∈ rels, isPartner r l = false) :
    fixRels rels = rels.filter (fun r => isWhitelisted r.kind && r.nonZero) := by
  rw [fixRels, fold_unmatched rels h rels.length (Nat.le_refl _), List.take_length]

theorem fixSection_rela (s : Section) (h : s.header.type = SHT_RELA) :
    fixSection s = { header := { s.header with flags := 0 }
                     data := relasBytes (fixRels (readRelas s.data)) } := by
  simp [fixSection, h]

theorem fixSection_other (s : Section) (h : s.header.type ≠ SHT_RELA) : fixSection s = s := by
  simp [fixSection, h]

theorem fixSection_type (s : Section) : (fixSection s).header.type = s.header.type := by
  by_cases h : s.header.type = SHT_RELA
  · rw [fixSection_rela s h]
  · rw [fixSection_other s h]

/-- **C3.** For every container `fixRelocations` returns success, and in the output array of
every relocation section no entry has a split kind or any kind other than the whitelisted
ones and the merged kind `R_PPC_REL32`.  When no entry of a relocation section finds the
partner it searches for, the output array is the array of the non-zero whitelisted input
entries: split entries without a partner and entries of unsupported kinds are dropped. -/
theorem fixRelocations_output_kinds (file : Rpl) :
    (fixRelocations file).2 = true
    ∧ (∀ s ∈ (fixRelocations file).1.sections, s.header.type = SHT_RELA →
        ∀ r ∈ readRelas s.data,
          r.kind ≠ R_PPC_GHS_REL16_HI ∧ r.kind ≠ R_PPC_GHS_REL16_LO
            ∧ (isWhitelisted r.kind = true ∨ r.kind = R_PPC_REL32))
    ∧ (∀ (i : Nat) (s : Section), file.sections[i]? = some s → s.header.type = SHT_RELA →
        (∀ r ∈ readRelas s.data, ∀ l ∈ readRelas s.data, isPartner r l = false) →
        ∃ s' : Section, (fixRelocations file).1.sections[i]? = some s'
          ∧ readRelas s'.data
              = (readRelas s.data).filter (fun r => isWhitelisted r.kind && r.nonZero)) := by
  refine ⟨rfl, ?_, ?_⟩
  · intro s' hs' ht r hr
    simp only [fixRelocations, List.mem_map] at hs'
    obtain ⟨s, _, rfl⟩ := hs'
    rw [fixSection_type] at ht
    rw [fixSection_rela s ht] at hr
    simp only [readRelas_relasBytes, List.mem_map] at hr
    obtain ⟨r0, hr0, rfl⟩ := hr
    rw [wrapRela_kind]
    rcases fixRels_emittedOk _ r0 hr0 with h | h
    · have := not_whitelisted_split h.1
      exact ⟨this.1, this.2.1, Or.inl h.1⟩
    · rw [h]
      exact ⟨by decide, by decide, Or.inr rfl⟩
  · intro i s hi ht hno
    refine ⟨fixSection s, by simp [fixRelocations, List.getElem?_map, hi], ?_⟩
    rw [fixSection_rela s ht]
    simp only [readRelas_relasBytes]
    rw [fixRels_unmatched _ hno]
    have hid : ∀ r ∈ (readRelas s.data).filter (fun r => isWhitelisted r.kind && r.nonZero),
        wrapRela r = r :=
      fun r hr => wrapRela_of_wf r (readRelas_wf s.data r (List.mem_of_mem_filter hr))
    rw [List.map_congr_left hid, List.map_id']

/-- Witness of **C3**: in `exampleRelaFile` only the whitelisted entry survives. -/
theorem fixRelocations_output_kinds_witness :
    (exampleRelaFile.sections[1]? = some exampleRelaSection
      ∧ exampleRelaSection.header.type = SHT_RELA
      ∧ (∀ r ∈ readRelas exampleRelaSection.data, ∀ l ∈ readRelas exampleRelaSection.data,
          isPartner r l = false))
    ∧ ∃ s' : Section, (fixRelocations exampleRelaFile).1.sections[1]? = some s'
        ∧ readRelas s'.data = (readRelas exampleRelaSection.data).filter
            (fun r => isWhitelisted r.kind && r.nonZero) :=
  ⟨⟨by decide, by decide, by decide⟩,
    (fixRelocations_output_kinds exampleRelaFile).2.2 1 exampleRelaSection (by decide)
      (by decide) (by decide)⟩

/-! ### In-place writes into a buffer -/

theorem getD_set (d : List Byte) (a p : Nat) (x : Byte) :
    (d.set a x).getD p 0 = if a = p ∧ p < d.length then x else d.getD p 0 := by
  rw [List.getD_eq_getElem?_getD, List.getD_eq_getElem?_getD, List.getElem?_set]
  by_cases h : a = p
  · by_cases h2 : p < d.length
    · subst h; simp [h2]
    · subst h
      have : d[a]? = none := List.getElem?_eq_none (by omega)
      simp [h2, this]
  · simp [h]

theorem length_wr32 (d : List Byte) (q v : Nat) : (wr32 d q v).length = d.length := by
  simp [wr32]

theorem getD_wr32 (d : List Byte) (q v p : Nat) :
    (wr32 d q v).getD p 0 =
      if p < d.length then
        (if p = q then Fin.ofNat (v / 2 ^ 24)
         else if p = q + 1 then Fin.ofNat (v / 2 ^ 16)
         else if p = q + 2 then Fin.ofNat (v / 2 ^ 8)
         else if p = q + 3 then Fin.ofNat v
         else d.getD p 0)
      else d.getD p 0 := by
  simp only [wr32, getD_set, List.length_set]
  by_cases hp : p < d.length
  · simp only [hp, and_true, if_true]
    by_cases h0 : p = q
    · subst h0; simp
    by_cases h1 : p = q + 1
    · subst h1; simp
    by_cases h2 : p = q + 2
    · subst h2; simp
    by_cases h3 : p = q + 3
    · subst h3; simp
    · have e0 : ¬ q = p := fun h => h0 h.symm
      have e1 : ¬ q + 1 = p := fun h => h1 h.symm
      have e2 : ¬ q + 2 = p := fun h => h2 h.symm
      have e3 : ¬ q + 3 = p := fun h => h3 h.symm
      simp [h0, h1, h2, h3, e0, e1, e2, e3]
  · simp [hp]

theorem getD_wr32_of_ne (d : List Byte) (q v p : Nat) (h : p < q ∨ q + 4 ≤ p) :
    (wr32 d q v).getD p 0 = d.getD p 0 := by
  rw [getD_wr32]
  have h0 : ¬ p = q := by omega
  have h1 : ¬ p = q + 1 := by omega
  have h2 : ¬ p = q + 2 := by omega
  have h3 : ¬ p = q + 3 := by omega
  simp [h0, h1, h2, h3]

theorem rd32_wr32_same (d : List Byte) (q v : Nat) (hq : q + 4 ≤ d.length) :
    rd32 (wr32 d q v) q = v % 2 ^ 32 := by
  have h0 : q < d.length := by omega
  have h1 : q + 1 < d.length := by omega
  have h2 : q + 2 < d.length := by omega
  have h3 : q + 3 < d.length := by omega
  have b0 : (wr32 d q v).getD q 0 = Fin.ofNat (v / 2 ^ 24) := by
    rw [getD_wr32]; simp [h0]
  have b1 : (wr32 d q v).getD (q + 1) 0 = Fin.ofNat (v / 2 ^ 16) := by
    rw [getD_wr32]; simp [h1]
  have b2 : (wr32 d q v).getD (q + 2) 0 = Fin.ofNat (v / 2 ^ 8) := by
    rw [getD_wr32]; simp [h2]
  have b3 : (wr32 d q v).getD (q + 3) 0 = Fin.ofNat v := by
    rw [getD_wr32]; simp [h3]
  simp only [rd32, b0, b1, b2, b3, val_ofNat]
  omega

theorem rd32_congr (d d' : List Byte) (q : Nat)
    (h : ∀ p, q ≤ p → p < q + 4 → d.getD p 0 = d'.getD p 0) : rd32 d q = rd32 d' q := by
  simp only [rd32, h q (by omega) (by omega), h (q + 1) (by omega) (by omega),
    h (q + 2) (by omega) (by omega), h (q + 3) (by omega) (by omega)]

theorem rd32_wr32_of_ne (d : List Byte) (q v r : Nat) (h : r + 4 ≤ q ∨ q + 4 ≤ r) :
    rd32 (wr32 d q v) r = rd32 d r :=
  rd32_congr _ _ _ (fun p h1 h2 => getD_wr32_of_ne d q v p (by omega))

/-- A loop whose iteration `i` only touches, and only depends on, the bytes of record `i`
leaves in record `i` what iteration `i` alone writes there, and leaves the bytes outside
the records it visited untouched. -/
theorem fold_local (inRec : Nat → Nat → Prop)
    (hdisj : ∀ i j p, inRec i p → inRec j p → i = j)
    (step : List Byte → Nat → List Byte)
    (hlen : ∀ d i, (step d i).length = d.length)
    (hloc : ∀ d i p, ¬ inRec i p → (step d i).getD p 0 = d.getD p 0)
    (hdep : ∀ d d' i, d.length = d'.length → (∀ p, inRec i p → d.getD p 0 = d'.getD p 0) →
      ∀ p, inRec i p → (step d i).getD p 0 = (step d' i).getD p 0)
    (d : List Byte) : ∀ n,
    ((List.range n).foldl step d).length = d.length
    ∧ (∀ i, i < n → ∀ p, inRec i p →
        ((List.range n).foldl step d).getD p 0 = (step d i).getD p 0)
    ∧ (∀ p, (∀ i, i < n → ¬ inRec i p) →
        ((List.range n).foldl step d).getD p 0 = d.getD p 0) := by
  intro n
  induction n with
  | zero =>
    refine ⟨rfl, ?_, ?_⟩
    · intro i hi; omega
    · intro p _; rfl
  | succ n ih =>
    obtain ⟨ih0, ih1, ih2⟩ := ih
    rw [List.range_succ, List.foldl_append, List.foldl_cons, List.foldl_nil]
    refine ⟨by rw [hlen, ih0], ?_, ?_⟩
    · intro i hi p hp
      by_cases hin : i = n
      · subst hin
        exact hdep _ _ i ih0
          (fun q hq => ih2 q (fun j hj hjq => by have := hdisj _ _ _ hjq hq; omega)) p hp
      · have hnp : ¬ inRec n p := fun h => hin (hdisj _ _ _ hp h)
        rw [hloc _ _ _ hnp]
        exact ih1 i (by omega) p hp
    · intro p hp
      rw [hloc _ _ _ (hp n (by omega))]
      exact ih2 p (fun i hi => hp i (by omega))

/-! ### The symbol and relocation loops of `relocateSection` -/

theorem relocateSymbolStep_eq (a e n : Nat) (d : List Byte) (i : Nat) :
    relocateSymbolStep a e n d i
      = if isRelocatableSymbol (symInfo d i) ∧ a ≤ symValue d i ∧ symValue d i ≤ e then
          wr32 d (sizeofSymbol * i + 4) ((symValue d i - a + n) % 2 ^ 32)
        else d := by
  unfold relocateSymbolStep isRelocatableSymbol
  by_cases h1 : symInfo d i &&& 0xf = STT_OBJECT
  · simp [h1]
  by_cases h2 : symInfo d i &&& 0xf = STT_FUNC
  · simp [h2]
  by_cases h3 : symInfo d i &&& 0xf = STT_SECTION
  · simp [h3]
  · simp [h1, h2, h3]

theorem relocateSymbols_local (a e n : Nat) (d : List Byte) :
    (relocateSymbols a e n d).length = d.length
    ∧ (∀ i, i < numSymbols d → ∀ p, 16 * i ≤ p ∧ p < 16 * i + 16 →
        (relocateSymbols a e n d).getD p 0 = (relocateSymbolStep a e n d i).getD p 0)
    ∧ (∀ p, (∀ i, i < numSymbols d → ¬ (16 * i ≤ p ∧ p < 16 * i + 16)) →
        (relocateSymbols a e n d).getD p 0 = d.getD p 0) := by
  refine fold_local (fun i p => 16 * i ≤ p ∧ p < 16 * i + 16) ?_
    (relocateSymbolStep a e n) ?_ ?_ ?_ d (numSymbols d)
  · intro i j p h1 h2; omega
  · intro d i
    rw [relocateSymbolStep_eq]
    split_ifs
    · exact length_wr32 _ _ _
    · rfl
  · intro d i p hp
    rw [relocateSymbolStep_eq]
    split_ifs
    · exact getD_wr32_of_ne _ _ _ _ (by simp only [sizeofSymbol]; omega)
    · rfl
  · intro d d' i hl hag p hp
    have hinfo : symInfo d i = symInfo d' i := by
      simp only [symInfo, sizeofSymbol]
      rw [hag _ (by omega)]
    have hval : symValue d i = symValue d' i :=
      rd32_congr _ _ _ (fun q h1 h2 => hag q (by simp only [sizeofSymbol] at h1 h2; omega))
    rw [relocateSymbolStep_eq, relocateSymbolStep_eq, hinfo, hval]
    split_ifs
    · rw [getD_wr32, getD_wr32, hl, hag p hp]
    · exact hag p hp

/-- What the symbol loop does to symbol `i` of a symbol-table buffer. -/
theorem relocateSymbols_spec (a e n : Nat) (d : List Byte) (i : Nat) (hi : i < numSymbols d) :
    symInfo (relocateSymbols a e n d) i = symInfo d i
    ∧ symValue (relocateSymbols a e n d) i
        = if isRelocatableSymbol (symInfo d i) ∧ a ≤ symValue d i ∧ symValue d i ≤ e then
            (symValue d i - a + n) % 2 ^ 32
          else symValue d i := by
  obtain ⟨_, h1, _⟩ := relocateSymbols_local a e n d
  have hlen : 16 * i + 16 ≤ d.length := by
    simp only [numSymbols, sizeofSymbol] at hi
    omega
  have hinfo : symInfo (relocateSymbols a e n d) i = symInfo (relocateSymbolStep a e n d i) i := by
    simp only [symInfo, sizeofSymbol]
    rw [h1 i hi _ (by omega)]
  have hval : symValue (relocateSymbols a e n d) i = symValue (relocateSymbolStep a e n d i) i :=
    rd32_congr _ _ _ (fun q h2 h3 => h1 i hi q (by simp only [sizeofSymbol] at h2 h3; omega))
  rw [hinfo, hval, relocateSymbolStep_eq]
  split_ifs
  · refine ⟨?_, ?_⟩
    · simp only [symInfo]
      rw [getD_wr32_of_ne _ _ _ _ (by simp only [sizeofSymbol]; omega)]
    · simp only [symValue]
      rw [rd32_wr32_same _ _ _ (by simp only [sizeofSymbol]; omega), Nat.mod_mod]
  · exact ⟨rfl, rfl⟩

theorem relocateRelas_local (a e n : Nat) (d : List Byte) :
    (relocateRelas a e n d).length = d.length
    ∧ (∀ i, i < numRelas d → ∀ p, 12 * i ≤ p ∧ p < 12 * i + 12 →
        (relocateRelas a e n d).getD p 0 = (relocateRelaStep a e n d i).getD p 0)
    ∧ (∀ p, (∀ i, i < numRelas d → ¬ (12 * i ≤ p ∧ p < 12 * i + 12)) →
        (relocateRelas a e n d).getD p 0 = d.getD p 0) := by
  refine fold_local (fun i p => 12 * i ≤ p ∧ p < 12 * i + 12) ?_
    (relocateRelaStep a e n) ?_ ?_ ?_ d (numRelas d)
  · intro i j p h1 h2; omega
  · intro d i
    unfold relocateRelaStep
    dsimp only
    split_ifs
    · exact length_wr32 _ _ _
    · rfl
  · intro d i p hp
    unfold relocateRelaStep
    dsimp only
    split_ifs
    · exact getD_wr32_of_ne _ _ _ _ (by simp only [sizeofRela]; omega)
    · rfl
  · intro d d' i hl hag p hp
    have hval : (readRela d i).offset = (readRela d' i).offset :=
      rd32_congr _ _ _ (fun q h1 h2 => hag q (by simp only [sizeofRela] at h1 h2; omega))
    unfold relocateRelaStep
    dsimp only
    rw [hval]
    split_ifs
    · rw [getD_wr32, getD_wr32, hl, hag p hp]
    · exact hag p hp

/-- What the relocation loop does to entry `i` of a relocation buffer. -/
theorem relocateRelas_spec (a e n : Nat) (d : List Byte) (i : Nat) (hi : i < numRelas d) :
    readRela (relocateRelas a e n d) i
      = { offset := if a ≤ (readRela d i).offset ∧ (readRela d i).offset ≤ e then
                      ((readRela d i).offset - a + n) % 2 ^ 32
                    else (readRela d i).offset
          info := (readRela d i).info
          addend := (readRela d i).addend } := by
  obtain ⟨_, h1, _⟩ := relocateRelas_local a e n d
  have hlen : 12 * i + 12 ≤ d.length := by
    simp only [numRelas, sizeofRela] at hi
    omega
  have hrec : readRela (relocateRelas a e n d) i = readRela (relocateRelaStep a e n d i) i := by
    simp only [readRela]
    rw [rd32_congr _ (relocateRelaStep a e n d i) (sizeofRela * i)
        (fun q h2 h3 => h1 i hi q (by simp only [sizeofRela] at h2 h3; omega)),
      rd32_congr _ (relocateRelaStep a e n d i) (sizeofRela * i + 4)
        (fun q h2 h3 => h1 i hi q (by simp only [sizeofRela] at h2 h3; omega)),
      rd32_congr _ (relocateRelaStep a e n d i) (sizeofRela * i + 8)
        (fun q h2 h3 => h1 i hi q (by simp only [sizeofRela] at h2 h3; omega))]
  rw [hrec]
  unfold relocateRelaStep
  dsimp only
  split_ifs with hc
  · simp only [readRela, Rela.mk.injEq]
    refine ⟨?_, ?_, ?_⟩
    · rw [rd32_wr32_same _ _ _ (by simp only [sizeofRela]; omega), Nat.mod_mod]
    · exact rd32_wr32_of_ne _ _ _ _ (by omega)
    · exact rd32_wr32_of_ne _ _ _ _ (by omega)
  · rfl

theorem setSectionAddr_getElem? (secs : List Section) (sec n k : Nat) :
    (setSectionAddr secs sec n)[k]?
      = secs[k]?.map (fun s =>
          if k = sec then { s with header := { s.header with addr := n } } else s) := by
  unfold setSectionAddr
  cases hs : secs[sec]? with
  | none =>
    by_cases hk : k = sec
    · subst hk; simp [hs]
    · simp [hk]
  | some s0 =>
    simp only [List.getElem?_set]
    by_cases hk : k = sec
    · subst hk
      have hlt : k < secs.length := by
        by_contra hcon
        rw [List.getElem?_eq_none (by omega)] at hs
        exact absurd hs (by simp)
      simp [hs, hlt]
    · have hk2 : ¬ sec = k := fun h => hk h.symm
      simp [hk, hk2]

theorem relocate_sym_rela (a e n sectionIndex : Nat) (s : Section) :
    relocateRelaSection a e n sectionIndex (relocateSymSection a e n s)
      = { header := s.header, data := relocatedData a e n sectionIndex s } := by
  obtain ⟨hdr, dat⟩ := s
  have hne : ¬ (SHT_SYMTAB = SHT_RELA) := by decide
  have hne2 : ¬ (SHT_RELA = SHT_SYMTAB) := by decide
  unfold relocateRelaSection relocateSymSection relocatedData
  by_cases h1 : hdr.type = SHT_SYMTAB
  · simp [h1, hne]
  · by_cases h2 : hdr.type = SHT_RELA
    · by_cases h3 : hdr.info = sectionIndex
      · simp [h2, h3, hne2]
      · simp [h2, h3, hne2]
    · simp [h1, h2]

theorem relocateSection_getElem? (file : Rpl) (sec sectionIndex n : Nat) (sect : Section)
    (hsec : file.sections[sec]? = some sect) (k : Nat) :
    (relocateSection file sec sectionIndex n).1.sections[k]?
      = file.sections[k]?.map (fun s =>
          { header := if k = sec then { s.header with addr := n } else s.header
            data := relocatedData sect.header.addr (sect.header.addr + sectionSizeOf sect) n
              sectionIndex s }) := by
  unfold relocateSection
  simp only [hsec, setSectionAddr_getElem?, List.getElem?_map, Option.map_map]
  cases file.sections[k]? with
  | none => rfl
  | some s =>
    simp only [Option.map_some', Function.comp_apply, Option.some.injEq]
    have := relocate_sym_rela sect.header.addr (sect.header.addr + sectionSizeOf sect) n
      sectionIndex s
    simp only [sectionSizeOf] at this ⊢
    rw [this]
    by_cases hk : k = sec <;> simp [hk]

/-- **C5.** `relocateSection` on the section `sect` (old address `sect.header.addr`, size its
buffer length, or its header size when the buffer is empty): every symbol of every
symbol-table section whose type tag (low nibble of info) is object, function or section and
whose value lies in `[old, old + size]` gets the value `(value - old) + new` modulo `2 ^ 32`;
every other symbol keeps its value.  A value equal to `old + size` is rewritten, a value
equal to `old + size + 1` is not, and a symbol of another type tag is never rewritten. -/
theorem relocateSection_symbols (file : Rpl) (sec sectionIndex newAddr : Nat) (sect : Section)
    (hsec : file.sections[sec]? = some sect)
    (k : Nat) (symSec : Section) (hk : file.sections[k]? = some symSec)
    (hty : symSec.header.type = SHT_SYMTAB) :
    ∃ symSec' : Section,
      (relocateSection file sec sectionIndex newAddr).1.sections[k]? = some symSec'
      ∧ numSymbols symSec'.data = numSymbols symSec.data
      ∧ ∀ i, i < numSymbols symSec.data →
          symInfo symSec'.data i = symInfo symSec.data i
          ∧ symValue symSec'.data i
              = (if isRelocatableSymbol (symInfo symSec.data i)
                    ∧ sect.header.addr ≤ symValue symSec.data i
                    ∧ symValue symSec.data i ≤ sect.header.addr + sectionSizeOf sect then
                  (symValue symSec.data i - sect.header.addr + newAddr) % 2 ^ 32
                else symValue symSec.data i)
          ∧ (isRelocatableSymbol (symInfo symSec.data i) →
              symValue symSec.data i = sect.header.addr + sectionSizeOf sect →
              symValue symSec'.data i = (sectionSizeOf sect + newAddr) % 2 ^ 32)
          ∧ (symValue symSec.data i = sect.header.addr + sectionSizeOf sect + 1 →
              symValue symSec'.data i = symValue symSec.data i)
          ∧ (¬ isRelocatableSymbol (symInfo symSec.data i) →
              symValue symSec'.data i = symValue symSec.data i) := by
  have hget := relocateSection_getElem? file sec sectionIndex newAddr sect hsec k
  rw [hk, Option.map_some'] at hget
  refine ⟨_, hget, ?_, ?_⟩
  · simp only [relocatedData, hty, if_true, numSymbols]
    rw [(relocateSymbols_local _ _ _ _).1]
  · intro i hi
    have hspec := relocateSymbols_spec sect.header.addr
      (sect.header.addr + sectionSizeOf sect) newAddr symSec.data i hi
    simp only [relocatedData, hty, if_true]
    refine ⟨hspec.1, hspec.2, ?_, ?_, ?_⟩
    · intro hrel hv
      rw [hspec.2, if_pos ⟨hrel, by omega, by omega⟩, hv]
      congr 1; omega
    · intro hv
      rw [hspec.2, if_neg (by omega)]
    · intro hrel
      rw [hspec.2, if_neg (fun h => hrel h.1)]

/-- Witness of **C5**: rebasing the imports section of `exampleSymFile` to `0x01000000`. -/
theorem relocateSection_symbols_witness :
    ∃ symSec' : Section,
      (relocateSection exampleSymFile 0 0 0x01000000).1.sections[1]? = some symSec'
      ∧ symValue symSec'.data 0 = 0x01000008
      ∧ symValue symSec'.data 1 = 0x109
      ∧ symValue symSec'.data 2 = 0x104 := by
  obtain ⟨s', h1, _, h2⟩ := relocateSection_symbols exampleSymFile 0 0 0x01000000
    { header := { name := 0, type := SHT_RPL_IMPORTS, flags := 4, addr := 0x100,
                  offset := 0, size := 8, link := 0, info := 0, addralign := 4, entsize := 0 }
      data := [1, 2, 3, 4, 5, 6, 7, 8] } (by decide) 1
    { header := { name := 0, type := SHT_SYMTAB, flags := 0, addr := 0,
                  offset := 0, size := 48, link := 0, info := 0, addralign := 4, entsize := 16 }
      data := exampleSymbol 0x108 0x12 ++ exampleSymbol 0x109 0x11
        ++ exampleSymbol 0x104 0x10 } (by decide) (by decide)
  refine ⟨s', h1, ?_, ?_, ?_⟩
  · exact (h2 0 (by decide)).2.2.1 (by decide) (by decide)
  · exact (h2 1 (by decide)).2.2.2.1 (by decide)
  · exact (h2 2 (by decide)).2.2.2.2 (by decide)

/-- **C6.** `relocateSection` on the section `sect` with the argument `sectionIndex`: in
every relocation-type section, entry `i` keeps its info and addend, and its offset becomes
`(offset - old) + new` modulo `2 ^ 32` exactly when the section's info field equals
`sectionIndex` and the offset lies in `[old, old + size]`; otherwise the offset is kept (so
the entries of relocation sections whose info differs from `sectionIndex` are unchanged).
Afterwards the address field of the section is `newAddr`. -/
theorem relocateSection_relocations (file : Rpl) (sec sectionIndex newAddr : Nat)
    (sect : Section) (hsec : file.sections[sec]? = some sect) :
    (∀ (k : Nat) (relaSec : Section), file.sections[k]? = some relaSec →
      relaSec.header.type = SHT_RELA →
      ∃ relaSec' : Section,
        (relocateSection file sec sectionIndex newAddr).1.sections[k]? = some relaSec'
        ∧ numRelas relaSec'.data = numRelas relaSec.data
        ∧ (relaSec.header.info ≠ sectionIndex → relaSec'.data = relaSec.data)
        ∧ ∀ i, i < numRelas relaSec.data →
            readRela relaSec'.data i
              = { offset :=
                    if relaSec.header.info = sectionIndex
                        ∧ sect.header.addr ≤ (readRela relaSec.data i).offset
                        ∧ (readRela relaSec.data i).offset
                            ≤ sect.header.addr + sectionSizeOf sect then
                      ((readRela relaSec.data i).offset - sect.header.addr + newAddr) % 2 ^ 32
                    else (readRela relaSec.data i).offset
                  info := (readRela relaSec.data i).info
                  addend := (readRela relaSec.data i).addend })
    ∧ ∃ sect' : Section,
        (relocateSection file sec sectionIndex newAddr).1.sections[sec]? = some sect'
        ∧ sect'.header.addr = newAddr := by
  refine ⟨?_, ?_⟩
  · intro k relaSec hk hty
    have hget := relocateSection_getElem? file sec sectionIndex newAddr sect hsec k
    rw [hk, Option.map_some'] at hget
    have hne : ¬ (SHT_RELA = SHT_SYMTAB) := by decide
    by_cases hinfo : relaSec.header.info = sectionIndex
    · have hdata : relocatedData sect.header.addr (sect.header.addr + sectionSizeOf sect)
          newAddr sectionIndex relaSec
          = relocateRelas sect.header.addr (sect.header.addr + sectionSizeOf sect) newAddr
              relaSec.data := by
        simp [relocatedData, hty, hinfo, hne]
      refine ⟨_, hget, ?_, fun h => absurd hinfo h, ?_⟩
      · simp only [hdata, numRelas]
        rw [(relocateRelas_local _ _ _ _).1]
      · intro i hi
        simp only [hdata, hinfo, true_and]
        exact relocateRelas_spec _ _ _ _ i hi
    · have hdata : relocatedData sect.header.addr (sect.header.addr + sectionSizeOf sect)
          newAddr sectionIndex relaSec = relaSec.data := by
        simp [relocatedData, hty, hinfo, hne]
      refine ⟨_, hget, by rw [hdata], fun _ => hdata, ?_⟩
      intro i _
      simp only [hdata, hinfo, false_and, if_false]
  · have hget := relocateSection_getElem? file sec sectionIndex newAddr sect hsec sec
    rw [hsec, Option.map_some'] at hget
    exact ⟨_, hget, by simp⟩

/-- Witness of **C6**: rebasing the imports section of `exampleRelocFile` to `0x01000000`
rewrites the first entry of the relocation section with info 0, and its address is set. -/
theorem relocateSection_relocations_witness :
    (∃ relaSec' : Section,
      (relocateSection exampleRelocFile 0 0 0x01000000).1.sections[1]? = some relaSec'
      ∧ readRela relaSec'.data 0 = { offset := 0x01000004, info := 0x101, addend := 3 })
    ∧ ∃ sect' : Section,
        (relocateSection exampleRelocFile 0 0 0x01000000).1.sections[0]? = some sect'
        ∧ sect'.header.addr = 0x01000000 := by
  have h := relocateSection_relocations exampleRelocFile 0 0 0x01000000
    { header := { name := 0, type := SHT_RPL_IMPORTS, flags := 4, addr := 0x100,
                  offset := 0, size := 8, link := 0, info := 0, addralign := 4, entsize := 0 }
      data := [1, 2, 3, 4, 5, 6, 7, 8] } (by decide)
  refine ⟨?_, h.2⟩
  obtain ⟨r', h1, _, _, h2⟩ := h.1 1
    { header := { name := 0, type := SHT_RELA, flags := 0, addr := 0,
                  offset := 0, size := 24, link := 0, info := 0, addralign := 4, entsize := 12 }
      data := relasBytes [{ offset := 0x104, info := 0x101, addend := 3 },
                          { offset := 0x109, info := 0x101, addend := 4 }] }
    (by decide) (by decide)
  refine ⟨r', h1, ?_⟩
  rw [h2 0 (by decide)]
  decide

/-! ### The layout planner: the seven loops in closed form -/

theorem calculateSectionOffsets_eq (file : Rpl) :
    calculateSectionOffsets file
      = ({ file with
            sections := (runScans 7 (layoutStart file, file.sections.map clearNoData)).2 },
         !(runScans 7 (layoutStart file, file.sections.map clearNoData)).2.any lacksOffset) :=
  rfl

theorem category_lt (s : Section) (k : Nat) (h : category s = some k) : k < 7 := by
  unfold category at h
  split_ifs at h <;> simp at h <;> omega

theorem scanPred_category (s : Section) (k : Nat) (h : category s = some k) :
    scanPred k s = true := by
  unfold category at h
  split_ifs at h <;> simp at h <;> subst h <;> simpa [scanPred]

theorem scanPred_of_category_none (s : Section) (c : Nat) (h : category s = none) :
    scanPred c s = false := by
  unfold category at h
  split_ifs at h with h0 h1 h2 h3 h4 h5 h6
  match c with
  | 0 => simpa [scanPred] using h0
  | 1 => simpa [scanPred] using h1
  | 2 => simpa [scanPred] using h2
  | 3 => simpa [scanPred] using h3
  | 4 => simpa [scanPred] using h4
  | 5 => simpa [scanPred] using h5
  | 6 => simpa [scanPred] using h6
  | _ + 7 => rfl

theorem skipsSection_false (s : Section) (h : skipsSection s = false) :
    s.header.size ≠ 0 ∧ s.header.type ≠ SHT_RPL_FILEINFO ∧ s.header.type ≠ SHT_RPL_IMPORTS
      ∧ s.header.type ≠ SHT_RPL_CRCS ∧ s.header.type ≠ SHT_NOBITS := by
  simpa [skipsSection, not_or, and_assoc] using h

theorem isDataSection_true (s : Section) (h : isDataSection s = true) :
    skipsSection s = false ∧ s.header.flags &&& SHF_EXECINSTR = 0
      ∧ s.header.flags &&& SHF_WRITE ≠ 0 ∧ s.header.flags &&& SHF_ALLOC ≠ 0 := by
  simpa [isDataSection, and_assoc] using h

theorem isReadSection_true (s : Section) (h : isReadSection s = true) :
    skipsSection s = false
      ∧ (s.header.flags &&& SHF_EXECINSTR = 0 ∨ s.header.type = SHT_RPL_EXPORTS)
      ∧ s.header.flags &&& SHF_WRITE = 0 ∧ s.header.flags &&& SHF_ALLOC ≠ 0 := by
  simpa [isReadSection, and_assoc] using h

theorem isTextSection_true (s : Section) (h : isTextSection s = true) :
    skipsSection s = false ∧ s.header.flags &&& SHF_EXECINSTR ≠ 0
      ∧ s.header.type ≠ SHT_RPL_EXPORTS := by
  simpa [isTextSection, and_assoc] using h

theorem isTempSection_true (s : Section) (h : isTempSection s = true) :
    skipsSection s = false ∧ s.header.flags &&& SHF_EXECINSTR = 0
      ∧ s.header.flags &&& SHF_ALLOC = 0 := by
  simpa [isTempSection, and_assoc] using h

theorem loopOfKind_of_scanPred (s : Section) (c : Nat) (h : scanPred c s = true) :
    loopOfKind s.header.type s.header.flags = c := by
  have e1 : ¬ (SHT_RPL_FILEINFO = SHT_RPL_CRCS) := by decide
  have e2 : ¬ (SHT_RPL_IMPORTS = SHT_RPL_CRCS) := by decide
  have e3 : ¬ (SHT_RPL_IMPORTS = SHT_RPL_FILEINFO) := by decide
  match c with
  | 0 =>
    have ht : s.header.type = SHT_RPL_CRCS := by simpa [scanPred, isCrcsSection] using h
    simp [loopOfKind, ht]
  | 1 =>
    have ht : s.header.type = SHT_RPL_FILEINFO := by simpa [scanPred, isFileInfoSection] using h
    simp [loopOfKind, ht, e1]
  | 4 =>
    have ht : s.header.type = SHT_RPL_IMPORTS := by simpa [scanPred, isImportsSection] using h
    simp [loopOfKind, ht, e2, e3]
  | 2 =>
    obtain ⟨hs, hx, hw, ha⟩ := isDataSection_true s h
    obtain ⟨_, t1, t2, t3, t4⟩ := skipsSection_false s hs
    simp [loopOfKind, t1, t2, t3, t4, hx, hw, ha]
  | 3 =>
    obtain ⟨hs, hx, hw, ha⟩ := isReadSection_true s h
    obtain ⟨_, t1, t2, t3, t4⟩ := skipsSection_false s hs
    simp [loopOfKind, t1, t2, t3, t4, hx, hw, ha]
  | 5 =>
    obtain ⟨hs, hx, he⟩ := isTextSection_true s h
    obtain ⟨_, t1, t2, t3, t4⟩ := skipsSection_false s hs
    simp [loopOfKind, t1, t2, t3, t4, hx, he]
  | 6 =>
    obtain ⟨hs, hx, ha⟩ := isTempSection_true s h
    obtain ⟨_, t1, t2, t3, t4⟩ := skipsSection_false s hs
    simp [loopOfKind, t1, t2, t3, t4, hx, ha]
  | _ + 7 => simp [scanPred] at h

theorem scanPred_of_category_ne (s s' : Section) (ht : s'.header.type = s.header.type)
    (hf : s'.header.flags = s.header.flags) (k c : Nat) (hk : category s = some k)
    (hc : c ≠ k) : scanPred c s' = false := by
  by_contra hcon
  have h1 := loopOfKind_of_scanPred s k (scanPred_category s k hk)
  have h2 := loopOfKind_of_scanPred s' c (by simpa using hcon)
  rw [ht, hf, h1] at h2
  exact hc h2.symm

theorem assignUpTo_congr (c : Nat) (l : List Section) :
    ∀ base base' : Nat → Nat, (∀ k, k < c → base k = base' k) →
      (assignUpTo c base l).2 = (assignUpTo c base' l).2 := by
  induction l with
  | nil => intro _ _ _; rfl
  | cons s rest ih =>
    intro base base' h
    simp only [assignUpTo]
    cases hcat : category s with
    | none => simp only [ih base base' h]
    | some k =>
      by_cases hk : k < c
      · simp only [hk, if_true]
        rw [h k hk, ih (bump base k s.data.length) (bump base' k s.data.length)]
        intro j hj
        simp only [bump, h k hk, h j hj]
      · simp only [hk, if_false, ih base base' h]

theorem assignUpTo_step (c : Nat) (l : List Section) :
    ∀ base : Nat → Nat,
      placeLoop (scanPred c) (base c) (assignUpTo c base l).2
        = ((assignUpTo (c + 1) base l).1 c, (assignUpTo (c + 1) base l).2) := by
  induction l with
  | nil => intro base; rfl
  | cons s rest ih =>
    intro base
    simp only [assignUpTo]
    cases hcat : category s with
    | none =>
      have hp : scanPred c s = false := scanPred_of_category_none s c hcat
      simp only [placeLoop, hp, Bool.false_eq_true, if_false, ih base]
    | some k =>
      by_cases hk : k < c
      · have hk1 : k < c + 1 := by omega
        have hp : scanPred c (placeSection (base k) s) = false :=
          scanPred_of_category_ne s (placeSection (base k) s) rfl rfl k c hcat (by omega)
        have hb : base c = bump base k s.data.length c := by
          simp only [bump]; rw [if_neg (by omega)]
        simp only [hk, hk1, if_true, placeLoop, hp, Bool.false_eq_true, if_false]
        rw [hb, ih]
      · by_cases hkc : k = c
        · subst hkc
          have hp : scanPred k s = true := scanPred_category s k hcat
          have hb : (base k + (placeSection (base k) s).header.size) % 2 ^ 32
              = bump base k s.data.length k := by
            simp only [bump, placeSection, if_true]
          have hcg := assignUpTo_congr k rest base (bump base k s.data.length)
            (fun j hj => by simp only [bump]; rw [if_neg (by omega)])
          simp only [hk, if_false, Nat.lt_succ_self, if_true, placeLoop, hp]
          rw [hb, hcg, ih]
        · have hk1 : ¬ k < c + 1 := by omega
          have hp : scanPred c s = false :=
            scanPred_of_category_ne s s rfl rfl k c hcat (by omega)
          simp only [hk, hk1, if_false, placeLoop, hp, Bool.false_eq_true, ih base]

theorem sumLen_cons (s : Section) (l : List Section) :
    sumLen (s :: l) = s.data.length + sumLen l := by
  simp [sumLen]

theorem sumLen_nil : sumLen [] = 0 := rfl

theorem offsetIn_nil (base : Nat → Nat) (k : Nat) (h : base k < 2 ^ 32) :
    offsetIn base k [] = base k := by
  unfold offsetIn
  rw [List.filter_nil, sumLen_nil, Nat.add_zero, Nat.mod_eq_of_lt h]

theorem offsetIn_cons_same (base : Nat → Nat) (k : Nat) (s : Section) (l : List Section)
    (h : category s = some k) :
    offsetIn base k (s :: l) = offsetIn (bump base k s.data.length) k l := by
  have hin : inCategory k s = true := by simp [inCategory, h]
  simp only [offsetIn, List.filter_cons, hin, if_true, sumLen_cons, bump]
  omega

theorem offsetIn_cons_other (base : Nat → Nat) (k : Nat) (s : Section) (l : List Section)
    (h : category s ≠ some k) : offsetIn base k (s :: l) = offsetIn base k l := by
  have hin : inCategory k s = false := by simp [inCategory, h]
  simp only [offsetIn, List.filter_cons, hin]
  simp

theorem offsetIn_bump_other (base : Nat → Nat) (k j len : Nat) (l : List Section) (h : k ≠ j) :
    offsetIn (bump base j len) k l = offsetIn base k l := by
  simp only [offsetIn, bump, if_neg h]

theorem bump_lt (base : Nat → Nat) (j len : Nat) (h : ∀ k, base k < 2 ^ 32) :
    ∀ k, bump base j len k < 2 ^ 32 := by
  intro k
  simp only [bump]
  split_ifs
  · exact Nat.mod_lt _ (by norm_num)
  · exact h k

theorem assignUpTo_cursor (c : Nat) (l : List Section) :
    ∀ base : Nat → Nat, (∀ k, base k < 2 ^ 32) → ∀ k, k < c →
      (assignUpTo c base l).1 k = offsetIn base k l := by
  induction l with
  | nil => intro base h k _; rw [offsetIn_nil base k (h k)]; rfl
  | cons s rest ih =>
    intro base h k hk
    simp only [assignUpTo]
    cases hcat : category s with
    | none =>
      rw [offsetIn_cons_other base k s rest (by rw [hcat]; simp)]
      exact ih base h k hk
    | some j =>
      by_cases hj : j < c
      · simp only [hj, if_true]
        rw [ih _ (bump_lt base j _ h) k hk]
        by_cases hkj : k = j
        · subst hkj
          rw [offsetIn_cons_same base k s rest hcat]
        · rw [offsetIn_bump_other base k j _ rest hkj,
            offsetIn_cons_other base k s rest (by rw [hcat]; simpa using fun h => hkj h.symm)]
      · simp only [hj, if_false]
        rw [ih base h k hk,
          offsetIn_cons_other base k s rest (by rw [hcat]; simp; omega)]

theorem assignUpTo_getElem? (c : Nat) (l : List Section) :
    ∀ (base : Nat → Nat) (i : Nat), (∀ k, base k < 2 ^ 32) →
      (assignUpTo c base l).2[i]?
        = l[i]?.map (placedAs c (fun k => offsetIn base k (l.take i))) := by
  induction l with
  | nil => intro base i _; simp [assignUpTo]
  | cons s rest ih =>
    intro base i h
    cases i with
    | zero =>
      simp only [assignUpTo, List.take_zero]
      cases hcat : category s with
      | none => simp [placedAs, hcat]
      | some j =>
        by_cases hj : j < c
        · simp [placedAs, hj, hcat, offsetIn_nil base j (h j)]
        · simp [placedAs, hj, hcat]
    | succ i =>
      have key : ∀ base' : Nat → Nat, (∀ k, k < c → ∀ l', offsetIn base' k l' = offsetIn base k (s :: l')) →
          (∀ k, base' k < 2 ^ 32) →
          (assignUpTo c base' rest).2[i]?
            = rest[i]?.map (placedAs c (fun k => offsetIn base k (s :: rest.take i))) := by
        intro base' hb hlt
        rw [ih base' i hlt]
        congr 1
        funext x
        simp only [placedAs]
        cases category x with
        | none => rfl
        | some k =>
          by_cases hk : k < c
          · simp only [hk, if_true, hb k hk]
          · simp only [hk, if_false]
      simp only [assignUpTo]
      cases hcat : category s with
      | none =>
        simp only [List.getElem?_cons_succ, List.take_succ_cons]
        exact key base (fun k _ l' =>
          (offsetIn_cons_other base k s l' (by rw [hcat]; simp)).symm) h
      | some j =>
        by_cases hj : j < c
        · simp only [hj, if_true, List.getElem?_cons_succ, List.take_succ_cons]
          refine key _ (fun k _ l' => ?_) (bump_lt base j _ h)
          by_cases hkj : k = j
          · subst hkj
            rw [offsetIn_cons_same base k s l' hcat]
          · rw [offsetIn_bump_other base k j _ l' hkj,
              offsetIn_cons_other base k s l' (by rw [hcat]; simpa using fun h => hkj h.symm)]
        · simp only [hj, if_false, List.getElem?_cons_succ, List.take_succ_cons]
          exact key base (fun k hk l' =>
            (offsetIn_cons_other base k s l' (by rw [hcat]; simp; omega)).symm) h

theorem beforeCategory_succ (c : Nat) (s : Section) :
    beforeCategory (c + 1) s = (beforeCategory c s || inCategory c s) := by
  unfold beforeCategory inCategory
  cases category s with
  | none => simp
  | some j =>
    by_cases h1 : j < c
    · have h2 : j < c + 1 := by omega
      simp [h1, h2]
    · by_cases h3 : j = c
      · subst h3; simp
      · have h2 : ¬ j < c + 1 := by omega
        simp [h1, h2, h3]

theorem before_in_disjoint (c : Nat) (s : Section) (h : beforeCategory c s = true) :
    inCategory c s = false := by
  unfold beforeCategory at h
  unfold inCategory
  cases hcat : category s with
  | none => simp
  | some j =>
    rw [hcat] at h
    have : j < c := by simpa using h
    simp; omega

theorem sumLen_before_succ (c : Nat) (l : List Section) :
    sumLen (l.filter (beforeCategory (c + 1)))
      = sumLen (l.filter (beforeCategory c)) + sumLen (l.filter (inCategory c)) := by
  induction l with
  | nil => rfl
  | cons s rest ih =>
    simp only [List.filter_cons, beforeCategory_succ]
    by_cases h1 : beforeCategory c s = true
    · have h2 := before_in_disjoint c s h1
      simp only [h1, h2, Bool.true_or, if_true, sumLen_cons, Bool.false_eq_true, if_false]
      simp only [beforeCategory_succ] at ih
      omega
    · have h1' : beforeCategory c s = false := by simpa using h1
      by_cases h2 : inCategory c s = true
      · simp only [h1', h2, Bool.or_true, if_true, sumLen_cons, Bool.false_eq_true, if_false]
        simp only [beforeCategory_succ] at ih
        omega
      · have h2' : inCategory c s = false := by simpa using h2
        simp only [h1', h2', Bool.or_false, Bool.false_eq_true, if_false]
        simp only [beforeCategory_succ] at ih
        exact ih

theorem beforeCategory_zero (s : Section) : beforeCategory 0 s = false := by
  unfold beforeCategory
  cases category s <;> simp

theorem loopStart_zero (start : Nat) (s0 : List Section) (h : start < 2 ^ 32) :
    loopStart start s0 0 = start := by
  have : s0.filter (beforeCategory 0) = [] := by
    rw [List.filter_eq_nil_iff]
    intro s _
    simp [beforeCategory_zero]
  rw [loopStart, this, sumLen_nil, Nat.add_zero, Nat.mod_eq_of_lt h]

theorem loopStart_lt (start : Nat) (s0 : List Section) (k : Nat) :
    loopStart start s0 k < 2 ^ 32 := Nat.mod_lt _ (by norm_num)

theorem assignUpTo_zero (l : List Section) : ∀ base : Nat → Nat, (assignUpTo 0 base l).2 = l := by
  induction l with
  | nil => intro _; rfl
  | cons s rest ih =>
    intro base
    simp only [assignUpTo]
    cases category s with
    | none => simp only [ih]
    | some k => simp only [Nat.not_lt_zero, if_false, ih]

theorem runScans_eq (start : Nat) (s0 : List Section) (h : start < 2 ^ 32) :
    ∀ c, runScans c (start, s0)
      = (loopStart start s0 c, (assignUpTo c (loopStart start s0) s0).2) := by
  intro c
  induction c with
  | zero => simp only [runScans, loopStart_zero start s0 h, assignUpTo_zero]
  | succ c ih =>
    simp only [runScans, ih]
    rw [assignUpTo_step, assignUpTo_cursor (c + 1) s0 _ (loopStart_lt start s0) c (by omega)]
    congr 1
    simp only [offsetIn, loopStart, sumLen_before_succ]
    omega

theorem layoutStart_lt (file : Rpl) : layoutStart file < 2 ^ 32 :=
  Nat.mod_lt _ (by norm_num)

theorem category_clearNoData (s : Section) : category (clearNoData s) = category s := by
  unfold clearNoData
  split_ifs
  · rfl
  · rfl

/-- The planner in closed form: the section at index `i` of the output. -/
theorem calculateSectionOffsets_getElem? (file : Rpl) (i : Nat) :
    (calculateSectionOffsets file).1.sections[i]?
      = file.sections[i]?.map (fun s =>
          match category s with
          | some k => placeSection (plannedOffset file i k) (clearNoData s)
          | none => clearNoData s) := by
  rw [calculateSectionOffsets_eq]
  simp only [runScans_eq _ _ (layoutStart_lt file)]
  rw [assignUpTo_getElem? 7 _ _ i (loopStart_lt _ _), List.getElem?_map, Option.map_map]
  congr 1
  funext s
  simp only [Function.comp_apply, placedAs, category_clearNoData]
  cases hcat : category s with
  | none => rfl
  | some k =>
    have hk := category_lt s k hcat
    simp only [hk, if_true, offsetIn, loopStart, plannedOffset]
    congr 1
    omega

theorem placeSection_type (o : Nat) (s : Section) :
    (placeSection o s).header.type = s.header.type := rfl

theorem placeSection_flags (o : Nat) (s : Section) :
    (placeSection o s).header.flags = s.header.flags := rfl

theorem assignedBy_iff (file : Rpl) (c i : Nat) :
    assignedBy file c i ↔ ∃ s : Section, file.sections[i]? = some s ∧ category s = some c := by
  unfold assignedBy
  rw [runScans_eq _ _ (layoutStart_lt file)]
  simp only [assignUpTo_getElem? c _ _ i (loopStart_lt _ _), List.getElem?_map, Option.map_map]
  constructor
  · rintro ⟨s', hs', hp⟩
    cases hget : file.sections[i]? with
    | none => rw [hget] at hs'; simp at hs'
    | some s =>
      rw [hget] at hs'
      simp only [Option.map_some', Function.comp_apply, Option.some.injEq] at hs'
      refine ⟨s, rfl, ?_⟩
      cases hcat : category s with
      | none =>
        have h1 : scanPred c s' = false := by
          rw [← hs']
          simp only [placedAs, category_clearNoData, hcat]
          exact scanPred_of_category_none _ c (by rw [category_clearNoData]; exact hcat)
        rw [h1] at hp; exact absurd hp (by decide)
      | some k =>
        by_contra hne
        have hkc : c ≠ k := fun h => hne (by rw [h])
        have h1 : scanPred c s' = false := by
          rw [← hs']
          simp only [placedAs, category_clearNoData, hcat]
          split_ifs
          · exact scanPred_of_category_ne (clearNoData s) (placeSection _ (clearNoData s))
              rfl rfl k c (by rw [category_clearNoData]; exact hcat) hkc
          · exact scanPred_of_category_ne (clearNoData s) (clearNoData s) rfl rfl k c
              (by rw [category_clearNoData]; exact hcat) hkc
        rw [h1] at hp; exact absurd hp (by decide)
  · rintro ⟨s, hs, hcat⟩
    refine ⟨clearNoData s, ?_, ?_⟩
    · rw [hs]
      simp only [Option.map_some', Function.comp_apply, Option.some.injEq, placedAs,
        category_clearNoData, hcat, Nat.lt_irrefl, if_false]
    · exact scanPred_category _ c (by rw [category_clearNoData]; exact hcat)

theorem sumLen_filter_mono (p q : Section → Bool) (h : ∀ s, p s = true → q s = true)
    (l : List Section) : sumLen (l.filter p) ≤ sumLen (l.filter q) := by
  induction l with
  | nil => exact Nat.le_refl _
  | cons s rest ih =>
    simp only [List.filter_cons]
    by_cases hp : p s = true
    · simp only [hp, h s hp, if_true, sumLen_cons]; omega
    · have hp' : p s = false := by simpa using hp
      by_cases hq : q s = true
      · simp only [hp', hq, if_true, Bool.false_eq_true, if_false, sumLen_cons]; omega
      · have hq' : q s = false := by simpa using hq
        simp only [hp', hq', Bool.false_eq_true, if_false]; exact ih

theorem sumLen_append (l l' : List Section) : sumLen (l ++ l') = sumLen l + sumLen l' := by
  simp [sumLen]

theorem sumLen_take_filter (p : Section → Bool) (l : List Section) (i : Nat) (s : Section)
    (hs : l[i]? = some s) (hp : p s = true) :
    sumLen ((l.take i).filter p) + s.data.length ≤ sumLen (l.filter p) := by
  have hi : i < l.length := by
    by_contra hcon
    rw [List.getElem?_eq_none (by omega)] at hs
    exact absurd hs (by simp)
  have hsplit : l = l.take i ++ s :: l.drop (i + 1) := by
    have h1 : l.drop i = s :: l.drop (i + 1) := by
      rw [List.drop_eq_getElem_cons hi]
      congr 1
      rw [List.getElem?_eq_getElem hi] at hs
      exact Option.some.inj hs
    rw [← h1, List.take_append_drop]
  have : sumLen (l.filter p)
      = sumLen ((l.take i).filter p) + (s.data.length + sumLen ((l.drop (i + 1)).filter p)) := by
    conv_lhs => rw [hsplit]
    rw [List.filter_append, sumLen_append, List.filter_cons, hp, if_pos rfl, sumLen_cons]
  omega

theorem beforeCategory_mono (k k' : Nat) (h : k ≤ k') (s : Section)
    (hb : beforeCategory k s = true) : beforeCategory k' s = true := by
  unfold beforeCategory at *
  cases hcat : category s with
  | none => rw [hcat] at hb; exact hb
  | some j =>
    rw [hcat] at hb
    have : j < k := by simpa using hb
    simp; omega

theorem beforeCategory_isSome (k : Nat) (s : Section) (hb : beforeCategory k s = true) :
    (category s).isSome = true := by
  unfold beforeCategory at hb
  cases hcat : category s with
  | none => rw [hcat] at hb; simp at hb
  | some j => rfl

theorem align_up_ge (v : Nat) : v ≤ align_up v 64 := by
  unfold align_up; omega

theorem layoutStart_of_fits (file : Rpl) (h : layoutFits file) :
    layoutStart file
      = file.header.shoff + align_up (file.sections.length * sizeofSectionHeader) 64 := by
  unfold layoutFits at h
  have h1 := align_up_ge (file.sections.length * sizeofSectionHeader)
  unfold layoutStart
  rw [Nat.mod_eq_of_lt (a := file.sections.length * sizeofSectionHeader) (by omega),
    Nat.mod_eq_of_lt (a := align_up _ _) (by omega), Nat.mod_eq_of_lt (by omega)]

/-- Without overflow the planned offset of a section of category `k` at index `i` is the
plain sum, and the section ends before the start of the next category. -/
theorem plannedOffset_of_fits (file : Rpl) (h : layoutFits file) (i k : Nat) (s : Section)
    (hs : file.sections[i]? = some s) (hcat : category s = some k) :
    plannedOffset file i k
        = layoutStart file + sumLen ((file.sections.map clearNoData).filter (beforeCategory k))
          + sumLen (((file.sections.map clearNoData).take i).filter (inCategory k))
    ∧ plannedOffset file i k + (clearNoData s).data.length
        ≤ layoutStart file
          + sumLen ((file.sections.map clearNoData).filter (beforeCategory (k + 1)))
    ∧ layoutStart file
          + sumLen ((file.sections.map clearNoData).filter (beforeCategory (k + 1))) < 2 ^ 32 := by
  have hstart := layoutStart_of_fits file h
  unfold layoutFits at h
  have hs0 : (file.sections.map clearNoData)[i]? = some (clearNoData s) := by
    rw [List.getElem?_map, hs]; rfl
  have hin : inCategory k (clearNoData s) = true := by
    simp [inCategory, category_clearNoData, hcat]
  have h1 := sumLen_take_filter (inCategory k) _ i _ hs0 hin
  have h2 := sumLen_before_succ k (file.sections.map clearNoData)
  have h3 := sumLen_filter_mono (beforeCategory (k + 1)) (fun s => (category s).isSome)
    (beforeCategory_isSome (k + 1)) (file.sections.map clearNoData)
  have hp : plannedOffset file i k
      = layoutStart file + sumLen ((file.sections.map clearNoData).filter (beforeCategory k))
        + sumLen (((file.sections.map clearNoData).take i).filter (inCategory k)) := by
    unfold plannedOffset
    exact Nat.mod_eq_of_lt (by omega)
  refine ⟨hp, by omega, by omega⟩

/-- **C8.** On a container for which the planner runs without 32-bit overflow: every section
is assigned an offset by at most one of the seven placement loops, and when section `i` is
assigned by an earlier loop than section `j`, the file range of `i` ends at or before the
offset of `j` (`offset + size ≤ offset`), so the ranges of two categories never interleave. -/
theorem calculateSectionOffsets_category_order (file : Rpl) (hfit : layoutFits file) :
    (∀ i c1 c2, assignedBy file c1 i → assignedBy file c2 i → c1 = c2)
    ∧ (∀ i j c1 c2, assignedBy file c1 i → assignedBy file c2 j → c1 < c2 →
        ∃ a b : Section,
          (calculateSectionOffsets file).1.sections[i]? = some a
          ∧ (calculateSectionOffsets file).1.sections[j]? = some b
          ∧ a.header.offset + a.header.size ≤ b.header.offset) := by
  refine ⟨?_, ?_⟩
  · intro i c1 c2 h1 h2
    obtain ⟨s1, hs1, hc1⟩ := (assignedBy_iff file c1 i).1 h1
    obtain ⟨s2, hs2, hc2⟩ := (assignedBy_iff file c2 i).1 h2
    rw [hs1] at hs2
    rw [← Option.some.inj hs2, hc1] at hc2
    exact Option.some.inj hc2
  · intro i j c1 c2 h1 h2 hlt
    obtain ⟨sa, hsa, hca⟩ := (assignedBy_iff file c1 i).1 h1
    obtain ⟨sb, hsb, hcb⟩ := (assignedBy_iff file c2 j).1 h2
    have ha := calculateSectionOffsets_getElem? file i
    have hb := calculateSectionOffsets_getElem? file j
    rw [hsa, Option.map_some'] at ha
    rw [hsb, Option.map_some'] at hb
    simp only [hca] at ha
    simp only [hcb] at hb
    refine ⟨_, _, ha, hb, ?_⟩
    obtain ⟨_, ha2, ha3⟩ := plannedOffset_of_fits file hfit i c1 sa hsa hca
    obtain ⟨hb1, _, _⟩ := plannedOffset_of_fits file hfit j c2 sb hsb hcb
    have hmono := sumLen_filter_mono (beforeCategory (c1 + 1)) (beforeCategory c2)
      (beforeCategory_mono (c1 + 1) c2 (by omega)) (file.sections.map clearNoData)
    have hsize : (clearNoData sa).data.length % 2 ^ 32 = (clearNoData sa).data.length :=
      Nat.mod_eq_of_lt (by omega)
    simp only [placeSection, hsize]
    omega

/-- Witness of **C8**: in `exampleLayoutFile` the data section (index 2, loop 2) ends before
the text section (index 1, loop 5) starts. -/
theorem calculateSectionOffsets_category_order_witness :
    ∃ a b : Section,
      (calculateSectionOffsets exampleLayoutFile).1.sections[2]? = some a
      ∧ (calculateSectionOffsets exampleLayoutFile).1.sections[1]? = some b
      ∧ a.header.offset + a.header.size ≤ b.header.offset :=
  (calculateSectionOffsets_category_order exampleLayoutFile (by decide)).2 2 1 2 5
    ⟨_, rfl, by decide⟩ ⟨_, rfl, by decide⟩ (by decide)

theorem sumLen_filter_perm (p : Section → Bool) (l l' : List Section) (h : l.Perm l') :
    sumLen (l.filter p) = sumLen (l'.filter p) :=
  ((h.filter p).map _).sum_eq

theorem category_text (t : Section) (hx : t.header.flags &&& SHF_EXECINSTR ≠ 0)
    (hsize : t.header.size ≠ 0) (hty : isProgramType t.header.type) : category t = some 5 := by
  obtain ⟨_, t2, t3, t4, t5, t6⟩ := hty
  simp [category, isCrcsSection, isFileInfoSection, isDataSection, isReadSection,
    isImportsSection, isTextSection, skipsSection, hx, hsize, t2, t3, t4, t5, t6]

theorem category_data (d : Section) (hx : d.header.flags &&& SHF_EXECINSTR = 0)
    (hw : d.header.flags &&& SHF_WRITE ≠ 0) (ha : d.header.flags &&& SHF_ALLOC ≠ 0)
    (hsize : d.header.size ≠ 0) (hty : isProgramType d.header.type) : category d = some 2 := by
  obtain ⟨_, t2, t3, t4, t5, t6⟩ := hty
  simp [category, isCrcsSection, isFileInfoSection, isDataSection,
    skipsSection, hx, hw, ha, hsize, t2, t3, t4, t5, t6]

theorem clearNoData_program (s : Section) (hty : isProgramType s.header.type) :
    clearNoData s = s := by
  obtain ⟨t1, t2, _⟩ := hty
  simp [clearNoData, t1, t2]

theorem clearNoData_null (s : Section) (hty : s.header.type = SHT_NULL) :
    (clearNoData s).data = [] ∧ (clearNoData s).header.type = SHT_NULL := by
  simp [clearNoData, hty]

theorem sumLen_filter_three (p : Section → Bool) (n t d : Section) (hn : n.data = []) :
    sumLen ([n, t, d].filter p)
      = (if p t then t.data.length else 0) + (if p d then d.data.length else 0) := by
  simp only [List.filter_cons, List.filter_nil]
  by_cases h1 : p n = true <;> by_cases h2 : p t = true <;> by_cases h3 : p d = true <;>
    simp [h1, h2, h3, sumLen, hn]

/-- The sums of buffer lengths in the three-section container. -/
theorem three_section_sums (file : Rpl) (n t d : Section)
    (hperm : file.sections.Perm [n, t, d]) (hn : n.header.type = SHT_NULL)
    (hct : category t = some 5) (hcd : category d = some 2)
    (htlen : t.data.length = 16) (hdlen : d.data.length = 8)
    (htty : isProgramType t.header.type) (hdty : isProgramType d.header.type) :
    sumLen ((file.sections.map clearNoData).filter (fun s => (category s).isSome)) = 24
    ∧ sumLen ((file.sections.map clearNoData).filter (beforeCategory 2)) = 0
    ∧ sumLen ((file.sections.map clearNoData).filter (beforeCategory 3)) = 8
    ∧ sumLen ((file.sections.map clearNoData).filter (beforeCategory 5)) = 8
    ∧ sumLen ((file.sections.map clearNoData).filter (beforeCategory 6)) = 24 := by
  have hp : (file.sections.map clearNoData).Perm [clearNoData n, t, d] := by
    have := hperm.map clearNoData
    simpa [clearNoData_program t htty, clearNoData_program d hdty] using this
  have hn0 := (clearNoData_null n hn).1
  have e1 : (category t).isSome = true := by rw [hct]; rfl
  have e2 : (category d).isSome = true := by rw [hcd]; rfl
  have b2t : beforeCategory 2 t = false := by simp [beforeCategory, hct]
  have b2d : beforeCategory 2 d = false := by simp [beforeCategory, hcd]
  have b3t : beforeCategory 3 t = false := by simp [beforeCategory, hct]
  have b3d : beforeCategory 3 d = true := by simp [beforeCategory, hcd]
  have b5t : beforeCategory 5 t = false := by simp [beforeCategory, hct]
  have b5d : beforeCategory 5 d = true := by simp [beforeCategory, hcd]
  have b6t : beforeCategory 6 t = true := by simp [beforeCategory, hct]
  have b6d : beforeCategory 6 d = true := by simp [beforeCategory, hcd]
  refine ⟨?_, ?_, ?_, ?_, ?_⟩
  · rw [sumLen_filter_perm _ _ _ hp, sumLen_filter_three _ _ _ _ hn0]
    simp [e1, e2, htlen, hdlen]
  · rw [sumLen_filter_perm _ _ _ hp, sumLen_filter_three _ _ _ _ hn0]
    simp [b2t, b2d]
  · rw [sumLen_filter_perm _ _ _ hp, sumLen_filter_three _ _ _ _ hn0]
    simp [b3t, b3d, hdlen]
  · rw [sumLen_filter_perm _ _ _ hp, sumLen_filter_three _ _ _ _ hn0]
    simp [b5t, b5d, hdlen]
  · rw [sumLen_filter_perm _ _ _ hp, sumLen_filter_three _ _ _ _ hn0]
    simp [b6t, b6d, htlen, hdlen]

/-- **C9.** A container whose table holds, in any order, a null section, a text section
(exec flag set, ordinary type, 16-byte buffer) and a data section (write and alloc set, exec
clear, ordinary type, 8-byte buffer), laid out without overflow: the planner succeeds, the
data section's offset is strictly below the text section's offset, and both offsets are at or
after the end of the section table `shoff + 3 * sizeof(SectionHeader)`. -/
theorem calculateSectionOffsets_three_sections (file : Rpl) (n t d : Section)
    (hperm : file.sections.Perm [n, t, d]) (hn : n.header.type = SHT_NULL)
    (htx : t.header.flags &&& SHF_EXECINSTR ≠ 0)
    (htlen : t.data.length = 16) (htsize : t.header.size ≠ 0)
    (htty : isProgramType t.header.type)
    (hdx : d.header.flags &&& SHF_EXECINSTR = 0) (hdw : d.header.flags &&& SHF_WRITE ≠ 0)
    (hda : d.header.flags &&& SHF_ALLOC ≠ 0)
    (hdlen : d.data.length = 8) (hdsize : d.header.size ≠ 0)
    (hdty : isProgramType d.header.type)
    (hfit : layoutFits file) :
    (calculateSectionOffsets file).2 = true
    ∧ ∀ i j : Nat, file.sections[i]? = some t → file.sections[j]? = some d →
        ∃ t' d' : Section,
          (calculateSectionOffsets file).1.sections[i]? = some t'
          ∧ (calculateSectionOffsets file).1.sections[j]? = some d'
          ∧ d'.header.offset < t'.header.offset
          ∧ file.header.shoff + 3 * sizeofSectionHeader ≤ d'.header.offset
          ∧ file.header.shoff + 3 * sizeofSectionHeader ≤ t'.header.offset := by
  have hct := category_text t htx htsize htty
  have hcd := category_data d hdx hdw hda hdsize hdty
  obtain ⟨_, s2, s3, s5, s6⟩ := three_section_sums file n t d hperm hn hct hcd htlen hdlen
    htty hdty
  have hlen : file.sections.length = 3 := hperm.length_eq
  have hstart : layoutStart file = file.header.shoff + 128 := by
    rw [layoutStart_of_fits file hfit, hlen]; rfl
  -- the offsets of the text and of the data section, wherever they sit
  have htoff : ∀ i, file.sections[i]? = some t →
      plannedOffset file i 5 = file.header.shoff + 128 + 8 := by
    intro i hi
    obtain ⟨h1, h2, _⟩ := plannedOffset_of_fits file hfit i 5 t hi hct
    rw [clearNoData_program t htty, htlen, s6] at h2
    rw [s5] at h1
    omega
  have hdoff : ∀ j, file.sections[j]? = some d →
      plannedOffset file j 2 = file.header.shoff + 128 := by
    intro j hj
    obtain ⟨h1, h2, _⟩ := plannedOffset_of_fits file hfit j 2 d hj hcd
    rw [clearNoData_program d hdty, hdlen, s3] at h2
    rw [s2] at h1
    omega
  refine ⟨?_, ?_⟩
  · simp only [calculateSectionOffsets_eq, Bool.not_eq_true', List.any_eq_false]
    intro x hx
    obtain ⟨idx, hidx⟩ := List.mem_iff_getElem?.1 hx
    have hget := calculateSectionOffsets_getElem? file idx
    rw [calculateSectionOffsets_eq] at hget
    rw [hget] at hidx
    cases hs : file.sections[idx]? with
    | none => rw [hs] at hidx; simp at hidx
    | some s =>
      rw [hs, Option.map_some', Option.some.injEq] at hidx
      have hmem : s ∈ [n, t, d] := hperm.mem_iff.1 (List.getElem?_mem hs)
      simp only [List.mem_cons, List.mem_singleton, List.not_mem_nil, or_false] at hmem
      rcases hmem with rfl | rfl | rfl
      · have hty := (clearNoData_null s hn).2
        rw [← hidx]
        cases category s with
        | none => simp [lacksOffset, hty]
        | some k => simp [lacksOffset, placeSection, hty]
      · rw [← hidx]
        simp only [hct, lacksOffset, placeSection, htoff idx hs]
        simp
      · rw [← hidx]
        simp only [hcd, lacksOffset, placeSection, hdoff idx hs]
        simp
  · intro i j hi hj
    have ht' := calculateSectionOffsets_getElem? file i
    have hd' := calculateSectionOffsets_getElem? file j
    rw [hi, Option.map_some'] at ht'
    rw [hj, Option.map_some'] at hd'
    simp only [hct] at ht'
    simp only [hcd] at hd'
    refine ⟨_, _, ht', hd', ?_, ?_, ?_⟩
    · simp only [placeSection, htoff i hi, hdoff j hj]; omega
    · simp only [placeSection, hdoff j hj, sizeofSectionHeader]; omega
    · simp only [placeSection, htoff i hi, sizeofSectionHeader]; omega

/-- Witness of **C9**: `exampleLayoutFile`, with the data section after the text section in
the table. -/
theorem calculateSectionOffsets_three_sections_witness :
    (calculateSectionOffsets exampleLayoutFile).2 = true
    ∧ ∃ t' d' : Section,
        (calculateSectionOffsets exampleLayoutFile).1.sections[1]? = some t'
        ∧ (calculateSectionOffsets exampleLayoutFile).1.sections[2]? = some d'
        ∧ d'.header.offset < t'.header.offset
        ∧ exampleLayoutFile.header.shoff + 3 * sizeofSectionHeader ≤ d'.header.offset
        ∧ exampleLayoutFile.header.shoff + 3 * sizeofSectionHeader ≤ t'.header.offset := by
  have h := calculateSectionOffsets_three_sections exampleLayoutFile
    { header := { name := 0, type := SHT_NULL, flags := 0, addr := 0, offset := 0,
                  size := 0, link := 0, info := 0, addralign := 0, entsize := 0 }
      data := [] }
    { header := { name := 1, type := 1, flags := SHF_EXECINSTR ||| SHF_ALLOC,
                  addr := 0x02000000, offset := 0x1000, size := 16, link := 0,
                  info := 0, addralign := 32, entsize := 0 }
      data := List.replicate 16 0x60 }
    { header := { name := 7, type := 1, flags := SHF_WRITE ||| SHF_ALLOC,
                  addr := 0x10000000, offset := 0x2000, size := 8, link := 0,
                  info := 0, addralign := 32, entsize := 0 }
      data := List.replicate 8 0x11 }
    (List.Perm.refl _) (by decide) (by decide) (by decide) (by decide) (by decide)
    (by decide) (by decide) (by decide) (by decide) (by decide) (by decide) (by decide)
  exact ⟨h.1, h.2 1 2 (by decide) (by decide)⟩

/-! ### Concrete runs of `relocateImports` and of the planner -/

/-- **C7** fails on `exampleImportsFile`: the cursor advances from its unaligned value, so
the second and the third imports section are both placed at `0x01000004` and their address
ranges `[0x01000004, 0x01000006)` and `[0x01000004, 0x01000008)` overlap. -/
theorem relocateImports_overlap :
    (relocateImports exampleImportsFile).1.sections.map
        (fun s => (s.header.type, s.header.addralign, s.header.addr, s.data.length))
      = [(SHT_RPL_IMPORTS, 4, 0x01000000, 2), (SHT_RPL_IMPORTS, 4, 0x01000004, 2),
         (SHT_RPL_IMPORTS, 4, 0x01000004, 4)] := by
  decide

/-- **C10** fails on `exampleNullFile`: the temp loop does not skip the null section, whose
declared size is not zero, and gives it the offset `0x80`. -/
theorem calculateSectionOffsets_places_null :
    (calculateSectionOffsets exampleNullFile).2 = true
    ∧ (calculateSectionOffsets exampleNullFile).1.sections.map
        (fun s => (s.header.type, s.header.offset, s.data.length))
      = [(SHT_NULL, 0x80, 0)] := by
  decide

/-- The part of **C10** that the code keeps: a no-bits section always ends with offset 0 and
an empty buffer, and a null section always ends with an empty buffer. -/
theorem calculateSectionOffsets_nobits (file : Rpl) (i : Nat) (s : Section)
    (hs : file.sections[i]? = some s) :
    (s.header.type = SHT_NOBITS →
      ∃ s' : Section, (calculateSectionOffsets file).1.sections[i]? = some s'
        ∧ s'.header.offset = 0 ∧ s'.data = [])
    ∧ (s.header.type = SHT_NULL →
      ∃ s' : Section, (calculateSectionOffsets file).1.sections[i]? = some s'
        ∧ s'.data = []) := by
  have hget := calculateSectionOffsets_getElem? file i
  rw [hs, Option.map_some'] at hget
  refine ⟨?_, ?_⟩
  · intro hty
    have e1 : ¬ (SHT_NOBITS = SHT_RPL_CRCS) := by decide
    have e2 : ¬ (SHT_NOBITS = SHT_RPL_FILEINFO) := by decide
    have e3 : ¬ (SHT_NOBITS = SHT_RPL_IMPORTS) := by decide
    have hcat : category s = none := by
      simp [category, isCrcsSection, isFileInfoSection, isDataSection, isReadSection,
        isImportsSection, isTextSection, isTempSection, skipsSection, hty, e1, e2, e3]
    simp only [hcat] at hget
    exact ⟨_, hget, by simp [clearNoData, hty], by simp [clearNoData, hty]⟩
  · intro hty
    refine ⟨_, hget, ?_⟩
    cases category s with
    | none => simp [clearNoData, hty]
    | some k => simp [placeSection, clearNoData, hty]

/-! ### The header normaliser and the frame of the relocation fixer -/

/-- **C16.** `fixFileHeader` always returns success, sets the ABI field to `EABI_NONE` and the
type field to `ET_EXEC`, leaves every other header field and every section as they are, and
applying it twice gives the same container as applying it once. -/
theorem fixFileHeader_sets_abi_and_type (file : Rpl) :
    (fixFileHeader file).2 = true
    ∧ (fixFileHeader file).1.header.abi = EABI_NONE
    ∧ (fixFileHeader file).1.header.type = ET_EXEC
    ∧ (fixFileHeader file).1.header.magic = file.header.magic
    ∧ (fixFileHeader file).1.header.shoff = file.header.shoff
    ∧ (fixFileHeader file).1.header.shnum = file.header.shnum
    ∧ (fixFileHeader file).1.header.shentsize = file.header.shentsize
    ∧ (fixFileHeader file).1.header.shstrndx = file.header.shstrndx
    ∧ (fixFileHeader file).1.header.fileClass = file.header.fileClass
    ∧ (fixFileHeader file).1.header.encoding = file.header.encoding
    ∧ (fixFileHeader file).1.header.elfVersion = file.header.elfVersion
    ∧ (fixFileHeader file).1.header.pad = file.header.pad
    ∧ (fixFileHeader file).1.header.machine = file.header.machine
    ∧ (fixFileHeader file).1.header.version = file.header.version
    ∧ (fixFileHeader file).1.header.entry = file.header.entry
    ∧ (fixFileHeader file).1.header.phoff = file.header.phoff
    ∧ (fixFileHeader file).1.header.flags = file.header.flags
    ∧ (fixFileHeader file).1.header.ehsize = file.header.ehsize
    ∧ (fixFileHeader file).1.header.phentsize = file.header.phentsize
    ∧ (fixFileHeader file).1.header.phnum = file.header.phnum
    ∧ (fixFileHeader file).1.sections = file.sections
    ∧ fixFileHeader (fixFileHeader file).1 = fixFileHeader file := by
  simp [fixFileHeader]

/-- **C18.** `fixRelocations` keeps the header of the container and the number of sections;
it leaves every section whose type is not the relocation type completely unchanged, and in
a relocation section it sets the flags to 0 and keeps the name, type, address, offset,
size, link, info, alignment and entry size (only the flags and the buffer change). -/
theorem fixRelocations_frame (file : Rpl) :
    (fixRelocations file).1.header = file.header
    ∧ (fixRelocations file).1.sections.length = file.sections.length
    ∧ ∀ (i : Nat) (s : Section), file.sections[i]? = some s →
        ∃ s' : Section, (fixRelocations file).1.sections[i]? = some s'
          ∧ (s.header.type ≠ SHT_RELA → s' = s)
          ∧ (s.header.type = SHT_RELA →
              s'.header = { s.header with flags := 0 }
              ∧ s'.data = relasBytes (fixRels (readRelas s.data))) := by
  refine ⟨rfl, by simp [fixRelocations], ?_⟩
  intro i s hs
  refine ⟨fixSection s, by simp [fixRelocations, List.getElem?_map, hs], ?_, ?_⟩
  · intro h; exact fixSection_other s h
  · intro h; rw [fixSection_rela s h]; exact ⟨rfl, rfl⟩

/-- Witness of **C18**: in `exampleRelaFile` the null section is kept and the relocation
section loses its flags. -/
theorem fixRelocations_frame_witness :
    (∃ s' : Section, (fixRelocations exampleRelaFile).1.sections[1]? = some s'
      ∧ s'.header = { exampleRelaSection.header with flags := 0 })
    ∧ ∃ s' : Section, (fixRelocations exampleRelaFile).1.sections[0]? = some s'
      ∧ some s' = exampleRelaFile.sections[0]? := by
  obtain ⟨s1, h1, _, h1b⟩ := (fixRelocations_frame exampleRelaFile).2.2 1 exampleRelaSection
    (by decide)
  obtain ⟨s0, h0, h0a, _⟩ := (fixRelocations_frame exampleRelaFile).2.2 0
    { header := { name := 0, type := SHT_NULL, flags := 0, addr := 0, offset := 0,
                  size := 0, link := 0, info := 0, addralign := 0, entsize := 0 }
      data := [] } (by decide)
  exact ⟨⟨s1, h1, (h1b (by decide)).1⟩, ⟨s0, h0, by rw [h0a (by decide)]; decide⟩⟩

/-! ### Concrete runs of the fixer and of the planner -/

/-- **C11** fails on `exampleUnplacedFile`: no placement loop accepts its exports section
(exec and write set), which keeps the offset `0x10` it came with, below the start `0xc0` of
the layout, and the planner still returns success; with an incoming offset of 0 instead,
the same container makes the planner fail. -/
theorem calculateSectionOffsets_keeps_incoming_offset :
    exampleUnplacedFile.sections.map category = [some 5, none]
    ∧ (calculateSectionOffsets exampleUnplacedFile).2 = true
    ∧ (calculateSectionOffsets exampleUnplacedFile).1.sections.map
        (fun s => (s.header.type, s.header.offset, s.data.length))
      = [(1, 0xc0, 16), (SHT_RPL_EXPORTS, 0x10, 8)]
    ∧ layoutStart exampleUnplacedFile = 0xc0
    ∧ (calculateSectionOffsets exampleUnplacedFileZero).2 = false := by
  decide

/-! ### The start of the layout -/

theorem beforeCategory_clearNoData (k : Nat) (s : Section) :
    beforeCategory k (clearNoData s) = beforeCategory k s := by
  simp only [beforeCategory, category_clearNoData]

theorem inCategory_clearNoData (k : Nat) (s : Section) :
    inCategory k (clearNoData s) = inCategory k s := by
  simp only [inCategory, category_clearNoData]

theorem sumLen_filter_eq_zero (p : Section → Bool) (l : List Section)
    (h : ∀ s ∈ l, p s = false) : sumLen (l.filter p) = 0 := by
  have : l.filter p = [] := by
    rw [List.filter_eq_nil_iff]
    intro s hs
    rw [h s hs]; simp
  rw [this]; rfl

/-- Counterexample to **C12**: in `exampleUnalignedFile` the section table starts at `0x34`
and holds two entries, so it ends at `0x84`, which rounds up to `0xc0`; the planner hands out
`0x34 + 0x80 = 0xb4` as first offset, which is not a multiple of 64. -/
theorem layoutStart_not_multiple_of_64 :
    exampleUnalignedFile.header.shoff
        + exampleUnalignedFile.sections.length * sizeofSectionHeader = 0x84
    ∧ align_up 0x84 64 = 0xc0
    ∧ layoutStart exampleUnalignedFile = 0xb4
    ∧ (calculateSectionOffsets exampleUnalignedFile).1.sections.map
        (fun s => s.header.offset) = [0, 0xb4]
    ∧ 0xb4 % 64 ≠ 0 := by
  decide

/-- **C12**, amended. When `shoff` plus the rounded size of the section table fits in 32
bits, the first offset that the planner hands out is `shoff` plus the size of the section
table (section count times section-header size) rounded up to a multiple of 64: it is at
least the end of the section table and less than 64 bytes beyond it, it is congruent to
`shoff` modulo 64 (so a multiple of 64 exactly when `shoff` is), and it is the offset of the
section that comes first in the order of the placement loops. -/
theorem layoutStart_spec (file : Rpl)
    (h : file.header.shoff + align_up (file.sections.length * sizeofSectionHeader) 64 < 2 ^ 32) :
    layoutStart file
        = file.header.shoff + align_up (file.sections.length * sizeofSectionHeader) 64
    ∧ file.header.shoff + file.sections.length * sizeofSectionHeader ≤ layoutStart file
    ∧ layoutStart file < file.header.shoff + file.sections.length * sizeofSectionHeader + 64
    ∧ layoutStart file % 64 = file.header.shoff % 64
    ∧ ∀ (i k : Nat) (s : Section), file.sections[i]? = some s → category s = some k →
        (∀ s' ∈ file.sections, beforeCategory k s' = false) →
        (∀ s' ∈ file.sections.take i, inCategory k s' = false) →
        ∃ s' : Section, (calculateSectionOffsets file).1.sections[i]? = some s'
          ∧ s'.header.offset = layoutStart file := by
  have h1 := align_up_ge (file.sections.length * sizeofSectionHeader)
  have hstart : layoutStart file
      = file.header.shoff + align_up (file.sections.length * sizeofSectionHeader) 64 := by
    unfold layoutStart
    rw [Nat.mod_eq_of_lt (a := file.sections.length * sizeofSectionHeader) (by omega),
      Nat.mod_eq_of_lt (a := align_up _ _) (by omega), Nat.mod_eq_of_lt h]
  refine ⟨hstart, by omega, ?_, ?_, ?_⟩
  · rw [hstart]; unfold align_up; omega
  · rw [hstart]; unfold align_up; omega
  · intro i k s hs hcat hbefore hin
    have hget := calculateSectionOffsets_getElem? file i
    rw [hs, Option.map_some'] at hget
    simp only [hcat] at hget
    refine ⟨_, hget, ?_⟩
    have e1 : sumLen ((file.sections.map clearNoData).filter (beforeCategory k)) = 0 := by
      apply sumLen_filter_eq_zero
      intro c hc
      obtain ⟨s', hs', rfl⟩ := List.mem_map.1 hc
      rw [beforeCategory_clearNoData]; exact hbefore s' hs'
    have e2 : sumLen (((file.sections.map clearNoData).take i).filter (inCategory k)) = 0 := by
      apply sumLen_filter_eq_zero
      intro c hc
      rw [← List.map_take] at hc
      obtain ⟨s', hs', rfl⟩ := List.mem_map.1 hc
      rw [inCategory_clearNoData]; exact hin s' hs'
    simp only [placeSection, plannedOffset, e1, e2, Nat.add_zero]
    exact Nat.mod_eq_of_lt (by rw [hstart]; exact h)

/-- Witness of **C12**, amended: in `exampleUnalignedFile` the data section is the first one
placed and gets the offset `layoutStart`. -/
theorem layoutStart_spec_witness :
    ∃ s' : Section, (calculateSectionOffsets exampleUnalignedFile).1.sections[1]? = some s'
      ∧ s'.header.offset = layoutStart exampleUnalignedFile :=
  (layoutStart_spec exampleUnalignedFile (by decide)).2.2.2.2 1 2
    { header := { name := 7, type := 1, flags := SHF_WRITE ||| SHF_ALLOC,
                  addr := 0x10000000, offset := 0x2000, size := 8, link := 0,
                  info := 0, addralign := 32, entsize := 0 }
      data := List.replicate 8 0x11 }
    (by decide) (by decide) (by decide) (by decide)

/-! ### The input stream -/

theorem length_streamRead (src : List Byte) (st : Stream) (n : Nat) :
    (streamRead src st n).1.length = n := by
  unfold streamRead
  split
  · simp
  · split
    · simp [*]
    · split
      · simp only [List.length_take, List.length_drop]; omega
      · simp only [List.length_append, List.length_take, List.length_drop,
          List.length_replicate]; omega

theorem streamRead_ok (src : List Byte) (st : Stream) (n : Nat) (hf : st.fail = false)
    (h : st.pos + n ≤ src.length) :
    streamRead src st n = (bytesAt src st.pos n, { pos := st.pos + n, fail := false }) := by
  obtain ⟨pos, fail⟩ := st
  simp only at hf h
  subst hf
  unfold streamRead bytesAt
  by_cases hn : n = 0
  · subst hn; simp
  · simp [hn, h]

theorem seekg_ok (st : Stream) (p : Nat) (hf : st.fail = false) :
    seekg st p = { pos := p, fail := false } := by
  obtain ⟨pos, fail⟩ := st
  simp only at hf
  subst hf
  rfl

theorem getD_bytesAt (f : List Byte) (p n k : Nat) (hk : k < n) :
    (bytesAt f p n).getD k 0 = f.getD (p + k) 0 := by
  simp only [bytesAt, List.getD_eq_getElem?_getD, List.getElem?_take, hk, if_true,
    List.getElem?_drop]

theorem rd32_bytesAt (f : List Byte) (p n q : Nat) (hq : q + 4 ≤ n) :
    rd32 (bytesAt f p n) q = rd32 f (p + q) := by
  simp only [rd32]
  rw [getD_bytesAt f p n q (by omega), getD_bytesAt f p n (q + 1) (by omega),
    getD_bytesAt f p n (q + 2) (by omega), getD_bytesAt f p n (q + 3) (by omega)]
  simp only [Nat.add_assoc]

theorem getD_streamRead (src : List Byte) (p n k : Nat) (hk : k < n) :
    (streamRead src { pos := p, fail := false } n).1.getD k 0 = src.getD (p + k) 0 := by
  unfold streamRead
  have hn : n ≠ 0 := by omega
  simp only [Bool.false_eq_true, if_false, hn]
  split
  · exact getD_bytesAt src p n k hk
  · rename_i hlen
    simp only [List.getD_eq_getElem?_getD]
    by_cases hin : p + k < src.length
    · rw [List.getElem?_append_left (by simp only [List.length_take, List.length_drop]; omega)]
      simp only [List.getElem?_take, hk, if_true, List.getElem?_drop]
    · rw [List.getElem?_append_right (by simp only [List.length_take, List.length_drop]; omega)]
      rw [List.getElem?_replicate]
      rw [List.getElem?_eq_none (by omega : src.length ≤ p + k)]
      split <;> rfl

theorem loadedHeader_magic (bytes : List Byte) : (loadedHeader bytes).magic = rd32 bytes 0 := by
  simp only [loadedHeader, parseHeader, rd32, sizeofHeader]
  rw [getD_streamRead bytes 0 52 0 (by omega), getD_streamRead bytes 0 52 (0 + 1) (by omega),
    getD_streamRead bytes 0 52 (0 + 2) (by omega), getD_streamRead bytes 0 52 (0 + 3) (by omega)]

/-! ### The magic check of `readRpl` -/

theorem nameLoopDefined_lt (header : Header) (sections : List Section)
    (h : nameLoopDefined header sections = true) : header.shstrndx < sections.length := by
  unfold nameLoopDefined at h
  split at h
  · cases h
  · rename_i table htab
    exact (List.getElem?_eq_some_iff.1 htab).1

theorem readRpl_some (z : Zlib) (bytes : List Byte) :
    readRpl z (some bytes) =
      if (loadedHeader bytes).magic ≠ HeaderMagic then
        some (false, { header := loadedHeader bytes, sections := [] })
      else
        match readSections z bytes (loadedHeader bytes) (loadedHeader bytes).shnum 0
            (afterHeader bytes) [] with
        | none => none
        | some (false, sections, _) =>
          some (false, { header := loadedHeader bytes, sections := sections })
        | some (true, sections, _) =>
          if nameLoopDefined (loadedHeader bytes) sections then
            some (true, { header := loadedHeader bytes, sections := sections })
          else none := rfl

/-- **C13.** The magic field that `readRpl` tests is the big-endian value of the first four
bytes of the source file.  When it differs from `HeaderMagic`, `readRpl` returns false and
no section is loaded.  When it is equal, `readRpl` does not return false for the magic: it
returns false only if the section loop does, and when the section loop succeeds it returns
true with the sections that the loop loaded, provided that the name loop has a defined
result: the index of the name table is inside the section vector and every section name
ends inside the buffer of the name table. -/
theorem readRpl_checks_magic (z : Zlib) (bytes : List Byte) :
    (loadedHeader bytes).magic = rd32 bytes 0
    ∧ ((loadedHeader bytes).magic ≠ HeaderMagic →
        readRpl z (some bytes)
          = some (false, { header := loadedHeader bytes, sections := [] }))
    ∧ ((loadedHeader bytes).magic = HeaderMagic →
        (∀ c : Rpl, readRpl z (some bytes) = some (false, c) →
          ∃ st : Stream, readSections z bytes (loadedHeader bytes) (loadedHeader bytes).shnum 0
            (afterHeader bytes) [] = some (false, c.sections, st))
        ∧ ∀ (secs : List Section) (st : Stream),
            readSections z bytes (loadedHeader bytes) (loadedHeader bytes).shnum 0
              (afterHeader bytes) [] = some (true, secs, st) →
            nameLoopDefined (loadedHeader bytes) secs = true →
            readRpl z (some bytes)
              = some (true, { header := loadedHeader bytes, sections := secs })) := by
  refine ⟨loadedHeader_magic bytes, ?_, ?_⟩
  · intro h
    rw [readRpl_some, if_pos h]
  · intro h
    refine ⟨?_, ?_⟩
    · intro c hc
      rw [readRpl_some, if_neg (by simpa using h)] at hc
      split at hc
      · cases hc
      · rename_i secs st heq
        cases hc
        exact ⟨st, heq⟩
      · split at hc <;> cases hc
    · intro secs st hs hnames
      rw [readRpl_some, if_neg (by simpa using h), hs]
      simp only [hnames, if_true]

set_option maxRecDepth 100000 in
/-- Witness of **C13**: an empty source file is refused for its magic, and `exampleSource`,
whose magic matches and whose names end inside the name table, is loaded with success. -/
theorem readRpl_checks_magic_witness :
    readRpl exampleZlib (some [])
      = some (false, { header := loadedHeader [], sections := [] })
    ∧ readRpl exampleZlib (some exampleSource)
      = some (true, { header := loadedHeader exampleSource,
                      sections := exampleLoaded.sections }) :=
  ⟨(readRpl_checks_magic exampleZlib []).2.1 (by decide),
   ((readRpl_checks_magic exampleZlib exampleSource).2.2 (by decide)).2 exampleLoaded.sections
      { pos := 189, fail := false } (by decide) (by decide)⟩

/-! ### `readSection` and the section loop -/

theorem readSection_no_buffer (z : Zlib) (src : List Byte) (st : Stream)
    (h : (parseSectionHeader (streamRead src st sizeofSectionHeader).1).type = SHT_NOBITS
      ∨ (parseSectionHeader (streamRead src st sizeofSectionHeader).1).size = 0) :
    readSection z src st
      = some (true, { header := parseSectionHeader (streamRead src st sizeofSectionHeader).1,
                      data := [] }, (streamRead src st sizeofSectionHeader).2) := by
  simp only [readSection]
  rw [if_pos h]

theorem readSection_verbatim (z : Zlib) (src : List Byte) (st : Stream) (hf : st.fail = false)
    (hhdr : st.pos + sizeofSectionHeader ≤ src.length)
    (hty : (sectionHeaderAt src st.pos).type ≠ SHT_NOBITS)
    (hsz : (sectionHeaderAt src st.pos).size ≠ 0)
    (hdefl : (sectionHeaderAt src st.pos).flags &&& SHF_DEFLATED = 0)
    (hin : (sectionHeaderAt src st.pos).offset + (sectionHeaderAt src st.pos).size
      ≤ src.length) :
    readSection z src st
      = some (true,
          { header := sectionHeaderAt src st.pos
            data := bytesAt src (sectionHeaderAt src st.pos).offset
              (sectionHeaderAt src st.pos).size },
          { pos := (sectionHeaderAt src st.pos).offset + (sectionHeaderAt src st.pos).size,
            fail := false }) := by
  simp only [readSection]
  rw [streamRead_ok src st _ hf hhdr]
  simp only
  have hh : parseSectionHeader (bytesAt src st.pos sizeofSectionHeader)
      = sectionHeaderAt src st.pos := rfl
  rw [hh, if_neg (by simp [hty, hsz]), if_neg (by simp [hdefl]), seekg_ok _ _ rfl,
    streamRead_ok src _ _ rfl hin]

theorem readSections_length (z : Zlib) (src : List Byte) (h : Header) :
    ∀ (count i : Nat) (st : Stream) (acc secs : List Section) (st' : Stream),
      readSections z src h count i st acc = some (true, secs, st') →
      secs.length = acc.length + count := by
  intro count
  induction count with
  | zero =>
    intro i st acc secs st' hr
    simp only [readSections, Option.some.injEq, Prod.mk.injEq, true_and] at hr
    rw [← hr.1]; rfl
  | succ n ih =>
    intro i st acc secs st' hr
    simp only [readSections] at hr
    split at hr
    · cases hr
    · cases hr
    · have := ih _ _ _ _ _ hr
      simp only [List.length_append, List.length_singleton] at this
      omega

theorem readSections_add (z : Zlib) (src : List Byte) (h : Header) :
    ∀ (a b i : Nat) (st : Stream) (acc secs : List Section) (st' : Stream),
      readSections z src h a i st acc = some (true, secs, st') →
      readSections z src h (a + b) i st acc = readSections z src h b (i + a) st' secs := by
  intro a
  induction a with
  | zero =>
    intro b i st acc secs st' hr
    simp only [readSections, Option.some.injEq, Prod.mk.injEq, true_and] at hr
    rw [hr.1, hr.2, Nat.zero_add, Nat.add_zero]
  | succ n ih =>
    intro b i st acc secs st' hr
    rw [show n + 1 + b = (n + b) + 1 by omega]
    simp only [readSections] at hr ⊢
    split at hr
    · cases hr
    · cases hr
    · rename_i s st1 heq
      rw [ih b (i + 1) st1 _ secs st' hr, show i + 1 + n = i + (n + 1) by omega]

theorem readSections_fails_at (z : Zlib) (src : List Byte) (h : Header) (k n : Nat)
    (hk : k < n) (secs : List Section) (st0 : Stream) (s : Section) (st' : Stream)
    (hload : readSections z src h k 0 (afterHeader src) [] = some (true, secs, st0))
    (hfail : readSection z src (seekg st0 (tableEntry h k)) = some (false, s, st')) :
    readSections z src h n 0 (afterHeader src) [] = some (false, secs, st') := by
  obtain ⟨m, rfl⟩ : ∃ m, n = k + (m + 1) := ⟨n - k - 1, by omega⟩
  rw [readSections_add z src h k (m + 1) 0 _ _ secs st0 hload]
  simp only [readSections, Nat.zero_add]
  simp only [tableEntry] at hfail
  rw [hfail]

/-! ### A truncated source file -/

set_option maxRecDepth 100000 in
/-- **C14** fails on the truncated file `exampleTruncatedSource`: the 8 bytes of its second
section lie past the end of the file, the read fails the stream, and `readRpl`, which never
tests the stream, still returns true.  The buffer of the second section holds zeros, and
the third section, whose header is stored in the file at `shoff + 2 * shentsize`, is loaded
with the header of an untouched struct instead. -/
theorem readRpl_truncated_source :
    exampleTruncatedSource.length = 192
    ∧ (loadedHeader exampleTruncatedSource).shoff = 52
    ∧ (loadedHeader exampleTruncatedSource).shentsize = 40
    ∧ (loadedHeader exampleTruncatedSource).shnum = 3
    ∧ sectionHeaderAt exampleTruncatedSource (52 + 2 * 40)
      = { name := 7, type := 1, flags := SHF_WRITE ||| SHF_ALLOC, addr := 0x10000000,
          offset := 0, size := 0, link := 0, info := 0, addralign := 32, entsize := 0 }
    ∧ readRpl exampleZlib (some exampleTruncatedSource)
      = some (true,
          { header := loadedHeader exampleTruncatedSource
            sections :=
              [{ header := exampleNamesHeader, data := exampleNames },
               { header := { name := 1, type := 1, flags := SHF_EXECINSTR ||| SHF_ALLOC,
                             addr := 0x02000000, offset := 256, size := 8, link := 0,
                             info := 0, addralign := 32, entsize := 0 }
                 data := List.replicate 8 0 },
               { header := exampleNullHeader, data := [] }] })
    ∧ sectionHeaderAt exampleTruncatedSource (52 + 2 * 40) ≠ exampleNullHeader
    ∧ finalStream exampleZlib exampleTruncatedSource = some { pos := 256, fail := true } := by
  decide

/-! ### Deflated sections -/

theorem rd32_bytesAt_zero (f : List Byte) (p n : Nat) (hn : 4 ≤ n) :
    rd32 (bytesAt f p n) 0 = rd32 f p := by
  rw [rd32_bytesAt f p n 0 (by omega), Nat.add_zero]

theorem readSection_deflated_eq (z : Zlib) (src : List Byte) (st : Stream)
    (hf : st.fail = false) (hhdr : st.pos + sizeofSectionHeader ≤ src.length)
    (hty : (sectionHeaderAt src st.pos).type ≠ SHT_NOBITS)
    (hsz : (sectionHeaderAt src st.pos).size ≠ 0)
    (hdefl : (sectionHeaderAt src st.pos).flags &&& SHF_DEFLATED ≠ 0)
    (hpre : (sectionHeaderAt src st.pos).offset + 4 ≤ src.length) :
    readSection z src st =
      if z.inflateInit ≠ Z_OK then
        some (false, { header := sectionHeaderAt src st.pos, data := [] },
          { pos := (sectionHeaderAt src st.pos).offset + 4, fail := false })
      else if (sectionHeaderAt src st.pos).size < 4 then none
      else if (z.inflate (compressedInput src (sectionHeaderAt src st.pos))
              (sectionHeaderAt src st.pos).size
              (rd32 src (sectionHeaderAt src st.pos).offset)).1 ≠ Z_OK
            ∧ (z.inflate (compressedInput src (sectionHeaderAt src st.pos))
              (sectionHeaderAt src st.pos).size
              (rd32 src (sectionHeaderAt src st.pos).offset)).1 ≠ Z_STREAM_END then
        some (false, { header := sectionHeaderAt src st.pos, data := [] },
          (streamRead src { pos := (sectionHeaderAt src st.pos).offset + 4, fail := false }
            ((sectionHeaderAt src st.pos).size - 4)).2)
      else
        some (true,
          { header := sectionHeaderAt src st.pos
            data := inflatedData (rd32 src (sectionHeaderAt src st.pos).offset)
              (z.inflate (compressedInput src (sectionHeaderAt src st.pos))
                (sectionHeaderAt src st.pos).size
                (rd32 src (sectionHeaderAt src st.pos).offset)).2 },
          (streamRead src { pos := (sectionHeaderAt src st.pos).offset + 4, fail := false }
            ((sectionHeaderAt src st.pos).size - 4)).2) := by
  simp only [readSection]
  rw [streamRead_ok src st _ hf hhdr]
  simp only
  have hh : parseSectionHeader (bytesAt src st.pos sizeofSectionHeader)
      = sectionHeaderAt src st.pos := rfl
  rw [hh, if_neg (by simp [hty, hsz]), if_pos hdefl, seekg_ok _ _ rfl,
    streamRead_ok src _ _ rfl hpre]
  simp only
  rw [rd32_bytesAt_zero src _ 4 (by omega)]
  rfl

theorem length_inflatedData (size : Nat) (produced : List Byte) :
    (inflatedData size produced).length = size := by
  simp only [inflatedData, List.length_append, List.length_take, List.length_replicate]
  omega

/-! ### The pipeline of `main` -/

theorem fixFileHeader_snd (file : Rpl) : (fixFileHeader file).2 = true := rfl

theorem fixRelocations_snd (file : Rpl) : (fixRelocations file).2 = true := rfl

theorem relocateImports_snd (file : Rpl) : (relocateImports file).2 = true := rfl

theorem writeElf_fst (file : Rpl) (dstOpens : Bool) : (writeElf file dstOpens).1 = dstOpens := by
  cases dstOpens <;> rfl

/-! ### Headers read back from their bytes -/

theorem length_headerBytes (h : Header) : (headerBytes h).length = sizeofHeader := by
  simp only [headerBytes, be32, be16, be8, be56, List.length_append, List.length_cons,
    List.length_nil, sizeofHeader]

theorem length_sectionHeaderBytes (h : SectionHeader) :
    (sectionHeaderBytes h).length = sizeofSectionHeader := by
  simp only [sectionHeaderBytes, be32, List.length_append, List.length_cons, List.length_nil,
    sizeofSectionHeader]

theorem parseSectionHeader_sectionHeaderBytes (h : SectionHeader) (hr : h.inRange) :
    parseSectionHeader (sectionHeaderBytes h) = h := by
  obtain ⟨name, type, flags, addr, offset, size, link, info, addralign, entsize⟩ := h
  simp only [SectionHeader.inRange] at hr
  simp only [parseSectionHeader, sectionHeaderBytes, be32, List.cons_append, List.nil_append,
    List.append_assoc, rd32, List.getD_cons_zero, List.getD_cons_succ, val_ofNat,
    SectionHeader.mk.injEq]
  omega

theorem parseHeader_headerBytes (h : Header) (hr : h.inRange) :
    parseHeader (headerBytes h) = h := by
  obtain ⟨magic, abi, type, shoff, shnum, shentsize, shstrndx, fileClass, encoding, elfVersion,
    pad, machine, version, entry, phoff, flags, ehsize, phentsize, phnum⟩ := h
  simp only [Header.inRange] at hr
  simp only [parseHeader, headerBytes, be32, be16, be8, be56, List.cons_append,
    List.nil_append, List.append_assoc, rd32, rd16, rd8, rd56, List.getD_cons_zero,
    List.getD_cons_succ, val_ofNat, Header.mk.injEq]
  omega

/-! ### Writing into the destination file -/

theorem getElem?_bytesAt (f : List Byte) (q m k : Nat) :
    (bytesAt f q m)[k]? = if k < m then f[q + k]? else none := by
  simp only [bytesAt, List.getElem?_take, List.getElem?_drop]

theorem length_bytesAt (f : List Byte) (q m : Nat) (h : q + m ≤ f.length) :
    (bytesAt f q m).length = m := by
  simp only [bytesAt, List.length_take, List.length_drop]
  omega

theorem length_writeAt (f : List Byte) (p : Nat) (bs : List Byte) (hbs : bs ≠ []) :
    (writeAt f p bs).length = max f.length (p + bs.length) := by
  simp only [writeAt, hbs, if_false, List.length_append, List.length_take, List.length_drop,
    List.length_replicate]
  omega

theorem getElem?_writeAt (f : List Byte) (p : Nat) (bs : List Byte) (hbs : bs ≠ []) (k : Nat) :
    (writeAt f p bs)[k]? =
      if k < p then (if k < f.length then f[k]? else some 0)
      else if k < p + bs.length then bs[k - p]? else f[k]? := by
  simp only [writeAt, hbs, if_false]
  by_cases h1 : k < p
  · simp only [h1, if_true]
    rw [List.append_assoc, List.append_assoc]
    by_cases h2 : k < f.length
    · rw [List.getElem?_append_left (by simp only [List.length_take]; omega)]
      simp only [h2, if_true, List.getElem?_take, h1]
    · rw [List.getElem?_append_right (by simp only [List.length_take]; omega)]
      rw [List.getElem?_append_left (by
        simp only [List.length_take, List.length_replicate]; omega)]
      simp only [h2, if_false, List.getElem?_replicate, List.length_take]
      rw [if_pos (by omega)]
  · simp only [h1, if_false]
    have hlen : (List.take p f ++ List.replicate (p - f.length) 0).length = p := by
      simp only [List.length_append, List.length_take, List.length_replicate]; omega
    by_cases h2 : k < p + bs.length
    · simp only [h2, if_true]
      rw [List.getElem?_append_left (by
        simp only [List.length_append, List.length_take, List.length_replicate]; omega)]
      rw [List.getElem?_append_right (by omega), hlen]
    · simp only [h2, if_false]
      rw [List.getElem?_append_right (by
        simp only [List.length_append, List.length_take, List.length_replicate]; omega)]
      simp only [List.length_append, List.length_take, List.length_replicate,
        List.getElem?_drop]
      congr 1
      omega

theorem bytesAt_writeAt_same (f : List Byte) (p : Nat) (bs : List Byte) :
    bytesAt (writeAt f p bs) p bs.length = bs := by
  by_cases hbs : bs = []
  · subst hbs; simp [bytesAt]
  · apply List.ext_getElem?
    intro k
    rw [getElem?_bytesAt, getElem?_writeAt f p bs hbs]
    by_cases hk : k < bs.length
    · simp only [hk, if_true]
      rw [if_neg (by omega), if_pos (by omega), Nat.add_sub_cancel_left]
    · simp only [hk, if_false]
      rw [List.getElem?_eq_none (by omega)]

theorem bytesAt_writeAt_apart (f : List Byte) (p : Nat) (bs : List Byte) (q m : Nat)
    (hin : q + m ≤ f.length) (h : q + m ≤ p ∨ p + bs.length ≤ q) :
    bytesAt (writeAt f p bs) q m = bytesAt f q m := by
  by_cases hbs : bs = []
  · simp only [writeAt, hbs, if_true]
  · apply List.ext_getElem?
    intro k
    rw [getElem?_bytesAt, getElem?_bytesAt, getElem?_writeAt f p bs hbs]
    by_cases hk : k < m
    · simp only [hk, if_true]
      rcases h with h | h
      · rw [if_pos (by omega), if_pos (by omega)]
      · rw [if_neg (by omega), if_neg (by omega)]
    · simp only [hk, if_false]

theorem le_length_writeAt (f : List Byte) (p : Nat) (bs : List Byte) :
    f.length ≤ (writeAt f p bs).length := by
  by_cases hbs : bs = []
  · simp only [writeAt, hbs, if_true]; exact Nat.le_refl _
  · rw [length_writeAt f p bs hbs]; omega

theorem writePayloads_cons (f : List Byte) (s : Section) (l : List Section) :
    writePayloads f (s :: l)
      = writePayloads (if s.data.length ≠ 0 then writeAt f s.header.offset s.data else f) l :=
  rfl

theorem writePayloads_step (f : List Byte) (s : Section) :
    (if s.data.length ≠ 0 then writeAt f s.header.offset s.data else f)
      = writeAt f s.header.offset s.data := by
  by_cases h : s.data = []
  · simp [writeAt, h]
  · rw [if_pos (by simpa using h)]

theorem le_length_writePayloads (l : List Section) :
    ∀ f : List Byte, f.length ≤ (writePayloads f l).length := by
  induction l with
  | nil => intro f; exact Nat.le_refl _
  | cons s l ih =>
    intro f
    rw [writePayloads_cons, writePayloads_step]
    exact Nat.le_trans (le_length_writeAt f _ _) (ih _)

theorem bytesAt_writePayloads_apart (q m : Nat) (l : List Section) :
    ∀ f : List Byte, q + m ≤ f.length →
      (∀ s ∈ l, s.data = [] ∨ q + m ≤ s.header.offset
        ∨ s.header.offset + s.data.length ≤ q) →
      bytesAt (writePayloads f l) q m = bytesAt f q m := by
  induction l with
  | nil => intro f _ _; rfl
  | cons s l ih =>
    intro f hin hl
    rw [writePayloads_cons, writePayloads_step,
      ih _ (Nat.le_trans hin (le_length_writeAt f _ _))
        (fun t ht => hl t (List.mem_cons_of_mem _ ht))]
    rcases hl s (List.mem_cons_self _ _) with h | h
    · simp only [writeAt, h, if_true]
    · exact bytesAt_writeAt_apart f _ _ q m hin h

theorem bytesAt_writePayloads_mem (l : List Section) :
    ∀ f : List Byte, l.Pairwise apart → ∀ s ∈ l, s.data ≠ [] →
      bytesAt (writePayloads f l) s.header.offset s.data.length = s.data
      ∧ s.header.offset + s.data.length ≤ (writePayloads f l).length := by
  induction l with
  | nil => intro f _ s hs; cases hs
  | cons a l ih =>
    intro f hp s hs hne
    rw [writePayloads_cons, writePayloads_step]
    rw [List.pairwise_cons] at hp
    by_cases hsl : s ∈ l
    · exact ih _ hp.2 s hsl hne
    · have hsa : s = a := by
        rcases List.mem_cons.1 hs with h | h
        · exact h
        · exact absurd h hsl
      subst hsa
      have hlen : s.header.offset + s.data.length
          ≤ (writeAt f s.header.offset s.data).length := by
        rw [length_writeAt f _ _ hne]; omega
      refine ⟨?_, Nat.le_trans hlen (le_length_writePayloads l _)⟩
      rw [bytesAt_writePayloads_apart _ _ l _ hlen, bytesAt_writeAt_same]
      intro t ht
      rcases hp.1 t ht with h | h | h | h
      · exact absurd h hne
      · exact Or.inl h
      · exact Or.inr (Or.inl h)
      · exact Or.inr (Or.inr h)

/-! ### The loader on a file that holds the sections -/

theorem bytesAt_bytesAt (f : List Byte) (p m q k : Nat) (h : q + k ≤ m) :
    bytesAt (bytesAt f p m) q k = bytesAt f (p + q) k := by
  apply List.ext_getElem?
  intro j
  rw [getElem?_bytesAt, getElem?_bytesAt, getElem?_bytesAt]
  by_cases hj : j < k
  · simp only [hj, if_true]
    rw [if_pos (by omega), Nat.add_assoc]
  · simp only [hj, if_false]

theorem bytesAt_all (f : List Byte) : bytesAt f 0 f.length = f := by
  simp [bytesAt]

theorem tableBytes_cons (s : Section) (l : List Section) :
    tableBytes (s :: l) = sectionHeaderBytes s.header ++ tableBytes l := by
  simp [tableBytes]

theorem length_tableBytes (l : List Section) :
    (tableBytes l).length = sizeofSectionHeader * l.length := by
  induction l with
  | nil => rfl
  | cons s l ih =>
    rw [tableBytes_cons, List.length_append, ih, length_sectionHeaderBytes, List.length_cons]
    simp only [sizeofSectionHeader]
    omega

theorem bytesAt_tableBytes (l : List Section) :
    ∀ (i : Nat) (s : Section), l[i]? = some s →
      bytesAt (tableBytes l) (sizeofSectionHeader * i) sizeofSectionHeader
        = sectionHeaderBytes s.header := by
  induction l with
  | nil => intro i s h; simp at h
  | cons a l ih =>
    intro i s h
    rw [tableBytes_cons]
    cases i with
    | zero =>
      simp only [List.getElem?_cons_zero, Option.some.injEq] at h
      subst h
      simp only [bytesAt, Nat.mul_zero, List.drop_zero]
      exact List.take_left' (length_sectionHeaderBytes _)
    | succ j =>
      simp only [List.getElem?_cons_succ] at h
      rw [← ih j s h]
      simp only [bytesAt]
      rw [show sizeofSectionHeader * (j + 1)
          = (sectionHeaderBytes a.header).length + sizeofSectionHeader * j by
        rw [length_sectionHeaderBytes]; simp only [sizeofSectionHeader]; omega]
      rw [List.drop_append]

theorem readSection_no_buffer_at (z : Zlib) (src : List Byte) (st : Stream)
    (hf : st.fail = false) (hhdr : st.pos + sizeofSectionHeader ≤ src.length)
    (h : (sectionHeaderAt src st.pos).type = SHT_NOBITS
      ∨ (sectionHeaderAt src st.pos).size = 0) :
    readSection z src st
      = some (true, { header := sectionHeaderAt src st.pos, data := [] },
          { pos := st.pos + sizeofSectionHeader, fail := false }) := by
  have hs := streamRead_ok src st _ hf hhdr
  rw [readSection_no_buffer z src st (by rw [hs]; exact h), hs]
  rfl

theorem readSections_of_stored (z : Zlib) (out : List Byte) (H : Header)
    (secs : List Section) (hfit : H.shoff + H.shentsize * secs.length < 2 ^ 32)
    (hhdr : ∀ (i : Nat) (s : Section), secs[i]? = some s →
      H.shoff + H.shentsize * i + sizeofSectionHeader ≤ out.length
      ∧ sectionHeaderAt out (H.shoff + H.shentsize * i) = s.header)
    (hdat : ∀ s ∈ secs,
      if s.header.type = SHT_NOBITS ∨ s.header.size = 0 then s.data = []
      else s.header.flags &&& SHF_DEFLATED = 0
        ∧ s.header.offset + s.header.size ≤ out.length
        ∧ bytesAt out s.header.offset s.header.size = s.data) :
    ∀ (count i : Nat) (st : Stream), i + count = secs.length → st.fail = false →
      ∃ st' : Stream,
        readSections z out H count i st (secs.take i) = some (true, secs, st') := by
  intro count
  induction count with
  | zero =>
    intro i st hi _
    refine ⟨st, ?_⟩
    simp only [readSections]
    rw [List.take_of_length_le (by omega)]
  | succ n ih =>
    intro i st hi hf
    have hlt : i < secs.length := by omega
    have hs : secs[i]? = some (secs.get ⟨i, hlt⟩) := List.getElem?_eq_getElem hlt
    obtain ⟨hin, hhd⟩ := hhdr i _ hs
    have hmem : secs.get ⟨i, hlt⟩ ∈ secs := List.get_mem _ _ _
    have hd := hdat _ hmem
    have hmul : H.shentsize * i ≤ H.shentsize * secs.length :=
      Nat.mul_le_mul_left _ (Nat.le_of_lt hlt)
    have hpos : (H.shoff + H.shentsize * i) % 2 ^ 32 = H.shoff + H.shentsize * i :=
      Nat.mod_eq_of_lt (by omega)
    have htake : secs.take (i + 1) = secs.take i ++ [secs.get ⟨i, hlt⟩] := by
      rw [List.take_succ, hs]; rfl
    simp only [readSections]
    rw [hpos, seekg_ok _ _ hf]
    by_cases hc : (secs.get ⟨i, hlt⟩).header.type = SHT_NOBITS
        ∨ (secs.get ⟨i, hlt⟩).header.size = 0
    · rw [if_pos hc] at hd
      rw [readSection_no_buffer_at z out _ rfl hin (by rw [hhd]; exact hc)]
      simp only
      rw [hhd]
      have hsec : ({ header := (secs.get ⟨i, hlt⟩).header, data := [] } : Section)
          = secs.get ⟨i, hlt⟩ := by
        rw [← hd]
      rw [hsec, ← htake]
      exact ih (i + 1) _ (by omega) rfl
    · rw [if_neg hc] at hd
      have hc' := not_or.1 hc
      rw [readSection_verbatim z out _ rfl hin (by rw [hhd]; exact hc'.1)
        (by rw [hhd]; exact hc'.2) (by rw [hhd]; exact hd.1) (by rw [hhd]; exact hd.2.1)]
      simp only
      rw [hhd, hd.2.2, ← htake]
      exact ih (i + 1) _ (by omega) rfl

/-! ### Loading the written file again -/

theorem writeAt_nil_zero (bs : List Byte) : writeAt [] 0 bs = bs := by
  by_cases h : bs = [] <;> simp [writeAt, h]

theorem writeElf_true (file : Rpl) :
    writeElf file true
      = (true, some (writePayloads
          (writeAt (headerBytes file.header) file.header.shoff (tableBytes file.sections))
          file.sections)) := by
  simp only [writeElf, writeAt_nil_zero]
  rfl

theorem storedPlain_low (tableEnd : Nat) (s : Section) (h : storedPlain tableEnd s) :
    s.data = [] ∨ tableEnd ≤ s.header.offset := by
  unfold storedPlain at h
  split at h
  · exact Or.inl h
  · exact Or.inr h.2.2

/-- A container stored plainly is loaded back from the file that the writer produces: with
the expected magic, header fields that fit their widths, `shentsize` equal to the size of a
section header, `shnum` equal to the number of sections, every section name ending inside
the buffer of the name table, the section table after the file header, every section stored
plainly after the table and the file ranges of the sections pairwise apart, `readRpl` on the
written file returns true with exactly this container. -/
theorem readRpl_writeElf_plain (z : Zlib) (c : Rpl)
    (hmagic : c.header.magic = HeaderMagic) (hH : c.header.inRange)
    (hent : c.header.shentsize = sizeofSectionHeader)
    (hnum : c.header.shnum = c.sections.length)
    (hnames : nameLoopDefined c.header c.sections = true)
    (hoff : sizeofHeader ≤ c.header.shoff)
    (hfit : c.header.shoff + sizeofSectionHeader * c.sections.length < 2 ^ 32)
    (hS : ∀ s ∈ c.sections, s.header.inRange
      ∧ storedPlain (c.header.shoff + sizeofSectionHeader * c.sections.length) s)
    (hdis : c.sections.Pairwise apart) :
    ∃ out : List Byte, writeElf c true = (true, some out)
      ∧ readRpl z (some out) = some (true, c) := by
  obtain ⟨H, secs⟩ := c
  simp only at hmagic hH hent hnum hnames hoff hfit hS hdis
  refine ⟨_, writeElf_true _, ?_⟩
  simp only
  have hstr := nameLoopDefined_lt H secs hnames
  have hn : 0 < secs.length := by omega
  have htab : tableBytes secs ≠ [] := by
    intro h0
    have := length_tableBytes secs
    rw [h0] at this
    simp only [List.length_nil, sizeofSectionHeader] at this
    omega
  have hlen1 : (writeAt (headerBytes H) H.shoff (tableBytes secs)).length
      = H.shoff + sizeofSectionHeader * secs.length := by
    rw [length_writeAt _ _ _ htab, length_tableBytes, length_headerBytes]
    simp only [sizeofHeader, sizeofSectionHeader] at hoff ⊢
    omega
  have hlow : ∀ (q m : Nat), q + m ≤ H.shoff + sizeofSectionHeader * secs.length →
      ∀ s ∈ secs, s.data = [] ∨ q + m ≤ s.header.offset
        ∨ s.header.offset + s.data.length ≤ q := by
    intro q m hqm s hs
    rcases storedPlain_low _ s (hS s hs).2 with h | h
    · exact Or.inl h
    · exact Or.inr (Or.inl (Nat.le_trans hqm h))
  -- the header
  have hhead : bytesAt (writePayloads
      (writeAt (headerBytes H) H.shoff (tableBytes secs)) secs) 0 sizeofHeader
      = headerBytes H := by
    rw [bytesAt_writePayloads_apart 0 sizeofHeader secs _
      (by rw [hlen1]; simp only [sizeofHeader, sizeofSectionHeader] at hoff ⊢; omega)
      (hlow 0 sizeofHeader (by simp only [sizeofHeader, sizeofSectionHeader] at hoff ⊢; omega)),
      bytesAt_writeAt_apart _ _ _ 0 sizeofHeader (by rw [length_headerBytes]; omega)
        (Or.inl (by omega)),
      ← length_headerBytes H, bytesAt_all]
  have hge : H.shoff + sizeofSectionHeader * secs.length
      ≤ (writePayloads (writeAt (headerBytes H) H.shoff (tableBytes secs)) secs).length := by
    rw [← hlen1]; exact le_length_writePayloads _ _
  have hread : streamRead (writePayloads
      (writeAt (headerBytes H) H.shoff (tableBytes secs)) secs)
      { pos := 0, fail := false } sizeofHeader
      = (headerBytes H, { pos := sizeofHeader, fail := false }) := by
    rw [streamRead_ok _ _ _ rfl (by
      simp only [sizeofHeader, sizeofSectionHeader] at hoff hge ⊢; omega), hhead]
    simp only [Nat.zero_add]
  have hload : loadedHeader (writePayloads
      (writeAt (headerBytes H) H.shoff (tableBytes secs)) secs) = H := by
    rw [loadedHeader, hread]
    exact parseHeader_headerBytes H hH
  have hafter : afterHeader (writePayloads
      (writeAt (headerBytes H) H.shoff (tableBytes secs)) secs)
      = { pos := sizeofHeader, fail := false } := by
    rw [afterHeader, hread]
  -- the sections
  obtain ⟨st', hst'⟩ := readSections_of_stored z
    (writePayloads (writeAt (headerBytes H) H.shoff (tableBytes secs)) secs) H secs
    (by rw [hent]; exact hfit)
    (by
      intro i s hs
      have hi : i < secs.length := by
        rcases Nat.lt_or_ge i secs.length with h | h
        · exact h
        · rw [List.getElem?_eq_none h] at hs; cases hs
      have hq : H.shoff + sizeofSectionHeader * i + sizeofSectionHeader
          ≤ H.shoff + sizeofSectionHeader * secs.length := by
        have : sizeofSectionHeader * (i + 1) ≤ sizeofSectionHeader * secs.length :=
          Nat.mul_le_mul_left _ hi
        rw [Nat.mul_add, Nat.mul_one] at this
        omega
      rw [hent]
      refine ⟨Nat.le_trans hq hge, ?_⟩
      rw [sectionHeaderAt, bytesAt_writePayloads_apart _ _ secs _ (by rw [hlen1]; exact hq)
        (hlow _ _ hq)]
      have hsame := bytesAt_writeAt_same (headerBytes H) H.shoff (tableBytes secs)
      rw [← bytesAt_bytesAt _ H.shoff (tableBytes secs).length _ _ (by
        rw [length_tableBytes]; omega), hsame, bytesAt_tableBytes secs i s hs]
      exact parseSectionHeader_sectionHeaderBytes _ (hS s (List.getElem?_mem hs)).1)
    (by
      intro s hs
      have hsp := (hS s hs).2
      unfold storedPlain at hsp
      split
      · rename_i hc
        rw [if_pos hc] at hsp
        exact hsp
      · rename_i hc
        rw [if_neg hc] at hsp
        have hne : s.data ≠ [] := by
          intro h0
          rw [h0] at hsp
          exact hc (Or.inr hsp.2.1.symm)
        have hm := bytesAt_writePayloads_mem secs
          (writeAt (headerBytes H) H.shoff (tableBytes secs)) hdis s hs hne
        rw [hsp.2.1] at hm
        exact ⟨hsp.1, hm.2, hm.1⟩)
    secs.length 0 { pos := sizeofHeader, fail := false } (by omega) rfl
  rw [readRpl_some, hload, hafter, if_neg (by simpa using hmagic), hnum]
  simp only [List.take_zero] at hst'
  rw [hst']
  simp only [hnames, if_true]

/-! ### A stream that has not failed has read inside the file -/

theorem streamRead_not_failed (src : List Byte) (st : Stream) (n : Nat)
    (h : (streamRead src st n).2.fail = false) :
    st.fail = false ∧ (n = 0 ∨ st.pos + n ≤ src.length) := by
  unfold streamRead at h
  split at h
  · rename_i hf
    simp only at h
    rw [hf] at h
    cases h
  · rename_i hf
    refine ⟨by simpa using hf, ?_⟩
    split at h
    · rename_i hn; exact Or.inl hn
    · split at h
      · rename_i hle; exact Or.inr hle
      · simp only at h
        cases h

theorem seekg_fail (st : Stream) (p : Nat) : (seekg st p).fail = st.fail := by
  unfold seekg
  split
  · rfl
  · rfl

theorem readSection_not_failed (z : Zlib) (src : List Byte) (st : Stream) (ok : Bool)
    (s : Section) (st' : Stream) (h : readSection z src st = some (ok, s, st'))
    (hf : st'.fail = false) :
    st.fail = false ∧ st.pos + sizeofSectionHeader ≤ src.length
      ∧ s.header = sectionHeaderAt src st.pos := by
  have key : (streamRead src st sizeofSectionHeader).2.fail = false
      ∧ s.header = parseSectionHeader (streamRead src st sizeofSectionHeader).1 := by
    simp only [readSection] at h
    split at h
    · simp only [Option.some.injEq, Prod.mk.injEq] at h
      obtain ⟨_, hs, hst⟩ := h
      rw [← hst] at hf
      exact ⟨hf, by rw [← hs]⟩
    · split at h
      · split at h
        · simp only [Option.some.injEq, Prod.mk.injEq] at h
          obtain ⟨_, hs, hst⟩ := h
          rw [← hst] at hf
          have h1 := (streamRead_not_failed _ _ _ hf).1
          rw [seekg_fail] at h1
          exact ⟨h1, by rw [← hs]⟩
        · split at h
          · cases h
          · split at h
            all_goals
              simp only [Option.some.injEq, Prod.mk.injEq] at h
              obtain ⟨_, hs, hst⟩ := h
              rw [← hst] at hf
              have h1 := (streamRead_not_failed _ _ _ hf).1
              have h2 := (streamRead_not_failed _ _ _ h1).1
              rw [seekg_fail] at h2
              exact ⟨h2, by rw [← hs]⟩
      · simp only [Option.some.injEq, Prod.mk.injEq] at h
        obtain ⟨_, hs, hst⟩ := h
        rw [← hst] at hf
        have h1 := (streamRead_not_failed _ _ _ hf).1
        rw [seekg_fail] at h1
        exact ⟨h1, by rw [← hs]⟩
  obtain ⟨h0, hle⟩ := streamRead_not_failed _ _ _ key.1
  have hle' : st.pos + sizeofSectionHeader ≤ src.length := by
    rcases hle with h | h
    · simp [sizeofSectionHeader] at h
    · exact h
  refine ⟨h0, hle', ?_⟩
  rw [key.2, streamRead_ok src st _ h0 hle']
  rfl

theorem readSections_not_failed (z : Zlib) (src : List Byte) (H : Header) :
    ∀ (count i : Nat) (st : Stream) (acc secs : List Section) (st' : Stream),
      readSections z src H count i st acc = some (true, secs, st') → st'.fail = false →
      st.fail = false
      ∧ ∃ new : List Section, secs = acc ++ new ∧ new.length = count
        ∧ ∀ (j : Nat) (s : Section), new[j]? = some s →
            tableEntry H (i + j) + sizeofSectionHeader ≤ src.length
            ∧ s.header = sectionHeaderAt src (tableEntry H (i + j)) := by
  intro count
  induction count with
  | zero =>
    intro i st acc secs st' h hf
    simp only [readSections, Option.some.injEq, Prod.mk.injEq, true_and] at h
    rw [h.2]
    exact ⟨hf, [], by rw [← h.1, List.append_nil], rfl, fun j s hj => by simp at hj⟩
  | succ n ih =>
    intro i st acc secs st' h hf
    simp only [readSections] at h
    split at h
    · cases h
    · cases h
    · rename_i s st1 heq
      obtain ⟨hf1, new, hsecs, hlen, hall⟩ := ih (i + 1) st1 _ secs st' h hf
      obtain ⟨hf0, hle, hhd⟩ := readSection_not_failed z src _ true s st1 heq hf1
      rw [seekg_fail] at hf0
      rw [seekg_ok _ _ hf0] at hle hhd
      refine ⟨hf0, s :: new, by rw [hsecs, List.append_assoc]; rfl, by
        rw [List.length_cons, hlen], ?_⟩
      intro j t hj
      cases j with
      | zero =>
        simp only [List.getElem?_cons_zero, Option.some.injEq] at hj
        subst hj
        exact ⟨hle, hhd⟩
      | succ k =>
        simp only [List.getElem?_cons_succ] at hj
        have := hall k t hj
        rw [show i + 1 + k = i + (k + 1) by omega] at this
        exact this

/-- **C14 (amended).** `readSection` gives a section whose header, as read, has no-bits type or
size 0 an empty buffer and returns true.  For a header read inside the file by a stream that
has not failed, with another type, a non-zero size, the deflated flag clear and the `size`
bytes at `offset` inside the file, it returns true and the buffer is exactly these bytes.
After `readRpl` has returned true the container holds exactly `shnum` sections, and when no
read has failed by the end of the loop, the header of section `i` is the one stored at
`shoff + i * shentsize` (taken modulo 2^32), inside the file. -/
theorem readSection_loads (z : Zlib) (src : List Byte) :
    (∀ st : Stream,
      (parseSectionHeader (streamRead src st sizeofSectionHeader).1).type = SHT_NOBITS
        ∨ (parseSectionHeader (streamRead src st sizeofSectionHeader).1).size = 0 →
      readSection z src st
        = some (true, { header := parseSectionHeader (streamRead src st sizeofSectionHeader).1,
                        data := [] }, (streamRead src st sizeofSectionHeader).2))
    ∧ (∀ st : Stream, st.fail = false → st.pos + sizeofSectionHeader ≤ src.length →
        (sectionHeaderAt src st.pos).type ≠ SHT_NOBITS →
        (sectionHeaderAt src st.pos).size ≠ 0 →
        (sectionHeaderAt src st.pos).flags &&& SHF_DEFLATED = 0 →
        (sectionHeaderAt src st.pos).offset + (sectionHeaderAt src st.pos).size
          ≤ src.length →
        readSection z src st
          = some (true,
              { header := sectionHeaderAt src st.pos
                data := bytesAt src (sectionHeaderAt src st.pos).offset
                  (sectionHeaderAt src st.pos).size },
              { pos := (sectionHeaderAt src st.pos).offset
                  + (sectionHeaderAt src st.pos).size,
                fail := false }))
    ∧ ∀ c : Rpl, readRpl z (some src) = some (true, c) →
        c.header = loadedHeader src
        ∧ c.sections.length = c.header.shnum
        ∧ ∀ st' : Stream, finalStream z src = some st' → st'.fail = false →
            ∀ (i : Nat) (s : Section), c.sections[i]? = some s →
              tableEntry c.header i + sizeofSectionHeader ≤ src.length
              ∧ s.header = sectionHeaderAt src (tableEntry c.header i)
              ∧ (c.header.shoff + c.header.shentsize * i < 2 ^ 32 →
                  tableEntry c.header i = c.header.shoff + c.header.shentsize * i) := by
  refine ⟨fun st h => readSection_no_buffer z src st h,
    fun st hf hhdr hty hsz hdefl hin => readSection_verbatim z src st hf hhdr hty hsz hdefl hin,
    ?_⟩
  intro c hc
  rw [readRpl_some] at hc
  split at hc
  · cases hc
  · split at hc
    · cases hc
    · cases hc
    · rename_i secs st heq
      split at hc
      · simp only [Option.some.injEq, Prod.mk.injEq, true_and] at hc
        subst hc
        simp only
        have hlen := readSections_length z src _ _ _ _ _ _ _ heq
        simp only [List.length_nil, Nat.zero_add] at hlen
        refine ⟨trivial, hlen, ?_⟩
        intro st' hfin hf i s hs
        simp only [finalStream, heq, Option.map_some', Option.some.injEq] at hfin
        subst hfin
        obtain ⟨_, new, hnew, _, hall⟩ :=
          readSections_not_failed z src _ _ _ _ _ _ _ heq hf
        rw [List.nil_append] at hnew
        subst hnew
        have := hall i s hs
        rw [Nat.zero_add] at this
        exact ⟨this.1, this.2, fun hlt => Nat.mod_eq_of_lt hlt⟩
      · cases hc

set_option maxRecDepth 100000 in
/-- Witness of **C14 (amended)**: `readRpl` returns true on `exampleSource`, the stream has
not failed at the end, and the header of the text section is the one stored at byte
`52 + 1 * 40`; its buffer is the 8 bytes stored at its offset 192. -/
theorem readSection_loads_witness :
    readRpl exampleZlib (some exampleSource) = some (true, exampleLoaded)
    ∧ finalStream exampleZlib exampleSource = some { pos := 189, fail := false }
    ∧ exampleTextHeader = sectionHeaderAt exampleSource (tableEntry exampleLoaded.header 1)
    ∧ readSection exampleZlib exampleSource { pos := 92, fail := false }
      = some (true, { header := exampleTextHeader, data := bytesAt exampleSource 192 8 },
          { pos := 200, fail := false }) :=
  ⟨by decide, by decide,
   (((readSection_loads exampleZlib exampleSource).2.2 exampleLoaded (by decide)).2.2
      { pos := 189, fail := false } (by decide) rfl 1
      { header := exampleTextHeader, data := exampleText } (by decide)).2.1,
   (readSection_loads exampleZlib exampleSource).2.1 { pos := 92, fail := false } rfl
      (by decide) (by decide) (by decide) (by decide) (by decide)⟩

/-! ### The planner's output as the writer and the loader see it -/

theorem calculateSectionOffsets_header (file : Rpl) :
    (calculateSectionOffsets file).1.header = file.header := rfl

theorem calculateSectionOffsets_section (file : Rpl) (i : Nat) (s : Section)
    (hs : file.sections[i]? = some s) :
    (calculateSectionOffsets file).1.sections[i]? = some (plannedSection file i s) := by
  rw [calculateSectionOffsets_getElem?, hs]
  rfl

theorem calculateSectionOffsets_length (file : Rpl) :
    (calculateSectionOffsets file).1.sections.length = file.sections.length := by
  apply Nat.le_antisymm
  · by_contra h
    have h1 : file.sections.length < (calculateSectionOffsets file).1.sections.length := by
      omega
    have h2 := calculateSectionOffsets_getElem? file file.sections.length
    rw [List.getElem?_eq_getElem h1, List.getElem?_eq_none (Nat.le_refl _)] at h2
    cases h2
  · by_contra h
    have h1 : (calculateSectionOffsets file).1.sections.length < file.sections.length := by
      omega
    have h2 := calculateSectionOffsets_getElem? file
      (calculateSectionOffsets file).1.sections.length
    rw [List.getElem?_eq_none (Nat.le_refl _), List.getElem?_eq_getElem h1] at h2
    cases h2

theorem calculateSectionOffsets_section_inv (file : Rpl) (i : Nat) (t : Section)
    (ht : (calculateSectionOffsets file).1.sections[i]? = some t) :
    ∃ s : Section, file.sections[i]? = some s ∧ t = plannedSection file i s := by
  have hi : i < file.sections.length := by
    rw [← calculateSectionOffsets_length]
    rcases Nat.lt_or_ge i (calculateSectionOffsets file).1.sections.length with h | h
    · exact h
    · rw [List.getElem?_eq_none h] at ht; cases ht
  refine ⟨file.sections.get ⟨i, hi⟩, List.getElem?_eq_getElem hi, ?_⟩
  have := calculateSectionOffsets_section file i _ (List.getElem?_eq_getElem hi)
  rw [ht] at this
  exact Option.some.inj this

theorem clearNoData_data (s : Section) :
    (clearNoData s).data = [] ∨ (clearNoData s).data = s.data := by
  unfold clearNoData
  split
  · exact Or.inl rfl
  · exact Or.inr rfl

theorem clearNoData_nobits (s : Section) (h : s.header.type = SHT_NOBITS) :
    (clearNoData s).data = [] := by
  simp [clearNoData, h]

theorem clearNoData_header (s : Section) :
    (clearNoData s).header = s.header
      ∨ (clearNoData s).header = { s.header with offset := 0 } := by
  unfold clearNoData
  split
  · exact Or.inr rfl
  · exact Or.inl rfl

theorem clearNoData_inRange (s : Section) (h : s.header.inRange) :
    (clearNoData s).header.inRange := by
  rcases clearNoData_header s with hh | hh
  · rw [hh]; exact h
  · rw [hh]
    simp only [SectionHeader.inRange] at h ⊢
    omega

theorem clearNoData_fields (s : Section) :
    (clearNoData s).header.type = s.header.type
      ∧ (clearNoData s).header.flags = s.header.flags
      ∧ (clearNoData s).header.size = s.header.size := by
  rcases clearNoData_header s with hh | hh <;> rw [hh] <;> exact ⟨rfl, rfl, rfl⟩

theorem plannedSection_plain (file : Rpl) (hfit : layoutFits file) (i : Nat) (s : Section)
    (hs : file.sections[i]? = some s) (hr : s.header.inRange)
    (hd : s.data ≠ [] → s.header.flags &&& SHF_DEFLATED = 0)
    (hp : category s = none → s.header.type = SHT_NOBITS ∨ (s.header.size = 0 ∧ s.data = [])) :
    (plannedSection file i s).header.inRange
      ∧ storedPlain (file.header.shoff + sizeofSectionHeader * file.sections.length)
          (plannedSection file i s) := by
  have hcr := clearNoData_inRange s hr
  obtain ⟨hty, hfl, hsz⟩ := clearNoData_fields s
  unfold plannedSection
  cases hcat : category s with
  | none =>
    simp only
    refine ⟨hcr, ?_⟩
    unfold storedPlain
    rw [hty, hsz]
    rcases hp hcat with h | h
    · rw [if_pos (Or.inl h)]
      exact clearNoData_nobits s h
    · rw [if_pos (Or.inr h.1)]
      rcases clearNoData_data s with h' | h'
      · exact h'
      · rw [h', h.2]
  | some k =>
    simp only
    obtain ⟨hp1, hp2, hp3⟩ := plannedOffset_of_fits file hfit i k s hs hcat
    have hstart := layoutStart_of_fits file hfit
    have hal := align_up_ge (file.sections.length * sizeofSectionHeader)
    have hmono : sumLen ((file.sections.map clearNoData).filter (beforeCategory k))
        ≤ sumLen ((file.sections.map clearNoData).filter (beforeCategory (k + 1))) :=
      sumLen_filter_mono _ _ (fun t ht => beforeCategory_mono k (k + 1) (by omega) t ht) _
    have hlen : (clearNoData s).data.length < 2 ^ 32 := by omega
    have hmod : (clearNoData s).data.length % 2 ^ 32 = (clearNoData s).data.length :=
      Nat.mod_eq_of_lt hlen
    refine ⟨?_, ?_⟩
    · simp only [SectionHeader.inRange, placeSection] at hcr ⊢
      refine ⟨hcr.1, hcr.2.1, hcr.2.2.1, hcr.2.2.2.1, by omega, ?_, hcr.2.2.2.2.2.2⟩
      exact Nat.mod_lt _ (by decide)
    · unfold storedPlain
      simp only [placeSection, hmod]
      rw [hty, hfl]
      split
      · rename_i hc
        rcases hc with h | h
        · exact clearNoData_nobits s h
        · exact List.length_eq_zero.1 h
      · rename_i hc
        have hne : s.data ≠ [] := by
          intro h0
          apply hc
          right
          rcases clearNoData_data s with h' | h'
          · rw [h']; rfl
          · rw [h', h0]; rfl
        refine ⟨hd hne, trivial, ?_⟩
        simp only [sizeofSectionHeader] at hal hstart ⊢
        omega

theorem plannedSection_data (file : Rpl) (i : Nat) (s : Section) :
    (plannedSection file i s).data = (clearNoData s).data := by
  unfold plannedSection
  cases category s <;> rfl

theorem plannedSection_offset (file : Rpl) (i k : Nat) (s : Section)
    (h : category s = some k) :
    (plannedSection file i s).header.offset = plannedOffset file i k := by
  unfold plannedSection
  rw [h]
  rfl

theorem plannedSection_apart (file : Rpl) (hfit : layoutFits file) (i j : Nat)
    (si sj : Section) (hij : i < j) (hsi : file.sections[i]? = some si)
    (hsj : file.sections[j]? = some sj)
    (hpi : category si = none → (clearNoData si).data = [])
    (hpj : category sj = none → (clearNoData sj).data = []) :
    apart (plannedSection file i si) (plannedSection file j sj) := by
  unfold apart
  rw [plannedSection_data, plannedSection_data]
  cases hci : category si with
  | none => exact Or.inl (hpi hci)
  | some ki =>
    cases hcj : category sj with
    | none => exact Or.inr (Or.inl (hpj hcj))
    | some kj =>
      right; right
      rw [plannedSection_offset file i ki si hci, plannedSection_offset file j kj sj hcj]
      obtain ⟨hi1, hi2, _⟩ := plannedOffset_of_fits file hfit i ki si hsi hci
      obtain ⟨hj1, hj2, _⟩ := plannedOffset_of_fits file hfit j kj sj hsj hcj
      rcases Nat.lt_trichotomy ki kj with hlt | heq | hgt
      · left
        have hmono : sumLen ((file.sections.map clearNoData).filter (beforeCategory (ki + 1)))
            ≤ sumLen ((file.sections.map clearNoData).filter (beforeCategory kj)) :=
          sumLen_filter_mono _ _ (fun t ht => beforeCategory_mono (ki + 1) kj (by omega) t ht) _
        omega
      · left
        subst heq
        have hs0 : ((file.sections.map clearNoData).take j)[i]? = some (clearNoData si) := by
          rw [List.getElem?_take, if_pos hij, List.getElem?_map, hsi]
          rfl
        have hin : inCategory ki (clearNoData si) = true := by
          simp [inCategory, category_clearNoData, hci]
        have h1 := sumLen_take_filter (inCategory ki) _ i _ hs0 hin
        rw [List.take_take, Nat.min_eq_left (Nat.le_of_lt hij)] at h1
        omega
      · right
        have hmono : sumLen ((file.sections.map clearNoData).filter (beforeCategory (kj + 1)))
            ≤ sumLen ((file.sections.map clearNoData).filter (beforeCategory ki)) :=
          sumLen_filter_mono _ _ (fun t ht => beforeCategory_mono (kj + 1) ki (by omega) t ht) _
        omega

/-! ### Planning, writing and loading again -/

/-- The planner's output is loaded back from the file that the writer produces: for a
container with the expected magic, header fields that fit their widths, `shentsize` equal to
the size of a section header, `shnum` equal to the number of sections, the section table
after the file header and a layout that fits 32 bits, in which no section with a buffer has
the deflated flag and every section that no scan places is of no-bits type or has size 0 and
no buffer, and for which every section name ends inside the buffer that the planner leaves
to the name table. -/
theorem calculateSectionOffsets_writeElf_readRpl (z : Zlib) (file : Rpl)
    (hmagic : file.header.magic = HeaderMagic) (hH : file.header.inRange)
    (hent : file.header.shentsize = sizeofSectionHeader)
    (hnum : file.header.shnum = file.sections.length)
    (hnames : nameLoopDefined (calculateSectionOffsets file).1.header
      (calculateSectionOffsets file).1.sections = true)
    (hoff : sizeofHeader ≤ file.header.shoff)
    (hfit : layoutFits file)
    (hrange : ∀ s ∈ file.sections, s.header.inRange)
    (hdefl : ∀ s ∈ file.sections, s.data ≠ [] → s.header.flags &&& SHF_DEFLATED = 0)
    (hplaced : ∀ s ∈ file.sections, category s = none →
      s.header.type = SHT_NOBITS ∨ (s.header.size = 0 ∧ s.data = [])) :
    ∃ out : List Byte, writeElf (calculateSectionOffsets file).1 true = (true, some out)
      ∧ readRpl z (some out) = some (true, (calculateSectionOffsets file).1)
      ∧ (calculateSectionOffsets file).1.header = file.header
      ∧ (calculateSectionOffsets file).1.sections.length = file.sections.length := by
  have hlen := calculateSectionOffsets_length file
  have hunplaced : ∀ s ∈ file.sections, category s = none → (clearNoData s).data = [] := by
    intro s hs hc
    rcases hplaced s hs hc with h | h
    · exact clearNoData_nobits s h
    · rcases clearNoData_data s with h' | h'
      · exact h'
      · rw [h', h.2]
  have hal := align_up_ge (file.sections.length * sizeofSectionHeader)
  have hfit' : file.header.shoff + sizeofSectionHeader * file.sections.length < 2 ^ 32 := by
    unfold layoutFits at hfit
    simp only [sizeofSectionHeader] at hal hfit ⊢
    omega
  obtain ⟨out, hw, hr⟩ := readRpl_writeElf_plain z (calculateSectionOffsets file).1
    hmagic hH hent (by rw [hlen]; exact hnum) hnames hoff
    (by rw [hlen]; exact hfit')
    (by
      intro t ht
      obtain ⟨i, hi⟩ := List.mem_iff_getElem?.1 ht
      obtain ⟨s, hs, rfl⟩ := calculateSectionOffsets_section_inv file i t hi
      have hsm := List.getElem?_mem hs
      rw [hlen]
      exact plannedSection_plain file hfit i s hs (hrange s hsm) (hdefl s hsm)
        (hplaced s hsm))
    (by
      rw [List.pairwise_iff_getElem]
      intro i j hi hj hij
      obtain ⟨si, hsi, hti⟩ := calculateSectionOffsets_section_inv file i _
        (List.getElem?_eq_getElem hi)
      obtain ⟨sj, hsj, htj⟩ := calculateSectionOffsets_section_inv file j _
        (List.getElem?_eq_getElem hj)
      rw [hti, htj]
      exact plannedSection_apart file hfit i j si sj hij hsi hsj
        (hunplaced si (List.getElem?_mem hsi)) (hunplaced sj (List.getElem?_mem hsj)))
  exact ⟨out, hw, hr, rfl, hlen⟩

/-! ### What the loader guarantees about an accepted file -/

theorem parseSectionHeader_inRange (bs : List Byte) : (parseSectionHeader bs).inRange := by
  simp only [SectionHeader.inRange, parseSectionHeader]
  exact ⟨rd32_lt _ _, rd32_lt _ _, rd32_lt _ _, rd32_lt _ _, rd32_lt _ _, rd32_lt _ _,
    rd32_lt _ _, rd32_lt _ _, rd32_lt _ _, rd32_lt _ _⟩

theorem rd8_lt (buf : List Byte) (p : Nat) : rd8 buf p < 2 ^ 8 := (buf.getD p 0).isLt

theorem rd16_lt (buf : List Byte) (p : Nat) : rd16 buf p < 2 ^ 16 := by
  unfold rd16
  have h0 := (buf.getD p 0).isLt
  have h1 := (buf.getD (p + 1) 0).isLt
  omega

theorem rd56_lt (buf : List Byte) (p : Nat) : rd56 buf p < 2 ^ 56 := by
  unfold rd56
  have h0 := (buf.getD p 0).isLt
  have h1 := (buf.getD (p + 1) 0).isLt
  have h2 := (buf.getD (p + 2) 0).isLt
  have h3 := (buf.getD (p + 3) 0).isLt
  have h4 := (buf.getD (p + 4) 0).isLt
  have h5 := (buf.getD (p + 5) 0).isLt
  have h6 := (buf.getD (p + 6) 0).isLt
  omega

theorem parseHeader_inRange (bs : List Byte) : (parseHeader bs).inRange := by
  simp only [Header.inRange, parseHeader]
  exact ⟨rd32_lt _ _, rd8_lt _ _, rd8_lt _ _, rd8_lt _ _, rd16_lt _ _, rd56_lt _ _,
    rd16_lt _ _, rd16_lt _ _, rd32_lt _ _, rd32_lt _ _, rd32_lt _ _, rd32_lt _ _,
    rd32_lt _ _, rd16_lt _ _, rd16_lt _ _, rd16_lt _ _, rd16_lt _ _, rd16_lt _ _,
    rd16_lt _ _⟩

theorem readSection_header (z : Zlib) (src : List Byte) (st : Stream) (ok : Bool)
    (s : Section) (st' : Stream) (h : readSection z src st = some (ok, s, st')) :
    s.header = parseSectionHeader (streamRead src st sizeofSectionHeader).1 := by
  simp only [readSection] at h
  split at h
  · simp only [Option.some.injEq, Prod.mk.injEq] at h
    rw [← h.2.1]
  · split at h
    · split at h
      · simp only [Option.some.injEq, Prod.mk.injEq] at h
        rw [← h.2.1]
      · split at h
        · cases h
        · split at h
          all_goals
            simp only [Option.some.injEq, Prod.mk.injEq] at h
            rw [← h.2.1]
    · simp only [Option.some.injEq, Prod.mk.injEq] at h
      rw [← h.2.1]

theorem readSections_inRange (z : Zlib) (src : List Byte) (H : Header) :
    ∀ (count i : Nat) (st : Stream) (acc secs : List Section) (st' : Stream),
      readSections z src H count i st acc = some (true, secs, st') →
      (∀ s ∈ acc, s.header.inRange) → ∀ s ∈ secs, s.header.inRange := by
  intro count
  induction count with
  | zero =>
    intro i st acc secs st' h hacc
    simp only [readSections, Option.some.injEq, Prod.mk.injEq, true_and] at h
    rw [← h.1]
    exact hacc
  | succ n ih =>
    intro i st acc secs st' h hacc
    simp only [readSections] at h
    split at h
    · cases h
    · cases h
    · rename_i s st1 heq
      refine ih (i + 1) st1 _ secs st' h ?_
      intro t ht
      rcases List.mem_append.1 ht with h1 | h1
      · exact hacc t h1
      · rw [List.mem_singleton] at h1
        subst h1
        rw [readSection_header z src _ true t st1 heq]
        exact parseSectionHeader_inRange _

theorem readRpl_accepted (z : Zlib) (src : List Byte) (c : Rpl)
    (h : readRpl z (some src) = some (true, c)) :
    c.header.magic = HeaderMagic ∧ c.header.inRange ∧ c.header.shnum = c.sections.length
      ∧ nameLoopDefined c.header c.sections = true ∧ ∀ s ∈ c.sections, s.header.inRange := by
  rw [readRpl_some] at h
  split at h
  · cases h
  · rename_i hmagic
    split at h
    · cases h
    · cases h
    · rename_i secs st heq
      split at h
      · rename_i hstr
        simp only [Option.some.injEq, Prod.mk.injEq, true_and] at h
        subst h
        have hlen := readSections_length z src _ _ _ _ _ _ _ heq
        simp only [List.length_nil, Nat.zero_add] at hlen
        refine ⟨by simpa using hmagic, parseHeader_inRange _, hlen.symm, hstr, ?_⟩
        exact readSections_inRange z src _ _ _ _ _ _ _ heq (fun s hs => by cases hs)
      · cases h

/-! ### The stages before the planner keep the shape of the container -/

theorem relocateSection_header (file : Rpl) (sec sectionIndex n : Nat) :
    (relocateSection file sec sectionIndex n).1.header = file.header := by
  unfold relocateSection
  split <;> rfl

theorem length_setSectionAddr (l : List Section) (sec n : Nat) :
    (setSectionAddr l sec n).length = l.length := by
  unfold setSectionAddr
  split
  · rfl
  · exact List.length_set _ _ _

theorem relocateSection_length (file : Rpl) (sec sectionIndex n : Nat) :
    (relocateSection file sec sectionIndex n).1.sections.length = file.sections.length := by
  unfold relocateSection
  split
  · rfl
  · simp only [length_setSectionAddr, List.length_map]

theorem relocateSection_inRange (file : Rpl) (sec sectionIndex n : Nat) (hn : n < 2 ^ 32)
    (h : ∀ s ∈ file.sections, s.header.inRange) :
    ∀ t ∈ (relocateSection file sec sectionIndex n).1.sections, t.header.inRange := by
  intro t ht
  cases hsec : file.sections[sec]? with
  | none =>
    have : (relocateSection file sec sectionIndex n).1 = file := by
      unfold relocateSection
      rw [hsec]
    rw [this] at ht
    exact h t ht
  | some sect =>
    obtain ⟨k, hk⟩ := List.mem_iff_getElem?.1 ht
    rw [relocateSection_getElem? file sec sectionIndex n sect hsec k] at hk
    cases hs : file.sections[k]? with
    | none => rw [hs] at hk; cases hk
    | some s =>
      rw [hs] at hk
      simp only [Option.map_some', Option.some.injEq] at hk
      have hsr := h s (List.getElem?_mem hs)
      rw [← hk]
      simp only
      split
      · simp only [SectionHeader.inRange] at hsr ⊢
        exact ⟨hsr.1, hsr.2.1, hsr.2.2.1, hn, hsr.2.2.2.2⟩
      · exact hsr

theorem relocateImportsStep_shape (H : Header) (n : Nat) (st : Rpl × Nat) (i : Nat)
    (hinv : st.1.header = H ∧ st.1.sections.length = n
      ∧ ∀ s ∈ st.1.sections, s.header.inRange) :
    (relocateImportsStep st i).1.header = H
      ∧ (relocateImportsStep st i).1.sections.length = n
      ∧ ∀ s ∈ (relocateImportsStep st i).1.sections, s.header.inRange := by
  unfold relocateImportsStep
  simp only
  split
  · exact hinv
  · rename_i sect hsect
    split
    · simp only
      have hn : align_up st.2 sect.header.addralign % 2 ^ 32 < 2 ^ 32 :=
        Nat.mod_lt _ (by decide)
      have h1 := relocateSection_header st.1 i i (align_up st.2 sect.header.addralign % 2 ^ 32)
      have h2 := relocateSection_length st.1 i i (align_up st.2 sect.header.addralign % 2 ^ 32)
      have h3 := relocateSection_inRange st.1 i i _ hn hinv.2.2
      refine ⟨h1.trans hinv.1, ?_, ?_⟩
      · split
        · exact h2.trans hinv.2.1
        · rw [List.length_set]; exact h2.trans hinv.2.1
      · split
        · exact h3
        · rename_i s hs
          intro t ht
          rcases List.mem_or_eq_of_mem_set ht with h | h
          · exact h3 t h
          · have hsr := h3 s (List.getElem?_mem hs)
            rw [h]
            simp only [SectionHeader.inRange] at hsr ⊢
            refine ⟨hsr.1, hsr.2.1, ?_, hsr.2.2.2⟩
            exact Nat.or_lt_two_pow hsr.2.2.1 (by decide)
    · exact hinv

theorem relocateImports_fold_shape (H : Header) (n : Nat) (idx : List Nat) :
    ∀ st : Rpl × Nat,
      (st.1.header = H ∧ st.1.sections.length = n ∧ ∀ s ∈ st.1.sections, s.header.inRange) →
      (idx.foldl relocateImportsStep st).1.header = H
        ∧ (idx.foldl relocateImportsStep st).1.sections.length = n
        ∧ ∀ s ∈ (idx.foldl relocateImportsStep st).1.sections, s.header.inRange := by
  induction idx with
  | nil => intro st h; exact h
  | cons i rest ih =>
    intro st h
    rw [List.foldl_cons]
    exact ih _ (relocateImportsStep_shape H n st i h)

theorem fixSection_inRange (s : Section) (h : s.header.inRange) :
    (fixSection s).header.inRange := by
  by_cases ht : s.header.type = SHT_RELA
  · rw [fixSection_rela s ht]
    simp only [SectionHeader.inRange] at h ⊢
    exact ⟨h.1, h.2.1, by decide, h.2.2.2⟩
  · rw [fixSection_other s ht]; exact h

theorem prePlanned_shape (c : Rpl) (hH : c.header.inRange)
    (hS : ∀ s ∈ c.sections, s.header.inRange) :
    (prePlanned c).header = { c.header with abi := EABI_NONE, type := ET_EXEC }
      ∧ (prePlanned c).header.inRange
      ∧ (prePlanned c).sections.length = c.sections.length
      ∧ ∀ s ∈ (prePlanned c).sections, s.header.inRange := by
  have hfix : (∀ s ∈ (fixRelocations (fixFileHeader c).1).1.sections, s.header.inRange) := by
    intro s hs
    simp only [fixRelocations, fixFileHeader, List.mem_map] at hs
    obtain ⟨t, ht, rfl⟩ := hs
    exact fixSection_inRange t (hS t ht)
  have hlen : (fixRelocations (fixFileHeader c).1).1.sections.length = c.sections.length := by
    simp [fixRelocations, fixFileHeader]
  obtain ⟨h1, h2, h3⟩ := relocateImports_fold_shape
    (fixRelocations (fixFileHeader c).1).1.header c.sections.length
    (List.range (fixRelocations (fixFileHeader c).1).1.sections.length)
    ((fixRelocations (fixFileHeader c).1).1, elfImportsRelocationAddress) ⟨rfl, hlen, hfix⟩
  have hhead : (prePlanned c).header = { c.header with abi := EABI_NONE, type := ET_EXEC } :=
    h1
  refine ⟨hhead, ?_, h2, h3⟩
  rw [hhead]
  simp only [Header.inRange, EABI_NONE, ET_EXEC] at hH ⊢
  omega

/-! ### The output of `main` is loaded again -/

/-- **C17 (amended).** Let the loader accept the source file with the container `c`, with
`shentsize` equal to the size of a section header and the section table after the file
header, and let the planner return true.  Let, in the container that reaches the planner,
the layout fit 32 bits, no section with a buffer have the deflated flag, and every section
that no scan places be of no-bits type or have size 0 and no buffer.  Let, in the container
handed to the writer, every section name end inside the buffer of the name table.  Then
`main` runs all six stages with success and exits with 0, and loading the file it has written
succeeds and gives back exactly the container that was handed to the writer: its header, the
same number of sections as in the source, every section header and every buffer. -/
theorem main_output_loads_again (z : Zlib) (src : List Byte) (c : Rpl)
    (hload : readRpl z (some src) = some (true, c))
    (hplan : (calculateSectionOffsets (prePlanned c)).2 = true)
    (hent : c.header.shentsize = sizeofSectionHeader)
    (hoff : sizeofHeader ≤ c.header.shoff)
    (hfit : layoutFits (prePlanned c))
    (hdefl : ∀ s ∈ (prePlanned c).sections,
      s.data ≠ [] → s.header.flags &&& SHF_DEFLATED = 0)
    (hplaced : ∀ s ∈ (prePlanned c).sections, category s = none →
      s.header.type = SHT_NOBITS ∨ (s.header.size = 0 ∧ s.data = []))
    (hnames : nameLoopDefined (transformed c).header (transformed c).sections = true) :
    ∃ out : List Byte,
      main z (some src) true
        = some { exitCode := 0
                 trace := [(Stage.readRpl, true), (Stage.fixFileHeader, true),
                           (Stage.fixRelocations, true), (Stage.relocateImports, true),
                           (Stage.calculateSectionOffsets, true), (Stage.writeElf, true)]
                 dst := some out }
      ∧ readRpl z (some out) = some (true, transformed c)
      ∧ (transformed c).header = { c.header with abi := EABI_NONE, type := ET_EXEC }
      ∧ (transformed c).sections.length = c.sections.length := by
  obtain ⟨hmagic, hH, hnum, _, hS⟩ := readRpl_accepted z src c hload
  obtain ⟨hhead, hH', hlen, hS'⟩ := prePlanned_shape c hH hS
  obtain ⟨out, hw, hr, hh2, hl2⟩ := calculateSectionOffsets_writeElf_readRpl z (prePlanned c)
    (by rw [hhead]; exact hmagic) hH' (by rw [hhead]; exact hent)
    (by rw [hhead, hlen]; exact hnum) hnames
    (by rw [hhead]; exact hoff) hfit hS' hdefl hplaced
  refine ⟨out, ?_, hr, hh2.trans hhead, hl2.trans hlen⟩
  have hplan' : (calculateSectionOffsets
      (relocateImports (fixRelocations (fixFileHeader c).1).1).1).2 = true := hplan
  have hw' : writeElf (calculateSectionOffsets
      (relocateImports (fixRelocations (fixFileHeader c).1).1).1).1 true
      = (true, some out) := hw
  simp only [main, hload, fixFileHeader_snd, fixRelocations_snd, relocateImports_snd, hplan',
    hw', Bool.not_true, Bool.false_eq_true, if_false]

set_option maxRecDepth 100000 in
/-- Witness of **C17 (amended)**: the loader accepts `exampleSource`, the conditions hold for
it, and the file that `main` writes is loaded again as the transformed container. -/
theorem main_output_loads_again_witness :
    readRpl exampleZlib (some exampleSource) = some (true, exampleLoaded)
    ∧ ∃ out : List Byte,
        (main exampleZlib (some exampleSource) true).map (fun r => (r.exitCode, r.dst))
          = some (0, some out)
        ∧ readRpl exampleZlib (some out) = some (true, transformed exampleLoaded) := by
  obtain ⟨out, hm, hr, _⟩ := main_output_loads_again exampleZlib exampleSource exampleLoaded
    (by decide) (by decide) (by decide) (by decide) (by decide) (by decide) (by decide)
    (by decide)
  exact ⟨by decide, out, by rw [hm]; rfl, hr⟩

/-! ### Outputs of `main` that are not loaded again -/

set_option maxRecDepth 100000 in
/-- **C17** fails on `exampleDeflatedSource`, whose text section is stored deflated: the
loader accepts the file, every stage and the writer succeed, and the text section reaches
the writer with its 8 inflated bytes, the header size 8 and the deflated flag still set.
Loading the written file again, `readSection` takes the inflated bytes for a compressed
stream, the decompressor rejects them and `readRpl` returns false.  It fails on
`exampleStrideSource`, whose section table has entries of 48 bytes: the writer stores the
section headers 40 bytes apart, the loader looks for them 48 bytes apart and finds other
headers and no buffer, the name table included, so that `readRpl` does not return.  It fails
on `exampleExportsSource`: no scan places its exports section, which is written at the offset
192 it came with, into the range that the planner gave to the name table, whose buffer is
read back with other bytes.  And it fails on `exampleNullNamesSource`, whose name table has
the type null: the planner empties its buffer, the written header has the size 0, the section
is read back without a buffer and `readRpl` does not return from the name loop. -/
theorem main_output_not_loaded_again :
    (readRpl exampleZlib (some exampleDeflatedSource) = some (true, exampleDeflatedLoaded)
      ∧ (main exampleZlib (some exampleDeflatedSource) true).map (fun r => r.exitCode)
        = some 0
      ∧ (main exampleZlib (some exampleDeflatedSource) true).map (fun r => r.dst)
        = some (writeElf (transformed exampleDeflatedLoaded) true).2
      ∧ (transformed exampleDeflatedLoaded).sections.map
          (fun s => (s.header.flags &&& SHF_DEFLATED, s.header.offset, s.header.size, s.data))
        = [(0, 0, 0, []), (SHF_DEFLATED, 180, 8, [0, 0, 0, 4, 1, 2, 3, 4]),
           (0, 188, 17, exampleNames)]
      ∧ ((writeElf (transformed exampleDeflatedLoaded) true).2.bind
          (fun out => readRpl exampleZlib (some out))).map Prod.fst
        = some false)
    ∧ ((main exampleZlib (some exampleStrideSource) true).map (fun r => r.exitCode) = some 0
      ∧ (readRpl exampleZlib (some exampleStrideSource)).map
          (fun r => (r.1, (transformed r.2).sections.map
            (fun s => (s.header.type, s.header.offset, s.header.size, s.data.length))))
        = some (true, [(0, 0, 0, 0), (1, 180, 8, 8), (3, 188, 17, 17)])
      ∧ (((main exampleZlib (some exampleStrideSource) true).bind (fun r => r.dst)).bind
          (fun out => loadedSections exampleZlib out)).map
            (fun l => (l.1, l.2.map
              (fun s => (s.header.type, s.header.offset, s.header.size, s.data.length))))
        = some (true, [(0, 0, 0, 0), (0x02000000, 0, 0, 0), (17, 1, 0, 0)])
      ∧ ((main exampleZlib (some exampleStrideSource) true).bind (fun r => r.dst)).map
          (fun out => (readRpl exampleZlib (some out)).isSome)
        = some false)
    ∧ ((main exampleZlib (some exampleExportsSource) true).map (fun r => r.exitCode) = some 0
      ∧ (readRpl exampleZlib (some exampleExportsSource)).map
          (fun r => (r.1, (transformed r.2).sections.map
            (fun s => (s.header.type, s.header.offset, s.data))))
        = some (true, [(0, 0, []), (3, 180, exampleNames),
            (SHT_RPL_EXPORTS, 192, [0x11, 0x11, 0x11, 0x11, 0, 0x11, 0x11, 0x11])])
      ∧ (((main exampleZlib (some exampleExportsSource) true).bind (fun r => r.dst)).bind
          (fun out => readRpl exampleZlib (some out))).map
            (fun l => (l.1, l.2.sections.map
              (fun s => (s.header.type, s.header.offset, s.data))))
        = some (true, [(0, 0, []),
            (3, 180, exampleNames.take 12 ++ [0x11, 0x11, 0x11, 0x11, 0]),
            (SHT_RPL_EXPORTS, 192, [0x11, 0x11, 0x11, 0x11, 0, 0x11, 0x11, 0x11])]))
    ∧ ((main exampleZlib (some exampleNullNamesSource) true).map (fun r => r.exitCode)
        = some 0
      ∧ (readRpl exampleZlib (some exampleNullNamesSource)).map
          (fun r => (r.1, r.2.header.shstrndx)) = some (true, 0)
      ∧ (readRpl exampleZlib (some exampleNullNamesSource)).map
          (fun r => r.2.sections.map (fun s => (s.header.type, s.header.size, s.data)))
        = some [(SHT_NULL, 17, exampleNames), (1, 8, exampleText)]
      ∧ (readRpl exampleZlib (some exampleNullNamesSource)).map
          (fun r => (transformed r.2).sections.map
            (fun s => (s.header.type, s.header.offset, s.header.size, s.data)))
        = some [(SHT_NULL, 188, 0, []), (1, 180, 8, exampleText)]
      ∧ (((main exampleZlib (some exampleNullNamesSource) true).bind (fun r => r.dst)).bind
          (fun out => loadedSections exampleZlib out)).map
            (fun l => (l.1, l.2.map (fun s => (s.header.type, s.header.size, s.data))))
        = some (true, [(SHT_NULL, 0, []), (1, 8, exampleText)])
      ∧ ((main exampleZlib (some exampleNullNamesSource) true).bind (fun r => r.dst)).map
          (fun out => (readRpl exampleZlib (some out)).isSome)
        = some false) := by
  refine ⟨⟨?_, ?_, ?_, ?_, ?_⟩, ⟨?_, ?_, ?_, ?_⟩, ⟨?_, ?_, ?_⟩, ?_, ?_, ?_, ?_, ?_, ?_⟩ <;> decide

/-! ### The outcomes of `readSection` on a deflated section -/

theorem readSection_deflated_gen (z : Zlib) (src : List Byte) (st : Stream)
    (hty : (headerRead src st).type ≠ SHT_NOBITS) (hsz : (headerRead src st).size ≠ 0)
    (hdefl : (headerRead src st).flags &&& SHF_DEFLATED ≠ 0) :
    readSection z src st =
      if z.inflateInit ≠ Z_OK then
        some (false, { header := headerRead src st, data := [] }, (prefixStream src st).2)
      else if (headerRead src st).size < 4 then none
      else if (z.inflate (inputRead src st) (headerRead src st).size (prefixRead src st)).1
              ≠ Z_OK
            ∧ (z.inflate (inputRead src st) (headerRead src st).size (prefixRead src st)).1
              ≠ Z_STREAM_END then
        some (false, { header := headerRead src st, data := [] },
          (streamRead src (prefixStream src st).2 ((headerRead src st).size - 4)).2)
      else
        some (true,
          { header := headerRead src st
            data := inflatedData (prefixRead src st)
              (z.inflate (inputRead src st) (headerRead src st).size (prefixRead src st)).2 },
          (streamRead src (prefixStream src st).2 ((headerRead src st).size - 4)).2) := by
  simp only [readSection]
  have hh : parseSectionHeader (streamRead src st sizeofSectionHeader).1 = headerRead src st :=
    rfl
  rw [hh, if_neg (by simp [hty, hsz]), if_pos hdefl]
  rfl

theorem reads_inside (src : List Byte) (st : Stream) (hf : st.fail = false)
    (hhdr : st.pos + sizeofSectionHeader ≤ src.length)
    (hpre : (sectionHeaderAt src st.pos).offset + 4 ≤ src.length) :
    headerRead src st = sectionHeaderAt src st.pos
      ∧ prefixRead src st = rd32 src (sectionHeaderAt src st.pos).offset
      ∧ inputRead src st = compressedInput src (sectionHeaderAt src st.pos) := by
  have h1 : headerRead src st = sectionHeaderAt src st.pos := by
    rw [headerRead, streamRead_ok src st _ hf hhdr]
    rfl
  have h2 : prefixStream src st
      = (bytesAt src (sectionHeaderAt src st.pos).offset 4,
          { pos := (sectionHeaderAt src st.pos).offset + 4, fail := false }) := by
    rw [prefixStream, h1, streamRead_ok src st _ hf hhdr, seekg_ok _ _ rfl,
      streamRead_ok src _ _ rfl hpre]
  refine ⟨h1, ?_, ?_⟩
  · rw [prefixRead, h2]
    exact rd32_bytesAt_zero src _ 4 (by omega)
  · rw [inputRead, h2, h1]
    rfl

/-- **C15 (amended).** For a section header, as `readSection` reads it, whose type is not
no-bits, with the deflated flag set and a size of at least 4: if `inflateInit` fails,
`readSection` returns false with an empty buffer; otherwise, if `inflate` returns `Z_OK` or
`Z_STREAM_END`, `readSection` returns true and the length of the buffer is the value of the
size prefix that was read; if `inflate` returns any other code, `readSection` returns false
with an empty buffer.  When the header and the prefix are read inside the file by a stream
that has not failed, the prefix is the big-endian value of the four bytes at the section
offset.  And when `readSection` returns false for a section that the loop of `readRpl`
reaches, `readRpl` returns false. -/
theorem readSection_deflated (z : Zlib) (src : List Byte) (st : Stream)
    (hty : (headerRead src st).type ≠ SHT_NOBITS) (hsz : 4 ≤ (headerRead src st).size)
    (hdefl : (headerRead src st).flags &&& SHF_DEFLATED ≠ 0) :
    (z.inflateInit ≠ Z_OK →
      ∃ st' : Stream, readSection z src st
        = some (false, { header := headerRead src st, data := [] }, st'))
    ∧ (z.inflateInit = Z_OK →
        ((z.inflate (inputRead src st) (headerRead src st).size (prefixRead src st)).1 = Z_OK
          ∨ (z.inflate (inputRead src st) (headerRead src st).size (prefixRead src st)).1
            = Z_STREAM_END) →
        ∃ (s : Section) (st' : Stream), readSection z src st = some (true, s, st')
          ∧ s.header = headerRead src st ∧ s.data.length = prefixRead src st)
    ∧ (z.inflateInit = Z_OK →
        (z.inflate (inputRead src st) (headerRead src st).size (prefixRead src st)).1 ≠ Z_OK →
        (z.inflate (inputRead src st) (headerRead src st).size (prefixRead src st)).1
          ≠ Z_STREAM_END →
        ∃ st' : Stream, readSection z src st
          = some (false, { header := headerRead src st, data := [] }, st'))
    ∧ (st.fail = false → st.pos + sizeofSectionHeader ≤ src.length →
        (sectionHeaderAt src st.pos).offset + 4 ≤ src.length →
        headerRead src st = sectionHeaderAt src st.pos
        ∧ prefixRead src st = rd32 src (sectionHeaderAt src st.pos).offset
        ∧ inputRead src st = compressedInput src (sectionHeaderAt src st.pos))
    ∧ ∀ (k : Nat) (secs : List Section) (st0 : Stream) (s : Section) (st' : Stream),
        (loadedHeader src).magic = HeaderMagic → k < (loadedHeader src).shnum →
        readSections z src (loadedHeader src) k 0 (afterHeader src) []
          = some (true, secs, st0) →
        readSection z src (seekg st0 (tableEntry (loadedHeader src) k))
          = some (false, s, st') →
        readRpl z (some src)
          = some (false, { header := loadedHeader src, sections := secs }) := by
  have heq := readSection_deflated_gen z src st hty (by omega) hdefl
  refine ⟨?_, ?_, ?_, reads_inside src st, ?_⟩
  · intro hinit
    rw [heq, if_pos hinit]
    exact ⟨_, rfl⟩
  · intro hinit hret
    rw [heq, if_neg (by simp [hinit]), if_neg (by omega), if_neg (by
      intro hc; rcases hret with h | h
      · exact hc.1 h
      · exact hc.2 h)]
    exact ⟨_, _, rfl, rfl, length_inflatedData _ _⟩
  · intro hinit h1 h2
    rw [heq, if_neg (by simp [hinit]), if_neg (by omega), if_pos ⟨h1, h2⟩]
    exact ⟨_, rfl⟩
  · intro k secs st0 s st' hmagic hk hload hfail
    rw [readRpl_some, if_neg (by simpa using hmagic),
      readSections_fails_at z src (loadedHeader src) k _ hk secs st0 s st' hload hfail]

set_option maxRecDepth 100000 in
/-- Witness of **C15 (amended)**: the deflated text section of `exampleDeflatedSource`, whose
size prefix is 8, is loaded with a buffer of 8 bytes; in `exampleCorruptSource` the
decompressor rejects the stream, `readSection` returns false with an empty buffer and
`readRpl` returns false. -/
theorem readSection_deflated_witness :
    (∃ (s : Section) (st' : Stream),
      readSection exampleZlib exampleDeflatedSource { pos := 92, fail := false }
        = some (true, s, st')
      ∧ s.header = sectionHeaderAt exampleDeflatedSource 92 ∧ s.data.length = 8)
    ∧ (∃ st' : Stream,
        readSection exampleZlib exampleCorruptSource { pos := 92, fail := false }
          = some (false, { header := sectionHeaderAt exampleCorruptSource 92, data := [] },
              st'))
    ∧ readRpl exampleZlib (some exampleCorruptSource)
      = some (false, { header := loadedHeader exampleCorruptSource,
                       sections := [{ header := exampleNullHeader, data := [] }] }) := by
  have h1 := readSection_deflated exampleZlib exampleDeflatedSource { pos := 92, fail := false }
    (by decide) (by decide) (by decide)
  have h2 := readSection_deflated exampleZlib exampleCorruptSource { pos := 92, fail := false }
    (by decide) (by decide) (by decide)
  refine ⟨?_, h2.2.2.1 (by decide) (by decide) (by decide), ?_⟩
  · obtain ⟨s, st', a, b, c⟩ := h1.2.1 (by decide) (by decide)
    exact ⟨s, st', a, b, c.trans (by decide)⟩
  · exact h2.2.2.2.2 1 [{ header := exampleNullHeader, data := [] }]
      { pos := 92, fail := false }
      { header := sectionHeaderAt exampleCorruptSource 92, data := [] }
      { pos := 205, fail := false } (by decide) (by decide) (by decide) (by decide)

/-! ### A deflated section shorter than its size prefix -/

set_option maxRecDepth 100000 in
/-- **C15** fails on `exampleShortSource`: its text section has the deflated flag, a type
other than no-bits and the size 2, which is not zero; `inflateInit` succeeds, the length
`size - 4` of the input buffer wraps around and `readSection` is terminated by the
exception of `resize`: it returns neither true nor false, and neither do `readRpl` and
`main`. -/
theorem readSection_short_size :
    (headerRead exampleShortSource { pos := 92, fail := false }).type ≠ SHT_NOBITS
    ∧ (headerRead exampleShortSource { pos := 92, fail := false }).size = 2
    ∧ (headerRead exampleShortSource { pos := 92, fail := false }).flags &&& SHF_DEFLATED ≠ 0
    ∧ exampleZlib.inflateInit = Z_OK
    ∧ readSection exampleZlib exampleShortSource { pos := 92, fail := false } = none
    ∧ readRpl exampleZlib (some exampleShortSource) = none
    ∧ main exampleZlib (some exampleShortSource) true = none := by
  refine ⟨?_, ?_, ?_, ?_, ?_, ?_, ?_⟩ <;> decide

/-! ### The stages that `main` runs -/

/-- **C19.** `main` runs the stages in the order `readRpl`, `fixFileHeader`, `fixRelocations`,
`relocateImports`, `calculateSectionOffsets`, `writeElf` and stops at the first one that
returns false, with the exit code -1.  When `readRpl` returns false it is the only stage
invoked; when `calculateSectionOffsets` returns false, `writeElf` is not invoked; in both
cases no destination file exists.  When both return true all six stages are invoked, and
the exit code is 0 exactly when the destination file can be opened.  `main` returns a code
unless `readRpl` is terminated.  In every run the stages invoked are an initial part of the
order, every stage but the last one returned true, the code is -1 exactly when some stage
returned false and 0 exactly when all six returned true, and without `writeElf` there is no
destination file. -/
theorem main_stops_at_first_failure (z : Zlib) (src : Option (List Byte)) (dstOpens : Bool) :
    (∀ c : Rpl, readRpl z src = some (false, c) →
      main z src dstOpens
        = some { exitCode := -1, trace := [(Stage.readRpl, false)], dst := none })
    ∧ (∀ c : Rpl, readRpl z src = some (true, c) →
        (calculateSectionOffsets (prePlanned c)).2 = false →
        main z src dstOpens
          = some { exitCode := -1
                   trace := [(Stage.readRpl, true), (Stage.fixFileHeader, true),
                             (Stage.fixRelocations, true), (Stage.relocateImports, true),
                             (Stage.calculateSectionOffsets, false)]
                   dst := none })
    ∧ (∀ c : Rpl, readRpl z src = some (true, c) →
        (calculateSectionOffsets (prePlanned c)).2 = true →
        main z src dstOpens
          = some { exitCode := if dstOpens then 0 else -1
                   trace := [(Stage.readRpl, true), (Stage.fixFileHeader, true),
                             (Stage.fixRelocations, true), (Stage.relocateImports, true),
                             (Stage.calculateSectionOffsets, true),
                             (Stage.writeElf, dstOpens)]
                   dst := (writeElf (transformed c) dstOpens).2 })
    ∧ (main z src dstOpens = none ↔ readRpl z src = none)
    ∧ ∀ r : Run, main z src dstOpens = some r →
        (r.exitCode = 0 ∨ r.exitCode = -1)
        ∧ r.trace.map Prod.fst = stageOrder.take r.trace.length
        ∧ (∀ sf ∈ r.trace.dropLast, sf.2 = true)
        ∧ (r.exitCode = 0 ↔ r.trace.map Prod.fst = stageOrder ∧ ∀ sf ∈ r.trace, sf.2 = true)
        ∧ (r.exitCode = -1 ↔ ∃ sf ∈ r.trace, sf.2 = false)
        ∧ (Stage.writeElf ∉ r.trace.map Prod.fst → r.dst = none)
        ∧ ((Stage.readRpl, false) ∈ r.trace
            ∨ (Stage.calculateSectionOffsets, false) ∈ r.trace →
          Stage.writeElf ∉ r.trace.map Prod.fst ∧ r.dst = none) := by
  have hmain : main z src dstOpens =
      match readRpl z src with
      | none => none
      | some (false, _) =>
        some { exitCode := -1, trace := [(Stage.readRpl, false)], dst := none }
      | some (true, c) =>
        if (calculateSectionOffsets (prePlanned c)).2 = false then
          some { exitCode := -1
                 trace := [(Stage.readRpl, true), (Stage.fixFileHeader, true),
                           (Stage.fixRelocations, true), (Stage.relocateImports, true),
                           (Stage.calculateSectionOffsets, false)]
                 dst := none }
        else
          some { exitCode := if dstOpens then 0 else -1
                 trace := [(Stage.readRpl, true), (Stage.fixFileHeader, true),
                           (Stage.fixRelocations, true), (Stage.relocateImports, true),
                           (Stage.calculateSectionOffsets, true),
                           (Stage.writeElf, dstOpens)]
                 dst := (writeElf (transformed c) dstOpens).2 } := by
    unfold main
    split
    · rfl
    · rfl
    · rename_i c h
      simp only [fixFileHeader_snd, fixRelocations_snd, relocateImports_snd, writeElf_fst,
        Bool.not_true, Bool.false_eq_true, if_false]
      have hp : (calculateSectionOffsets
          (relocateImports (fixRelocations (fixFileHeader c).1).1).1)
          = calculateSectionOffsets (prePlanned c) := rfl
      have ht : (calculateSectionOffsets
          (relocateImports (fixRelocations (fixFileHeader c).1).1).1).1 = transformed c := rfl
      rw [hp] at ht ⊢
      cases hplan : (calculateSectionOffsets (prePlanned c)).2
      · simp
      · cases dstOpens <;> simp [ht]
  refine ⟨?_, ?_, ?_, ?_, ?_⟩
  · intro c hc
    rw [hmain, hc]
  · intro c hc hplan
    rw [hmain, hc]
    simp only [hplan, if_true]
  · intro c hc hplan
    rw [hmain, hc]
    simp only [hplan, Bool.true_eq_false, if_false]
  · rw [hmain]
    split
    · rename_i h; simp [h]
    · rename_i c h; simp [h]
    · rename_i c h
      split <;> simp [h]
  · intro r hr
    rw [hmain] at hr
    split at hr
    · cases hr
    · cases hr
      simp [stageOrder]
    · split at hr
      · cases hr
        simp [stageOrder]
      · cases hr
        cases dstOpens <;> simp [stageOrder]

set_option maxRecDepth 100000 in
/-- Witness of **C19**: when the source file cannot be opened, `readRpl` is the only stage
invoked; when the destination file of `exampleSource` cannot be opened, all six stages are
invoked, the last one returns false, and the code is -1 in both runs. -/
theorem main_stops_at_first_failure_witness :
    main exampleZlib none true
      = some { exitCode := -1, trace := [(Stage.readRpl, false)], dst := none }
    ∧ main exampleZlib (some exampleSource) false
      = some { exitCode := -1
               trace := [(Stage.readRpl, true), (Stage.fixFileHeader, true),
                         (Stage.fixRelocations, true), (Stage.relocateImports, true),
                         (Stage.calculateSectionOffsets, true), (Stage.writeElf, false)]
               dst := none }
    ∧ Stage.writeElf ∉ [(Stage.readRpl, false)].map Prod.fst :=
  ⟨(main_stops_at_first_failure exampleZlib none true).1 _ rfl,
   ((main_stops_at_first_failure exampleZlib (some exampleSource) false).2.2.1 exampleLoaded
      (by decide) (by decide)).trans (by decide),
   (((main_stops_at_first_failure exampleZlib none true).2.2.2.2
      { exitCode := -1, trace := [(Stage.readRpl, false)], dst := none }
      rfl).2.2.2.2.2.2 (Or.inl (by decide))).1⟩

/-! ### What the decompressor is told, and the deflated flag in the output -/

theorem length_inputRead (src : List Byte) (st : Stream) :
    (inputRead src st).length = (headerRead src st).size - 4 :=
  length_streamRead _ _ _

set_option maxRecDepth 100000 in
/-- **C22** fails on the deflated text section of `exampleDeflatedSource`, whose header size is
13: `readSection` reads the 9 bytes that follow the size prefix into `temp`, and declares
`avail_in = 13`, the header size, to the decompressor; `exampleProbeZlib` returns the two
numbers it was given, 13 and 9, as the inflated bytes. -/
theorem readSection_declares_header_size :
    (headerRead exampleDeflatedSource { pos := 92, fail := false }).size = 13
    ∧ (headerRead exampleDeflatedSource { pos := 92, fail := false }).offset = 192
    ∧ inputRead exampleDeflatedSource { pos := 92, fail := false }
      = bytesAt exampleDeflatedSource (192 + 4) (13 - 4)
    ∧ (inputRead exampleDeflatedSource { pos := 92, fail := false }).length = 9
    ∧ readSection exampleProbeZlib exampleDeflatedSource { pos := 92, fail := false }
      = some (true,
          { header := headerRead exampleDeflatedSource { pos := 92, fail := false }
            data := [0, 0, 0, 13, 0, 0, 0, 9] },
          { pos := 205, fail := false }) := by
  refine ⟨?_, ?_, ?_, ?_, ?_⟩ <;> decide

set_option maxRecDepth 100000 in
/-- **C30** fails on `exampleDeflatedSource`: the container handed to the writer holds the 8
inflated bytes of the text section under a header whose size is 8, the inflated length, and
whose flags still have the deflated bit.  Only a relocation section loses the bit, with all
its flags, in `fixRelocations`. -/
theorem transformed_keeps_deflated_flag :
    readRpl exampleZlib (some exampleDeflatedSource) = some (true, exampleDeflatedLoaded)
    ∧ (main exampleZlib (some exampleDeflatedSource) true).map (fun r => (r.exitCode, r.dst))
      = some (0, (writeElf (transformed exampleDeflatedLoaded) true).2)
    ∧ (transformed exampleDeflatedLoaded).sections[1]?
      = some { header := { name := 1, type := 1,
                           flags := SHF_DEFLATED ||| SHF_EXECINSTR ||| SHF_ALLOC,
                           addr := 0x02000000, offset := 180, size := 8, link := 0, info := 0,
                           addralign := 32, entsize := 0 }
               data := [0, 0, 0, 4, 1, 2, 3, 4] }
    ∧ (SHF_DEFLATED ||| SHF_EXECINSTR ||| SHF_ALLOC) &&& SHF_DEFLATED ≠ 0
    ∧ (fixSection exampleDeflatedRela).header.flags = 0 := by
  refine ⟨?_, ?_, ?_, ?_, ?_⟩ <;> decide

/-! ### A second application of the relocation fixer -/

theorem Rela.wf_zeroRela : zeroRela.wf := by
  simp [Rela.wf, zeroRela]

theorem mergeScan_wf (wi wa wo : Nat) (m : Rela) (hm : m.wf) (rels : List Rela)
    (h : ∀ r ∈ rels, r.wf) :
    (∀ r ∈ (mergeScan wi wa wo m rels).1, r.wf) ∧ ∀ r ∈ (mergeScan wi wa wo m rels).2, r.wf := by
  refine ⟨?_, fun r hr => by rw [mergeScan_emitted _ _ _ _ _ r hr]; exact hm⟩
  induction rels with
  | nil => intro r hr; simp [mergeScan] at hr
  | cons a rest ih =>
    have ha := h a (List.mem_cons_self _ _)
    have ih' := ih (fun r hr => h r (List.mem_cons_of_mem _ hr))
    intro r hr
    simp only [mergeScan] at hr
    split at hr
    · rcases List.mem_cons.1 hr with h1 | h1
      · rw [h1]; exact ha
      · exact ih' r h1
    · split at hr
      · rcases List.mem_cons.1 hr with h1 | h1
        · rw [h1]; exact ha
        · exact ih' r h1
      · split at hr
        · rcases List.mem_cons.1 hr with h1 | h1
          · rw [h1]; exact ha
          · exact ih' r h1
        · rcases List.mem_cons.1 hr with h1 | h1
          · rw [h1]; exact Rela.wf_zeroRela
          · exact ih' r h1

theorem getD_wf (rels : List Rela) (h : ∀ r ∈ rels, r.wf) (i : Nat) :
    (rels.getD i zeroRela).wf := by
  rw [List.getD_eq_getElem?_getD]
  cases hi : rels[i]? with
  | none => exact Rela.wf_zeroRela
  | some r => exact h r (List.getElem?_mem hi)

theorem or_kind_lt (x k : Nat) (hk : k < 256) : (x <<< 8) % 2 ^ 32 ||| k < 2 ^ 32 :=
  Nat.or_lt_two_pow (Nat.mod_lt _ (by decide)) (by omega)

theorem fixStep_wf (st : List Rela × List Rela) (i : Nat)
    (h1 : ∀ r ∈ st.1, r.wf) (h2 : ∀ r ∈ st.2, r.wf) :
    (∀ r ∈ (fixStep st i).1, r.wf) ∧ ∀ r ∈ (fixStep st i).2, r.wf := by
  obtain ⟨rels, out⟩ := st
  have hg := getD_wf rels h1 i
  have hmem : ∀ (extra : List Rela), (∀ r ∈ extra, r.wf) → ∀ r ∈ out ++ extra, r.wf := by
    intro extra he r hr
    rcases List.mem_append.1 hr with h | h
    · exact h2 r h
    · exact he r h
  unfold fixStep
  simp only
  split
  · exact ⟨h1, h2⟩
  · split
    · refine ⟨h1, hmem _ ?_⟩
      intro r hr
      rw [List.mem_singleton.1 hr]
      exact hg
    · split
      · have hm := mergeScan_wf
          (((rels.getD i zeroRela).info >>> 8 <<< 8) % 2 ^ 32 ||| R_PPC_GHS_REL16_LO)
          (((rels.getD i zeroRela).addend + 2) % 2 ^ 32)
          (((rels.getD i zeroRela).offset + 2) % 2 ^ 32)
          { offset := (rels.getD i zeroRela).offset
            info := ((rels.getD i zeroRela).info >>> 8 <<< 8) % 2 ^ 32 ||| R_PPC_REL32
            addend := (rels.getD i zeroRela).addend }
          ⟨hg.1, or_kind_lt _ _ (by decide), hg.2.2⟩ rels h1
        exact ⟨hm.1, hmem _ hm.2⟩
      · split
        · have hm := mergeScan_wf
            (((rels.getD i zeroRela).info >>> 8 <<< 8) % 2 ^ 32 ||| R_PPC_GHS_REL16_HI)
            (((rels.getD i zeroRela).addend + 2 ^ 32 - 2) % 2 ^ 32)
            (((rels.getD i zeroRela).offset + 2 ^ 32 - 2) % 2 ^ 32)
            { offset := ((rels.getD i zeroRela).offset + 2 ^ 32 - 2) % 2 ^ 32
              info := ((rels.getD i zeroRela).info >>> 8 <<< 8) % 2 ^ 32 ||| R_PPC_REL32
              addend := ((rels.getD i zeroRela).addend + 2 ^ 32 - 2) % 2 ^ 32 }
            ⟨Nat.mod_lt _ (by decide), or_kind_lt _ _ (by decide), Nat.mod_lt _ (by decide)⟩
            rels h1
          exact ⟨hm.1, hmem _ hm.2⟩
        · exact ⟨h1, h2⟩

theorem fold_wf (idx : List Nat) :
    ∀ st : List Rela × List Rela, (∀ r ∈ st.1, r.wf) → (∀ r ∈ st.2, r.wf) →
      ∀ r ∈ (idx.foldl fixStep st).2, r.wf := by
  induction idx with
  | nil => intro st _ h2; exact h2
  | cons i rest ih =>
    intro st h1 h2
    rw [List.foldl_cons]
    exact ih _ (fixStep_wf st i h1 h2).1 (fixStep_wf st i h1 h2).2

theorem fixRels_wf (rels : List Rela) (h : ∀ r ∈ rels, r.wf) : ∀ r ∈ fixRels rels, r.wf :=
  fold_wf _ (rels, []) h (fun r hr => by cases hr)

theorem isPartner_of_emittedOk (r l : Rela) (h : emittedOk r) : isPartner r l = false := by
  have hk : r.kind ≠ R_PPC_GHS_REL16_HI ∧ r.kind ≠ R_PPC_GHS_REL16_LO := by
    rcases h with ⟨hw, _⟩ | h
    · constructor <;> (intro hc; rw [hc] at hw; revert hw; decide)
    · rw [h]; decide
  simp [isPartner, hk.1, hk.2]

theorem fixRels_fixRels (rels : List Rela) (h : ∀ r ∈ rels, r.wf) :
    fixRels (readRelas (relasBytes (fixRels rels)))
      = (fixRels rels).filter (fun r => isWhitelisted r.kind) := by
  have hwf := fixRels_wf rels h
  have hok := fixRels_emittedOk rels
  have hread : readRelas (relasBytes (fixRels rels)) = fixRels rels := by
    rw [readRelas_relasBytes]
    conv_rhs => rw [← List.map_id (fixRels rels)]
    apply List.map_congr_left
    intro r hr
    exact wrapRela_of_wf r (hwf r hr)
  rw [hread, fixRels_unmatched _ (fun r hr l _ => isPartner_of_emittedOk r l (hok r hr))]
  apply List.filter_congr
  intro r hr
  rcases hok r hr with ⟨hw, hnz⟩ | hk
  · simp [hw, hnz]
  · simp [kind_rel32_not_whitelisted r hk]

theorem fixSection_fixSection (s : Section) (h : s.header.type = SHT_RELA) :
    fixSection (fixSection s)
      = { header := { s.header with flags := 0 }
          data := relasBytes
            ((fixRels (readRelas s.data)).filter (fun r => isWhitelisted r.kind)) } := by
  have h2 : (fixSection s).header.type = SHT_RELA := by rw [fixSection_type]; exact h
  rw [fixSection_rela (fixSection s) h2, fixSection_rela s h]
  simp only
  rw [fixRels_fixRels _ (readRelas_wf s.data)]

theorem filter_whitelisted_emitted (out : List Rela) (hok : ∀ r ∈ out, emittedOk r)
    (h : ∀ r ∈ out, r.kind ≠ R_PPC_REL32) :
    out.filter (fun r => isWhitelisted r.kind) = out := by
  rw [List.filter_eq_self]
  intro r hr
  rcases hok r hr with ⟨hw, _⟩ | hk
  · exact hw
  · exact absurd hk (h r hr)

/-- **C27 (amended).** A second application of `fixRelocations` keeps the header of the
container, every section that is not a relocation section, and the header of every
relocation section (its flags stay 0); the buffer of a relocation section keeps, in order,
the entries of whitelisted kind that the first application emitted and loses every merged
`R_PPC_REL32` entry.  So the second application changes nothing in a relocation section for
which the first one emitted no merged entry. -/
theorem fixRelocations_twice (file : Rpl) :
    (fixRelocations (fixRelocations file).1).1.header = (fixRelocations file).1.header
    ∧ ∀ (i : Nat) (s : Section), file.sections[i]? = some s →
        ∃ s1 s2 : Section, (fixRelocations file).1.sections[i]? = some s1
          ∧ (fixRelocations (fixRelocations file).1).1.sections[i]? = some s2
          ∧ s2.header = s1.header
          ∧ (s.header.type ≠ SHT_RELA → s2 = s1)
          ∧ (s.header.type = SHT_RELA →
              s1.data = relasBytes (fixRels (readRelas s.data))
              ∧ s2.data = relasBytes
                  ((fixRels (readRelas s.data)).filter (fun r => isWhitelisted r.kind))
              ∧ ((∀ r ∈ fixRels (readRelas s.data), r.kind ≠ R_PPC_REL32) → s2 = s1)) := by
  refine ⟨rfl, ?_⟩
  intro i s hs
  refine ⟨fixSection s, fixSection (fixSection s),
    by simp [fixRelocations, List.getElem?_map, hs],
    by simp [fixRelocations, List.getElem?_map, hs], ?_, ?_, ?_⟩
  · by_cases h : s.header.type = SHT_RELA
    · rw [fixSection_fixSection s h, fixSection_rela s h]
    · rw [fixSection_other s h, fixSection_other s h]
  · intro h
    rw [fixSection_other s h, fixSection_other s h]
  · intro h
    refine ⟨by rw [fixSection_rela s h], by rw [fixSection_fixSection s h], ?_⟩
    intro hno
    rw [fixSection_fixSection s h, fixSection_rela s h,
      filter_whitelisted_emitted _ (fixRels_emittedOk _) hno]

set_option maxRecDepth 100000 in
/-- Witness of **C27 (amended)**: in `exampleRelaFile` the second application leaves the
relocation section as the first one made it. -/
theorem fixRelocations_twice_witness :
    ∃ s1 s2 : Section, (fixRelocations exampleRelaFile).1.sections[1]? = some s1
      ∧ (fixRelocations (fixRelocations exampleRelaFile).1).1.sections[1]? = some s2
      ∧ s2 = s1 := by
  obtain ⟨s1, s2, h1, h2, _, _, h3⟩ := (fixRelocations_twice exampleRelaFile).2 1
    exampleRelaSection (by decide)
  exact ⟨s1, s2, h1, h2, (h3 (by decide)).2.2 (by decide)⟩

set_option maxRecDepth 100000 in
/-- **C27** fails on `examplePairSection`: the first application merges the pair into one
`R_PPC_REL32` entry, and the second one, whose `switch` has no case for this kind, drops the
entry and leaves an empty buffer. -/
theorem fixRelocations_drops_merged :
    (fixSection examplePairSection).data
      = relasBytes [{ offset := 100, info := packInfo 5 R_PPC_REL32, addend := 7 }]
    ∧ (fixSection (fixSection examplePairSection)).data = []
    ∧ (fixRelocations (fixRelocations
          { header := exampleRelaFile.header, sections := [examplePairSection] }).1).1
      ≠ (fixRelocations
          { header := exampleRelaFile.header, sections := [examplePairSection] }).1 := by
  refine ⟨?_, ?_, ?_⟩ <;> decide

/-! ### Relocating a section to the address it has -/

theorem ext_getD (l l' : List Byte) (hlen : l.length = l'.length)
    (h : ∀ p, l.getD p 0 = l'.getD p 0) : l = l' := by
  apply List.ext_getElem? 
  intro p
  have hp := h p
  rw [List.getD_eq_getElem?_getD, List.getD_eq_getElem?_getD] at hp
  by_cases hlt : p < l.length
  · rw [List.getElem?_eq_getElem hlt, List.getElem?_eq_getElem (hlen ▸ hlt)] at hp ⊢
    simpa using hp
  · rw [List.getElem?_eq_none (by omega), List.getElem?_eq_none (by omega)]

theorem wr32_rd32_self (d : List Byte) (p : Nat) : wr32 d p (rd32 d p) = d := by
  apply ext_getD _ _ (length_wr32 d p _)
  intro q
  rw [getD_wr32]
  have h0 := (d.getD p 0).isLt
  have h1 := (d.getD (p + 1) 0).isLt
  have h2 := (d.getD (p + 2) 0).isLt
  have h3 := (d.getD (p + 3) 0).isLt
  split
  · split
    · rename_i hq; subst hq
      apply Fin.ext
      rw [val_ofNat]; unfold rd32; omega
    · split
      · rename_i hq; subst hq
        apply Fin.ext
        rw [val_ofNat]; unfold rd32; omega
      · split
        · rename_i hq; subst hq
          apply Fin.ext
          rw [val_ofNat]; unfold rd32; omega
        · split
          · rename_i hq; subst hq
            apply Fin.ext
            rw [val_ofNat]; unfold rd32; omega
          · rfl
  · rfl

theorem back_to_self (v a : Nat) (hv : v < 2 ^ 32) (ha : a ≤ v) : (v - a + a) % 2 ^ 32 = v := by
  rw [Nat.sub_add_cancel ha]
  exact Nat.mod_eq_of_lt hv

theorem relocateSymbolStep_self (a e : Nat) (d : List Byte) (i : Nat) :
    relocateSymbolStep a e a d i = d := by
  rw [relocateSymbolStep_eq]
  split
  · rename_i h
    rw [back_to_self (symValue d i) a (rd32_lt _ _) h.2.1]
    exact wr32_rd32_self d _
  · rfl

theorem relocateRelaStep_self (a e : Nat) (d : List Byte) (i : Nat) :
    relocateRelaStep a e a d i = d := by
  unfold relocateRelaStep
  simp only
  split
  · rename_i h
    rw [back_to_self (readRela d i).offset a (rd32_lt _ _) h.1]
    exact wr32_rd32_self d _
  · rfl

theorem foldl_self (step : List Byte → Nat → List Byte) (d : List Byte)
    (h : ∀ i, step d i = d) : ∀ idx : List Nat, idx.foldl step d = d := by
  intro idx
  induction idx with
  | nil => rfl
  | cons i rest ih => rw [List.foldl_cons, h i, ih]

theorem relocatedData_self (a e sectionIndex : Nat) (s : Section) :
    relocatedData a e a sectionIndex s = s.data := by
  unfold relocatedData relocateSymbols relocateRelas
  split
  · exact foldl_self _ _ (relocateSymbolStep_self a e s.data) _
  · split
    · exact foldl_self _ _ (relocateRelaStep_self a e s.data) _
    · rfl

/-- **C28.** `relocateSection` with the new address equal to the address that the section has
returns the container unchanged, with every section header, every symbol value and every
relocation offset as before, and returns true. -/
theorem relocateSection_same_address (file : Rpl) (sec sectionIndex : Nat) (sect : Section)
    (hsec : file.sections[sec]? = some sect) :
    relocateSection file sec sectionIndex sect.header.addr = (file, true) := by
  have hs : (relocateSection file sec sectionIndex sect.header.addr).1.sections
      = file.sections := by
    apply List.ext_getElem?
    intro k
    rw [relocateSection_getElem? file sec sectionIndex _ sect hsec k]
    cases hk : file.sections[k]? with
    | none => rfl
    | some s =>
      simp only [Option.map_some', Option.some.injEq]
      rw [relocatedData_self]
      by_cases hks : k = sec
      · subst hks
        rw [hsec] at hk
        cases hk
        simp
      · simp [hks]
  have hh := relocateSection_header file sec sectionIndex sect.header.addr
  have h2 : (relocateSection file sec sectionIndex sect.header.addr).2 = true := by
    unfold relocateSection
    split <;> rfl
  have h1 : (relocateSection file sec sectionIndex sect.header.addr).1 = file := by
    cases hr : (relocateSection file sec sectionIndex sect.header.addr).1 with
    | mk h ss =>
      rw [hr] at hs hh
      simp only at hs hh
      subst hs hh
      rfl
  exact Prod.ext h1 h2

set_option maxRecDepth 100000 in
/-- Witness of **C28**: relocating the second section of `exampleRelocFile` to its own address
leaves the container as it is. -/
theorem relocateSection_same_address_witness :
    ∃ sect : Section, exampleRelocFile.sections[1]? = some sect
      ∧ relocateSection exampleRelocFile 1 1 sect.header.addr = (exampleRelocFile, true) := by
  cases h : exampleRelocFile.sections[1]? with
  | none => exact absurd h (by decide)
  | some sect => exact ⟨sect, rfl, relocateSection_same_address exampleRelocFile 1 1 sect h⟩

/-! ### The number of entries that the fixer emits -/

theorem mergeScan_fst_map (wi wa wo : Nat) (m : Rela) (rels : List Rela) :
    (mergeScan wi wa wo m rels).1
      = rels.map (fun r => if r.info = wi ∧ r.addend = wa ∧ r.offset = wo then zeroRela else r) := by
  induction rels with
  | nil => rfl
  | cons a rest ih =>
    simp only [mergeScan, List.map_cons]
    by_cases h1 : a.info = wi
    · by_cases h2 : a.addend = wa
      · by_cases h3 : a.offset = wo
        · simp [h1, h2, h3, ih]
        · simp [h1, h2, h3, ih]
      · simp [h1, h2, ih]
    · simp [h1, ih]

theorem nonZero_of_info (wi : Nat) (r : Rela) (hwi : isWhitelisted (wi &&& 0xFF) = false)
    (h : r.info = wi) : r.nonZero = true ∧ isWhitelisted r.kind = false := by
  have hk : isWhitelisted r.kind = false := by rw [Rela.kind, h]; exact hwi
  refine ⟨?_, hk⟩
  apply nonZero_of_not_zero
  intro hz
  rw [Rela.kind, hz.1] at hk
  revert hk
  decide

theorem mergeScan_cons_match (wi wa wo : Nat) (m a : Rela) (rest : List Rela)
    (h : a.info = wi ∧ a.addend = wa ∧ a.offset = wo) :
    mergeScan wi wa wo m (a :: rest)
      = (zeroRela :: (mergeScan wi wa wo m rest).1, m :: (mergeScan wi wa wo m rest).2) := by
  simp only [mergeScan]
  rw [if_neg (by simp [h.1]), if_neg (by simp [h.2.1]), if_neg (by simp [h.2.2])]

theorem mergeScan_cons_other (wi wa wo : Nat) (m a : Rela) (rest : List Rela)
    (h : ¬ (a.info = wi ∧ a.addend = wa ∧ a.offset = wo)) :
    mergeScan wi wa wo m (a :: rest)
      = (a :: (mergeScan wi wa wo m rest).1, (mergeScan wi wa wo m rest).2) := by
  simp only [mergeScan]
  by_cases h1 : a.info = wi
  · by_cases h2 : a.addend = wa
    · by_cases h3 : a.offset = wo
      · exact absurd ⟨h1, h2, h3⟩ h
      · rw [if_neg (by simp [h1]), if_neg (by simp [h2]), if_pos h3]
    · rw [if_neg (by simp [h1]), if_pos h2]
  · rw [if_pos h1]

theorem mergeScan_count (wi wa wo : Nat) (m : Rela) (hwi : isWhitelisted (wi &&& 0xFF) = false)
    (rels : List Rela) :
    (mergeScan wi wa wo m rels).2.length
        + ((mergeScan wi wa wo m rels).1.filter
            liveEntry).length
      = (rels.filter liveEntry).length := by
  induction rels with
  | nil => rfl
  | cons a rest ih =>
    by_cases h : a.info = wi ∧ a.addend = wa ∧ a.offset = wo
    · obtain ⟨hnz, hk⟩ := nonZero_of_info wi a hwi h.1
      have hz : liveEntry zeroRela = false := by decide
      have ha : liveEntry a = true := by unfold liveEntry; rw [hnz, hk]; rfl
      rw [mergeScan_cons_match wi wa wo m a rest h]
      simp only [List.length_cons]
      rw [List.filter_cons_of_neg (by rw [hz]; exact Bool.false_ne_true),
        List.filter_cons_of_pos ha, List.length_cons]
      omega
    · rw [mergeScan_cons_other wi wa wo m a rest h]
      simp only
      by_cases ha : liveEntry a = true
      · rw [List.filter_cons_of_pos ha, List.filter_cons_of_pos ha, List.length_cons,
          List.length_cons]
        omega
      · rw [List.filter_cons_of_neg ha, List.filter_cons_of_neg ha]
        exact ih

theorem mergeScan_pending (wi wa wo : Nat) (m : Rela)
    (hwi : isWhitelisted (wi &&& 0xFF) = false) (rels : List Rela) (k : Nat) :
    (((mergeScan wi wa wo m rels).1.drop k).filter
        pendingEntry).length
      = ((rels.drop k).filter pendingEntry).length := by
  rw [mergeScan_fst_map, ← List.map_drop, List.filter_map, List.length_map]
  congr 1
  apply List.filter_congr
  intro r _
  simp only [Function.comp_apply]
  split
  · rename_i h
    obtain ⟨_, hk⟩ := nonZero_of_info wi r hwi h.1
    unfold pendingEntry
    rw [hk, Rela.nonZero_zeroRela]
    simp
  · rfl

theorem drop_getD (rels : List Rela) (i : Nat) (hi : i < rels.length) :
    rels.drop i = rels.getD i zeroRela :: rels.drop (i + 1) := by
  rw [List.drop_eq_getElem_cons hi, List.getD_eq_getElem?_getD, List.getElem?_eq_getElem hi]
  rfl

theorem fixStep_count (rels out : List Rela) (i : Nat) (hi : i < rels.length) :
    (fixStep (rels, out) i).1.length = rels.length
    ∧ (fixStep (rels, out) i).2.length
        + (((fixStep (rels, out) i).1.drop (i + 1)).filter
            pendingEntry).length
        + ((fixStep (rels, out) i).1.filter
            liveEntry).length
      = out.length + ((rels.drop i).filter pendingEntry).length
        + (rels.filter liveEntry).length := by
  have hd := drop_getD rels i hi
  rcases fixStep_cases rels out i with ⟨h1, h2⟩ | ⟨hw, hnz, h1⟩ | ⟨hk, wi, wa, wo, m, hwi, _, h1⟩
  · rw [h1]
    refine ⟨rfl, ?_⟩
    simp only
    rw [hd, List.filter_cons]
    have : pendingEntry (rels.getD i zeroRela) = false := by
      unfold pendingEntry
      rcases h2 with h | h
      · rw [h]; rfl
      · rw [h]; exact Bool.and_false _
    rw [if_neg (by rw [this]; exact Bool.false_ne_true)]
  · rw [h1]
    refine ⟨rfl, ?_⟩
    simp only
    rw [hd, List.filter_cons]
    have : pendingEntry (rels.getD i zeroRela) = true := by
      unfold pendingEntry; rw [hw, hnz]; rfl
    rw [if_pos this]
    simp only [List.length_append, List.length_cons, List.length_nil]
    omega
  · rw [h1]
    refine ⟨mergeScan_length _ _ _ _ _, ?_⟩
    simp only
    have hc := mergeScan_count wi wa wo m hwi rels
    have hp := mergeScan_pending wi wa wo m hwi rels (i + 1)
    have : pendingEntry (rels.getD i zeroRela) = false := by
      unfold pendingEntry; rw [hk]; exact Bool.and_false _
    rw [hp, List.length_append, hd, List.filter_cons,
      if_neg (by rw [this]; exact Bool.false_ne_true)]
    omega

theorem fold_count (orig : List Rela) : ∀ k, k ≤ orig.length →
    ((List.range k).foldl fixStep (orig, [])).1.length = orig.length
    ∧ ((List.range k).foldl fixStep (orig, [])).2.length
        + ((((List.range k).foldl fixStep (orig, [])).1.drop k).filter
            pendingEntry).length
        + (((List.range k).foldl fixStep (orig, [])).1.filter
            liveEntry).length
      = (orig.filter pendingEntry).length
        + (orig.filter liveEntry).length := by
  intro k
  induction k with
  | zero => intro _; simp
  | succ n ih =>
    intro hk
    obtain ⟨hlen, hcount⟩ := ih (by omega)
    rw [List.range_succ, List.foldl_append, List.foldl_cons, List.foldl_nil]
    have hstep := fixStep_count ((List.range n).foldl fixStep (orig, [])).1
      ((List.range n).foldl fixStep (orig, [])).2 n (by omega)
    simp only [Prod.mk.eta] at hstep
    exact ⟨hstep.1.trans hlen, hstep.2.trans hcount⟩

theorem filter_two_le (p q : Rela → Bool) (hpq : ∀ r, p r = true → q r = false)
    (l : List Rela) : (l.filter p).length + (l.filter q).length ≤ l.length := by
  induction l with
  | nil => simp
  | cons a rest ih =>
    by_cases hp : p a = true
    · rw [List.filter_cons_of_pos hp,
        List.filter_cons_of_neg (by rw [hpq a hp]; exact Bool.false_ne_true)]
      simp only [List.length_cons]
      omega
    · rw [List.filter_cons_of_neg hp]
      by_cases hq : q a = true
      · rw [List.filter_cons_of_pos hq]
        simp only [List.length_cons]
        omega
      · rw [List.filter_cons_of_neg hq]
        simp only [List.length_cons]
        omega

theorem fixRels_length_le (rels : List Rela) : (fixRels rels).length ≤ rels.length := by
  have h := (fold_count rels rels.length (Nat.le_refl _)).2
  have h2 := filter_two_le pendingEntry liveEntry
    (fun r hr => by
      have : isWhitelisted r.kind = true := by
        simp only [pendingEntry, Bool.and_eq_true] at hr; exact hr.2
      simp [liveEntry, this]) rels
  unfold fixRels
  omega

theorem length_relasBytes (rs : List Rela) : (relasBytes rs).length = sizeofRela * rs.length := by
  induction rs with
  | nil => rfl
  | cons r rest ih =>
    have : relasBytes (r :: rest) = relaBytes r ++ relasBytes rest := by
      simp [relasBytes]
    rw [this, List.length_append, ih, length_relaBytes, List.length_cons]
    simp only [sizeofRela]
    omega

theorem length_readRelas (d : List Byte) : (readRelas d).length = numRelas d := by
  simp [readRelas, numRelas]

/-- **C21.** For every relocation section, the buffer that `fixRelocations` leaves holds
exactly the emitted entries: its length is the entry size times their number; and this
number is at most the number of entries of the original buffer, the integer quotient of its
length by the entry size. -/
theorem fixRelocations_entry_count (file : Rpl) (i : Nat) (s : Section)
    (hs : file.sections[i]? = some s) (hty : s.header.type = SHT_RELA) :
    ∃ s' : Section, (fixRelocations file).1.sections[i]? = some s'
      ∧ s'.data.length = sizeofRela * (fixRels (readRelas s.data)).length
      ∧ numRelas s'.data = (fixRels (readRelas s.data)).length
      ∧ numRelas s'.data ≤ numRelas s.data
      ∧ numRelas s.data = s.data.length / sizeofRela := by
  refine ⟨fixSection s, by simp [fixRelocations, List.getElem?_map, hs], ?_, ?_, ?_, rfl⟩
  · rw [fixSection_rela s hty]
    exact length_relasBytes _
  · rw [fixSection_rela s hty]
    simp only [numRelas, length_relasBytes, sizeofRela]
    omega
  · rw [fixSection_rela s hty]
    have h := fixRels_length_le (readRelas s.data)
    rw [length_readRelas] at h
    simp only [numRelas, length_relasBytes, sizeofRela] at h ⊢
    omega

set_option maxRecDepth 100000 in
/-- Witness of **C21**: the relocation section of `exampleRelaFile`. -/
theorem fixRelocations_entry_count_witness :
    ∃ s' : Section, (fixRelocations exampleRelaFile).1.sections[1]? = some s'
      ∧ numRelas s'.data ≤ numRelas exampleRelaSection.data := by
  obtain ⟨s', h1, _, _, h4, _⟩ := fixRelocations_entry_count exampleRelaFile 1
    exampleRelaSection (by decide) (by decide)
  exact ⟨s', h1, h4⟩

/-! ### The placed sections follow one another -/

theorem calculateSectionOffsets_data (file : Rpl) :
    (calculateSectionOffsets file).1.sections.map (fun s => s.data)
      = (file.sections.map clearNoData).map (fun s => s.data) := by
  apply List.ext_getElem?
  intro j
  rw [List.getElem?_map, List.getElem?_map, List.getElem?_map]
  cases hj : file.sections[j]? with
  | none =>
    have : (calculateSectionOffsets file).1.sections[j]? = none := by
      rw [calculateSectionOffsets_getElem?, hj]; rfl
    rw [this]; rfl
  | some s =>
    rw [calculateSectionOffsets_section file j s hj]
    simp only [Option.map_some', plannedSection_data]

/-- **C23.** A section at index `i` that placement loop `k` assigns gets the offset: start of
the layout, plus the buffer lengths of the sections assigned by earlier loops, plus the
buffer lengths of the sections assigned by loop `k` at earlier indices, modulo 2^32; its
header size is the length of its own buffer modulo 2^32.  The buffers are the ones left by
the first loop, which the placement loops do not change. -/
theorem calculateSectionOffsets_contiguous (file : Rpl) (i k : Nat)
    (h : assignedBy file k i) :
    ∃ s s' : Section, file.sections[i]? = some s ∧ category s = some k
      ∧ (calculateSectionOffsets file).1.sections[i]? = some s'
      ∧ s'.data = (clearNoData s).data
      ∧ s'.header.size = s'.data.length % 2 ^ 32
      ∧ s'.header.offset
          = (layoutStart file
              + sumLen ((file.sections.map clearNoData).filter (beforeCategory k))
              + sumLen (((file.sections.map clearNoData).take i).filter (inCategory k)))
            % 2 ^ 32
      ∧ (calculateSectionOffsets file).1.sections.map (fun s => s.data)
          = (file.sections.map clearNoData).map (fun s => s.data) := by
  obtain ⟨s, hs, hcat⟩ := (assignedBy_iff file k i).1 h
  refine ⟨s, plannedSection file i s, hs, hcat, calculateSectionOffsets_section file i s hs,
    plannedSection_data file i s, ?_, ?_, calculateSectionOffsets_data file⟩
  · unfold plannedSection
    rw [hcat]
    rfl
  · rw [plannedSection_offset file i k s hcat]
    rfl

set_option maxRecDepth 100000 in
/-- Witness of **C23**: in `exampleLayoutFile` the text loop (loop 5) assigns the section at
index 1, after the data loop has placed the 8 bytes of the section at index 2 at the start
`192` of the layout: it gets the offset `192 + 8` and the size 16. -/
theorem calculateSectionOffsets_contiguous_witness :
    assignedBy exampleLayoutFile 5 1
    ∧ ∃ s' : Section, (calculateSectionOffsets exampleLayoutFile).1.sections[1]? = some s'
        ∧ s'.header.offset = 200 ∧ s'.header.size = 16 := by
  have ha : assignedBy exampleLayoutFile 5 1 :=
    (assignedBy_iff exampleLayoutFile 5 1).2 (by decide)
  obtain ⟨s, s', _, _, h3, h4, h5, h6, _⟩ :=
    calculateSectionOffsets_contiguous exampleLayoutFile 1 5 ha
  refine ⟨ha, s', h3, h6.trans (by decide), ?_⟩
  rw [h5]
  have hd : (calculateSectionOffsets exampleLayoutFile).1.sections[1]?.map (fun t => t.data.length)
      = some 16 := by decide
  rw [h3] at hd
  simp only [Option.map_some', Option.some.injEq] at hd
  rw [hd]
  decide

/-! ### The loop of `relocateImports` in closed form -/

theorem relocatedData_plain (a e n x : Nat) (s : Section)
    (h1 : s.header.type ≠ SHT_SYMTAB) (h2 : s.header.type ≠ SHT_RELA) :
    relocatedData a e n x s = s.data := by
  unfold relocatedData
  rw [if_neg h1, if_neg (fun h => h2 h.1)]

theorem relocateImportsStep_skip (st : Rpl × Nat) (i : Nat)
    (h : ∀ s, st.1.sections[i]? = some s → s.header.type ≠ SHT_RPL_IMPORTS) :
    relocateImportsStep st i = st := by
  unfold relocateImportsStep
  simp only
  split
  · rfl
  · rename_i sect hsect
    rw [if_neg (h sect hsect)]

theorem relocateImportsStep_imports (st : Rpl × Nat) (i : Nat) (sect : Section)
    (hs : st.1.sections[i]? = some sect) (ht : sect.header.type = SHT_RPL_IMPORTS) :
    (relocateImportsStep st i).2 = (st.2 + sect.data.length) % 2 ^ 32
    ∧ (relocateImportsStep st i).1.header = st.1.header
    ∧ ∀ j, (relocateImportsStep st i).1.sections[j]? = st.1.sections[j]?.map (fun s : Section =>
        ({ header := if j = i then
            { s.header with addr := align_up st.2 sect.header.addralign % 2 ^ 32,
                            flags := s.header.flags ||| SHF_ALLOC }
          else s.header
           data := relocatedData sect.header.addr (sect.header.addr + sectionSizeOf sect)
            (align_up st.2 sect.header.addralign % 2 ^ 32) i s } : Section)) := by
  have hget := relocateSection_getElem? st.1 i i
    (align_up st.2 sect.header.addralign % 2 ^ 32) sect hs
  have hi := hget i
  rw [hs, Option.map_some'] at hi
  have hplain : relocatedData sect.header.addr (sect.header.addr + sectionSizeOf sect)
      (align_up st.2 sect.header.addralign % 2 ^ 32) i sect = sect.data :=
    relocatedData_plain _ _ _ _ _ (by rw [ht]; decide) (by rw [ht]; decide)
  unfold relocateImportsStep
  simp only [hs, ht, if_true, hi, hplain]
  refine ⟨trivial, relocateSection_header _ _ _ _, ?_⟩
  intro j
  by_cases hj : j = i
  · subst hj
    rw [List.getElem?_set_self (by
      rw [relocateSection_length]
      exact (List.getElem?_eq_some_iff.1 hs).1), hs]
    simp
    exact ⟨ht.symm, (relocatedData_plain _ _ _ _ _ (by rw [ht]; decide) (by rw [ht]; decide)).symm⟩
  · rw [List.getElem?_set_ne (fun h => hj h.symm), hget j]
    simp [hj]

theorem importsData_plain (file : Rpl) (s : Section)
    (h1 : s.header.type ≠ SHT_SYMTAB) (h2 : s.header.type ≠ SHT_RELA) :
    ∀ k, importsData file k s = s.data := by
  intro k
  induction k with
  | zero => rfl
  | succ k ih =>
    unfold importsData
    split
    · exact ih
    · split
      · exact (relocatedData_plain _ _ _ _ (Section.mk s.header (importsData file k s)) h1 h2).trans ih
      · exact ih

theorem relocatedData_congr (a e n x : Nat) (s t : Section)
    (h1 : s.header.type = t.header.type) (h2 : s.header.info = t.header.info)
    (h3 : s.data = t.data) : relocatedData a e n x s = relocatedData a e n x t := by
  unfold relocatedData
  rw [h1, h2, h3]

theorem importsSection_zero (file : Rpl) (j : Nat) (s : Section) :
    importsSection file 0 j s = s := by
  unfold importsSection importsData
  simp

theorem importsSection_self (file : Rpl) (k : Nat) (s : Section)
    (h1 : s.header.type ≠ SHT_SYMTAB) (h2 : s.header.type ≠ SHT_RELA) :
    importsSection file k k s = s := by
  unfold importsSection
  rw [importsData_plain file s h1 h2, if_neg (fun h => absurd h.1 (Nat.lt_irrefl k))]

theorem importsSection_type (file : Rpl) (k j : Nat) (s : Section) :
    (importsSection file k j s).header.type = s.header.type
    ∧ (importsSection file k j s).header.info = s.header.info := by
  unfold importsSection
  simp only
  split <;> exact ⟨rfl, rfl⟩

theorem importsCursor_succ (file : Rpl) (k : Nat) (s : Section)
    (hs : file.sections[k]? = some s) :
    importsCursor file (k + 1)
      = if s.header.type = SHT_RPL_IMPORTS then (importsCursor file k + s.data.length) % 2 ^ 32
        else importsCursor file k := by
  unfold importsCursor
  have hk : k < file.sections.length := (List.getElem?_eq_some_iff.1 hs).1
  have hg : file.sections[k] = s := (List.getElem?_eq_some_iff.1 hs).2
  rw [List.take_succ, hs]
  simp only [Option.toList, List.filter_append, sumLen_append]
  by_cases ht : s.header.type = SHT_RPL_IMPORTS
  · have : isImportsSection s = true := by simp [isImportsSection, ht]
    rw [if_pos ht, List.filter_cons_of_pos this, List.filter_nil, sumLen_cons, sumLen_nil]
    omega
  · have : ¬ isImportsSection s = true := by simp [isImportsSection, ht]
    rw [if_neg ht, List.filter_cons_of_neg this, List.filter_nil, sumLen_nil]
    rfl

/-- The loop of `relocateImports` in closed form: the state after its first `k` iterations. -/
theorem relocateImports_fold (file : Rpl) : ∀ k, k ≤ file.sections.length →
    ((List.range k).foldl relocateImportsStep (file, elfImportsRelocationAddress)).2
        = importsCursor file k
    ∧ ((List.range k).foldl relocateImportsStep (file, elfImportsRelocationAddress)).1.header
        = file.header
    ∧ ∀ j, ((List.range k).foldl relocateImportsStep
              (file, elfImportsRelocationAddress)).1.sections[j]?
        = file.sections[j]?.map (importsSection file k j) := by
  intro k
  induction k with
  | zero =>
    intro _
    refine ⟨by simp [importsCursor, sumLen, elfImportsRelocationAddress], rfl, ?_⟩
    intro j
    simp only [List.range_zero, List.foldl_nil]
    cases file.sections[j]? with
    | none => rfl
    | some s => rw [Option.map_some', importsSection_zero]
  | succ k ih =>
    intro hk
    obtain ⟨ih1, ih2, ih3⟩ := ih (by omega)
    rw [List.range_succ, List.foldl_append, List.foldl_cons, List.foldl_nil]
    generalize (List.range k).foldl relocateImportsStep (file, elfImportsRelocationAddress) = F
      at ih1 ih2 ih3 ⊢
    obtain ⟨s0, hs0⟩ : ∃ s0, file.sections[k]? = some s0 :=
      ⟨file.sections[k], List.getElem?_eq_getElem (by omega)⟩
    have hcur := ih3 k
    rw [hs0, Option.map_some'] at hcur
    by_cases ht : s0.header.type = SHT_RPL_IMPORTS
    · rw [importsSection_self file k s0 (by rw [ht]; decide) (by rw [ht]; decide)] at hcur
      obtain ⟨h1, h2, h3⟩ := relocateImportsStep_imports F k s0 hcur ht
      refine ⟨?_, h2.trans ih2, ?_⟩
      · rw [h1, ih1, importsCursor_succ file k s0 hs0, if_pos ht]
      · intro j
        rw [h3 j, ih3 j]
        cases hj : file.sections[j]? with
        | none => rfl
        | some s =>
          simp only [Option.map_some', Option.some.injEq]
          have hty := importsSection_type file k j s
          unfold importsSection at hty ⊢
          simp only at hty ⊢
          rw [ih1]
          congr 1
          · by_cases hjk : j = k
            · subst hjk
              rw [hs0] at hj
              cases hj
              simp [ht, importsTarget]
            · by_cases hlt : j < k
              · simp [hjk, hlt, Nat.lt_succ_of_lt hlt]
              · have : ¬ j < k + 1 := by omega
                simp [hjk, hlt, this]
          · conv_rhs => unfold importsData
            simp only [hs0, ht, if_true]
            exact relocatedData_congr _ _ _ _ _ _ hty.1 hty.2 rfl
    · rw [relocateImportsStep_skip F k (by
        intro s hs
        rw [hcur] at hs
        cases hs
        rw [(importsSection_type file k k s0).1]
        exact ht)]
      refine ⟨?_, ih2, ?_⟩
      · rw [ih1, importsCursor_succ file k s0 hs0, if_neg ht]
      · intro j
        rw [ih3 j]
        cases hj : file.sections[j]? with
        | none => rfl
        | some s =>
          simp only [Option.map_some', Option.some.injEq]
          unfold importsSection
          congr 1
          · by_cases hjk : j = k
            · subst hjk
              rw [hs0] at hj
              cases hj
              simp [ht]
            · by_cases hlt : j < k
              · simp [hlt, Nat.lt_succ_of_lt hlt]
              · have : ¬ j < k + 1 := by omega
                simp [hlt, this]
          · conv_rhs => unfold importsData
            simp only [hs0, ht, if_false]

theorem relocateImports_header (file : Rpl) : (relocateImports file).1.header = file.header :=
  (relocateImports_fold file file.sections.length (Nat.le_refl _)).2.1

theorem relocateImports_getElem? (file : Rpl) (j : Nat) :
    (relocateImports file).1.sections[j]?
      = file.sections[j]?.map (importsSection file file.sections.length j) :=
  (relocateImports_fold file file.sections.length (Nat.le_refl _)).2.2 j

theorem relocateImports_section (file : Rpl) (j : Nat) (s : Section)
    (hs : file.sections[j]? = some s) :
    (relocateImports file).1.sections[j]?
      = some { header := if s.header.type = SHT_RPL_IMPORTS then
                 { s.header with addr := importsTarget file j s,
                                 flags := s.header.flags ||| SHF_ALLOC }
               else s.header
               data := importsData file file.sections.length s } := by
  rw [relocateImports_getElem?, hs, Option.map_some']
  have hj : j < file.sections.length := (List.getElem?_eq_some_iff.1 hs).1
  unfold importsSection
  simp only [hj, true_and]

theorem sameShape_trans (a b c : Rpl) (h1 : sameShape a b) (h2 : sameShape b c) :
    sameShape a c := by
  obtain ⟨a1, a2, a3, a4, a5, a6, a7⟩ := h1
  obtain ⟨b1, b2, b3, b4, b5, b6, b7⟩ := h2
  exact ⟨b1.trans a1, b2.trans a2, b3.trans a3, b4.trans a4, b5.trans a5, b6.trans a6,
    b7.trans a7⟩

theorem sameShape_of_getElem? (a b : Rpl) (g : Nat → Section → Section)
    (hh : b.header.magic = a.header.magic ∧ b.header.shoff = a.header.shoff
      ∧ b.header.shnum = a.header.shnum ∧ b.header.shentsize = a.header.shentsize
      ∧ b.header.shstrndx = a.header.shstrndx)
    (h : ∀ j, b.sections[j]? = a.sections[j]?.map (g j))
    (hk : ∀ j s, (g j s).key = s.key) : sameShape a b := by
  have hmap : b.sections.map Section.key = a.sections.map Section.key := by
    apply List.ext_getElem?
    intro j
    rw [List.getElem?_map, List.getElem?_map, h j, Option.map_map]
    cases a.sections[j]? with
    | none => rfl
    | some s => simp only [Option.map_some', Function.comp_apply, hk]
  have hlen := congrArg List.length hmap
  rw [List.length_map, List.length_map] at hlen
  exact ⟨hh.1, hh.2.1, hh.2.2.1, hh.2.2.2.1, hh.2.2.2.2, hlen, hmap⟩

theorem fixSection_key (s : Section) : (fixSection s).key = s.key := by
  by_cases h : s.header.type = SHT_RELA
  · rw [fixSection_rela s h]; rfl
  · rw [fixSection_other s h]

theorem importsSection_key (file : Rpl) (k j : Nat) (s : Section) :
    (importsSection file k j s).key = s.key := by
  unfold importsSection Section.key
  simp only
  split <;> rfl

theorem clearNoData_key (s : Section) : (clearNoData s).key = s.key := by
  unfold Section.key
  rcases clearNoData_header s with hh | hh <;> rw [hh]

theorem plannedSection_key (file : Rpl) (i : Nat) (s : Section) :
    (plannedSection file i s).key = s.key := by
  unfold plannedSection
  split
  · exact clearNoData_key s
  · exact clearNoData_key s

theorem fixFileHeader_sameShape (file : Rpl) : sameShape file (fixFileHeader file).1 :=
  ⟨rfl, rfl, rfl, rfl, rfl, rfl, rfl⟩

theorem fixRelocations_sameShape (file : Rpl) : sameShape file (fixRelocations file).1 :=
  sameShape_of_getElem? file _ (fun _ => fixSection) ⟨rfl, rfl, rfl, rfl, rfl⟩
    (fun j => by simp only [fixRelocations, List.getElem?_map]) (fun _ s => fixSection_key s)

theorem relocateImports_sameShape (file : Rpl) : sameShape file (relocateImports file).1 := by
  have hh := relocateImports_header file
  exact sameShape_of_getElem? file _ (importsSection file file.sections.length)
    (by rw [hh]; exact ⟨rfl, rfl, rfl, rfl, rfl⟩)
    (relocateImports_getElem? file) (importsSection_key file _)

theorem calculateSectionOffsets_sameShape (file : Rpl) :
    sameShape file (calculateSectionOffsets file).1 :=
  sameShape_of_getElem? file _ (plannedSection file) ⟨rfl, rfl, rfl, rfl, rfl⟩
    (fun j => by rw [calculateSectionOffsets_getElem?]; rfl) (plannedSection_key file)

/-- **C26.** Each of the four transform stages `fixFileHeader`, `fixRelocations`,
`relocateImports` and `calculateSectionOffsets`, and their composition in the order of
`main`, returns a container of the same shape: the header keeps magic, shoff, shnum,
shentsize and shstrndx, the section table keeps its length, and the section at every table
index keeps its name, type, link and info.  So the section count still agrees with shnum
after the four stages whenever it did before them. -/
theorem stages_keep_shape (file : Rpl) :
    sameShape file (fixFileHeader file).1
      ∧ sameShape file (fixRelocations file).1
      ∧ sameShape file (relocateImports file).1
      ∧ sameShape file (calculateSectionOffsets file).1
      ∧ sameShape file (transformed file)
      ∧ ((transformed file).header.shnum = file.header.shnum
          ∧ (transformed file).sections.length = file.sections.length) := by
  have h := sameShape_trans _ _ _
    (sameShape_trans _ _ _
      (sameShape_trans _ _ _ (fixFileHeader_sameShape file)
        (fixRelocations_sameShape (fixFileHeader file).1))
      (relocateImports_sameShape (fixRelocations (fixFileHeader file).1).1))
    (calculateSectionOffsets_sameShape
      (relocateImports (fixRelocations (fixFileHeader file).1).1).1)
  exact ⟨fixFileHeader_sameShape file, fixRelocations_sameShape file,
    relocateImports_sameShape file, calculateSectionOffsets_sameShape file, h,
    h.2.2.1, h.2.2.2.2.2.1⟩

/-! ### Symbols are moved once by `relocateImports` -/

theorem importsData_succ_symtab (file : Rpl) (k : Nat) (sk t : Section)
    (hk : file.sections[k]? = some sk) (hty : t.header.type = SHT_SYMTAB) :
    importsData file (k + 1) t
      = if sk.header.type = SHT_RPL_IMPORTS then
          relocateSymbols sk.header.addr (sk.header.addr + sectionSizeOf sk)
            (importsTarget file k sk) (importsData file k t)
        else importsData file k t := by
  conv_lhs => unfold importsData
  simp only [hk]
  split
  · unfold relocatedData
    simp only [hty, if_true]
  · rfl

theorem importsApart_at (file : Rpl) (h : importsApart file) (j k : Nat) (sj sk : Section)
    (hj : file.sections[j]? = some sj) (hk : file.sections[k]? = some sk) (hne : j ≠ k)
    (tj : sj.header.type = SHT_RPL_IMPORTS) (tk : sk.header.type = SHT_RPL_IMPORTS) :
    sj.header.addr + sectionSizeOf sj < sk.header.addr
      ∨ sk.header.addr + sectionSizeOf sk < sj.header.addr :=
  h j (List.getElem?_eq_some_iff.1 hj).1 k (List.getElem?_eq_some_iff.1 hk).1 sj hj sk hk hne
    tj tk

theorem windowClear_at (file : Rpl) (h : windowClear file) (j k : Nat) (sj sk : Section)
    (hj : file.sections[j]? = some sj) (hk : file.sections[k]? = some sk)
    (tj : sj.header.type = SHT_RPL_IMPORTS) (tk : sk.header.type = SHT_RPL_IMPORTS) :
    importsTarget file k sk + sectionSizeOf sk < 2 ^ 32
      ∧ (sj.header.addr + sectionSizeOf sj < importsTarget file k sk
          ∨ importsTarget file k sk + sectionSizeOf sk < sj.header.addr) :=
  h j (List.getElem?_eq_some_iff.1 hj).1 k (List.getElem?_eq_some_iff.1 hk).1 sj hj sk hk tj tk

/-- The symbols of a symbol table after the first `k` iterations of the loop of
`relocateImports`, when the ranges of the imports sections are apart and the window is
clear. -/
theorem importsData_symbols (file : Rpl) (hap : importsApart file) (hwin : windowClear file)
    (t : Section) (hty : t.header.type = SHT_SYMTAB) :
    ∀ k, k ≤ file.sections.length →
      (importsData file k t).length = t.data.length
      ∧ ∀ i, i < numSymbols t.data →
          symInfo (importsData file k t) i = symInfo t.data i
          ∧ ((¬ isRelocatableSymbol (symInfo t.data i)
                ∨ ∀ m sm, m < k → file.sections[m]? = some sm →
                    sm.header.type = SHT_RPL_IMPORTS → ¬ inRangeOf sm (symValue t.data i)) →
              symValue (importsData file k t) i = symValue t.data i)
          ∧ (isRelocatableSymbol (symInfo t.data i) →
              ∀ m sm, m < k → file.sections[m]? = some sm →
                sm.header.type = SHT_RPL_IMPORTS → inRangeOf sm (symValue t.data i) →
                symValue (importsData file k t) i
                  = symValue t.data i - sm.header.addr + importsTarget file m sm) := by
  intro k
  induction k with
  | zero =>
    intro _
    refine ⟨rfl, fun i _ => ⟨rfl, fun _ => rfl, ?_⟩⟩
    intro _ m sm hm
    omega
  | succ k ih =>
    intro hk
    obtain ⟨ihlen, ihsym⟩ := ih (by omega)
    obtain ⟨sk, hsk⟩ : ∃ sk, file.sections[k]? = some sk :=
      ⟨file.sections[k], List.getElem?_eq_getElem (by omega)⟩
    rw [importsData_succ_symtab file k sk t hsk hty]
    by_cases tk : sk.header.type = SHT_RPL_IMPORTS
    · rw [if_pos tk]
      refine ⟨((relocateSymbols_local _ _ _ _).1).trans ihlen, ?_⟩
      intro i hi
      obtain ⟨ihinfo, ihA, ihB⟩ := ihsym i hi
      have hi2 : i < numSymbols (importsData file k t) := by
        unfold numSymbols at hi ⊢
        rw [ihlen]
        exact hi
      obtain ⟨hinfo, hval⟩ := relocateSymbols_spec sk.header.addr
        (sk.header.addr + sectionSizeOf sk) (importsTarget file k sk) (importsData file k t)
        i hi2
      rw [ihinfo] at hval
      refine ⟨hinfo.trans ihinfo, ?_, ?_⟩
      · intro h
        rcases h with h | h
        · rw [hval, if_neg (fun hc => h hc.1)]
          exact ihA (Or.inl h)
        · have hcur := ihA (Or.inr (fun m sm hm => h m sm (by omega)))
          have hnot := h k sk (by omega) hsk tk
          rw [hval, hcur, if_neg (fun hc => hnot ⟨hc.2.1, hc.2.2⟩)]
      · intro hrel m sm hm hsm tm hin
        by_cases hmk : m = k
        · subst hmk
          rw [hsk] at hsm
          cases hsm
          have hcur : symValue (importsData file m t) i = symValue t.data i := by
            apply ihA
            refine Or.inr ?_
            intro m2 s2 hm2 hs2 t2 hin2
            have := importsApart_at file hap m2 m s2 sk hs2 hsk (by omega) t2 tk
            unfold inRangeOf at hin hin2
            omega
          have hfit := (windowClear_at file hwin m m sk sk hsk hsk tk tk).1
          rw [hval, hcur, if_pos ⟨hrel, hin.1, hin.2⟩]
          apply Nat.mod_eq_of_lt
          unfold inRangeOf at hin
          omega
        · have hcur := ihB hrel m sm (by omega) hsm tm hin
          have hcl := windowClear_at file hwin k m sk sm hsk hsm tk tm
          rw [hval, hcur, if_neg]
          intro hc
          unfold inRangeOf at hin
          omega
    · rw [if_neg tk]
      refine ⟨ihlen, ?_⟩
      intro i hi
      obtain ⟨ihinfo, ihA, ihB⟩ := ihsym i hi
      refine ⟨ihinfo, ?_, ?_⟩
      · intro h
        rcases h with h | h
        · exact ihA (Or.inl h)
        · exact ihA (Or.inr (fun m sm hm => h m sm (by omega)))
      · intro hrel m sm hm hsm tm hin
        have hmk : m ≠ k := by
          intro hmk
          subst hmk
          rw [hsk] at hsm
          cases hsm
          exact tk tm
        exact ihB hrel m sm (by omega) hsm tm hin

/-- **C29.** Let the original ranges `[addr, addr + size]` of the imports sections of a
container be pairwise disjoint, and let the window be clear: every range `[new, new + size]`
that `relocateImports` moves an imports section to ends below `2 ^ 32` and meets the original
range of no imports section.  Then in every symbol table, after `relocateImports`, a symbol
whose type tag is object, function or section and whose original value lies in the range of
the imports section `k` has the value `(value - old_k) + new_k`, with `new_k` the address of
that section after `relocateImports`; such a symbol whose original value lies in the range of
no imports section keeps its value, and so does every symbol of another type tag.  The number
of symbols and their type tags are unchanged. -/
theorem relocateImports_moves_symbols_once (file : Rpl)
    (hap : importsApart file) (hwin : windowClear file)
    (j : Nat) (t : Section) (ht : file.sections[j]? = some t)
    (hty : t.header.type = SHT_SYMTAB) :
    ∃ t' : Section, (relocateImports file).1.sections[j]? = some t'
      ∧ numSymbols t'.data = numSymbols t.data
      ∧ ∀ i, i < numSymbols t.data →
          symInfo t'.data i = symInfo t.data i
          ∧ (isRelocatableSymbol (symInfo t.data i) →
              ∀ (k : Nat) (sk : Section), file.sections[k]? = some sk →
                sk.header.type = SHT_RPL_IMPORTS → inRangeOf sk (symValue t.data i) →
                ∃ sk' : Section, (relocateImports file).1.sections[k]? = some sk'
                  ∧ symValue t'.data i
                      = symValue t.data i - sk.header.addr + sk'.header.addr)
          ∧ (isRelocatableSymbol (symInfo t.data i) →
              (∀ (k : Nat) (sk : Section), file.sections[k]? = some sk →
                sk.header.type = SHT_RPL_IMPORTS → ¬ inRangeOf sk (symValue t.data i)) →
              symValue t'.data i = symValue t.data i)
          ∧ (¬ isRelocatableSymbol (symInfo t.data i) →
              symValue t'.data i = symValue t.data i) := by
  obtain ⟨hlen, hsym⟩ := importsData_symbols file hap hwin t hty file.sections.length
    (Nat.le_refl _)
  refine ⟨_, relocateImports_section file j t ht, ?_, ?_⟩
  · simp only [numSymbols, hlen]
  · intro i hi
    obtain ⟨hinfo, hA, hB⟩ := hsym i hi
    refine ⟨hinfo, ?_, ?_, ?_⟩
    · intro hrel k sk hk tk hin
      refine ⟨_, relocateImports_section file k sk hk, ?_⟩
      simp only [if_pos tk]
      exact hB hrel k sk (List.getElem?_eq_some_iff.1 hk).1 hk tk hin
    · intro _ hno
      exact hA (Or.inr (fun m sm _ hsm tm => hno m sm hsm tm))
    · intro hrel
      exact hA (Or.inl hrel)

set_option maxRecDepth 100000 in
/-- Witness of **C29** on `exampleTwoImportsFile`: the function symbol at `0xc0000004`, inside
the first imports section, ends at `0x01000004`; the object symbol at `0xc0000102`, inside the
second one (moved to `0x01000008`), ends at `0x0100000a`; the object symbol at `0x02000000`
and the untyped symbol keep their values. -/
theorem relocateImports_moves_symbols_once_witness :
    importsApart exampleTwoImportsFile ∧ windowClear exampleTwoImportsFile
    ∧ ∃ t' : Section, (relocateImports exampleTwoImportsFile).1.sections[2]? = some t'
        ∧ symValue t'.data 0 = 0x01000004 ∧ symValue t'.data 1 = 0x0100000a
        ∧ symValue t'.data 2 = 0x02000000 ∧ symValue t'.data 3 = 0xc0000004 := by
  have hap : importsApart exampleTwoImportsFile := by decide
  have hwin : windowClear exampleTwoImportsFile := by decide
  obtain ⟨t', h1, _, h3⟩ :=
    relocateImports_moves_symbols_once exampleTwoImportsFile hap hwin 2 _ rfl rfl
  refine ⟨hap, hwin, t', h1, ?_, ?_, ?_, ?_⟩
  · obtain ⟨sk', hk', hv⟩ := (h3 0 (by decide)).2.1 (by decide) 0 _ rfl rfl (by decide)
    rw [hv]
    have : (relocateImports exampleTwoImportsFile).1.sections[0]?.map (fun s => s.header.addr)
        = some 0x01000000 := by decide
    rw [hk'] at this
    simp only [Option.map_some', Option.some.injEq] at this
    rw [this]
    decide
  · obtain ⟨sk', hk', hv⟩ := (h3 1 (by decide)).2.1 (by decide) 1 _ rfl rfl (by decide)
    rw [hv]
    have : (relocateImports exampleTwoImportsFile).1.sections[1]?.map (fun s => s.header.addr)
        = some 0x01000008 := by decide
    rw [hk'] at this
    simp only [Option.map_some', Option.some.injEq] at this
    rw [this]
    decide
  · refine ((h3 2 (by decide)).2.2.1 (by decide) ?_).trans (by decide)
    intro k sk hk tk
    have hlt : k < 3 := (List.getElem?_eq_some_iff.1 hk).1
    interval_cases k
    · cases hk; decide
    · cases hk; decide
    · cases hk; exact absurd tk (by decide)
  · exact ((h3 3 (by decide)).2.2.2 (by decide)).trans (by decide)

/-! ### What the written file holds -/

theorem writeElf_holds (c : Rpl) (hoff : sizeofHeader ≤ c.header.shoff)
    (hlow : ∀ s ∈ c.sections, s.data = []
      ∨ c.header.shoff + sizeofSectionHeader * c.sections.length ≤ s.header.offset)
    (hdis : c.sections.Pairwise apart) :
    ∃ out : List Byte, writeElf c true = (true, some out)
      ∧ bytesAt out 0 sizeofHeader = headerBytes c.header
      ∧ bytesAt out c.header.shoff (sizeofSectionHeader * c.sections.length)
          = tableBytes c.sections
      ∧ ∀ s ∈ c.sections, s.data ≠ [] →
          bytesAt out s.header.offset s.data.length = s.data := by
  obtain ⟨H, secs⟩ := c
  simp only at hoff hlow hdis
  refine ⟨_, writeElf_true _, ?_⟩
  simp only
  have hlenT := length_tableBytes secs
  have hlen1 : H.shoff + sizeofSectionHeader * secs.length
      ≤ (writeAt (headerBytes H) H.shoff (tableBytes secs)).length ∨ secs = [] := by
    by_cases hs : secs = []
    · exact Or.inr hs
    · left
      have htab : tableBytes secs ≠ [] := by
        intro h0
        rw [h0] at hlenT
        have : 0 < secs.length := List.length_pos.2 hs
        simp only [List.length_nil, sizeofSectionHeader] at hlenT
        omega
      rw [length_writeAt _ _ _ htab, hlenT, length_headerBytes]
      simp only [sizeofHeader, sizeofSectionHeader] at hoff ⊢
      omega
  have hskip : ∀ (q m : Nat), q + m ≤ H.shoff + sizeofSectionHeader * secs.length →
      ∀ s ∈ secs, s.data = [] ∨ q + m ≤ s.header.offset
        ∨ s.header.offset + s.data.length ≤ q := by
    intro q m hqm s hs
    rcases hlow s hs with h | h
    · exact Or.inl h
    · exact Or.inr (Or.inl (Nat.le_trans hqm h))
  have hhlen : sizeofHeader ≤ (writeAt (headerBytes H) H.shoff (tableBytes secs)).length :=
    Nat.le_trans (by rw [length_headerBytes]) (le_length_writeAt _ _ _)
  refine ⟨?_, ?_, ?_⟩
  · rw [bytesAt_writePayloads_apart 0 sizeofHeader secs _ (by omega)
      (hskip 0 sizeofHeader (by omega)),
      bytesAt_writeAt_apart _ _ _ 0 sizeofHeader (by rw [length_headerBytes]; omega)
        (Or.inl (by omega)),
      ← length_headerBytes H, bytesAt_all]
  · rcases hlen1 with h | h
    · rw [bytesAt_writePayloads_apart _ _ secs _ h (hskip _ _ (Nat.le_refl _)), ← hlenT]
      exact bytesAt_writeAt_same _ _ _
    · subst h
      rfl
  · intro s hs hne
    exact (bytesAt_writePayloads_mem secs _ hdis s hs hne).1

/-- **C25**, as the code has it.  Let the section table of a container start at or after the
end of the file header (`52 ≤ shoff`), let the layout fit in 32 bits, and let every section
that no placement loop assigns have no buffer after the first loop of
`calculateSectionOffsets`.  Then the file that `writeElf` writes for the output of
`calculateSectionOffsets` holds the header at offset 0, the section-header table at `shoff`,
and, for every section with a non-empty buffer, that buffer at the offset of the section. -/
theorem writeElf_holds_planned (file : Rpl) (hoff : sizeofHeader ≤ file.header.shoff)
    (hfit : layoutFits file)
    (hplaced : ∀ s ∈ file.sections, category s = none → (clearNoData s).data = []) :
    ∃ out : List Byte, writeElf (calculateSectionOffsets file).1 true = (true, some out)
      ∧ bytesAt out 0 sizeofHeader = headerBytes (calculateSectionOffsets file).1.header
      ∧ bytesAt out (calculateSectionOffsets file).1.header.shoff
            (sizeofSectionHeader * (calculateSectionOffsets file).1.sections.length)
          = tableBytes (calculateSectionOffsets file).1.sections
      ∧ ∀ (i : Nat) (s' : Section), (calculateSectionOffsets file).1.sections[i]? = some s' →
          s'.data ≠ [] → bytesAt out s'.header.offset s'.data.length = s'.data := by
  have hlen := calculateSectionOffsets_length file
  have hal := align_up_ge (file.sections.length * sizeofSectionHeader)
  have hstart := layoutStart_of_fits file hfit
  obtain ⟨out, h1, h2, h3, h4⟩ := writeElf_holds (calculateSectionOffsets file).1 hoff
    (by
      intro t ht
      obtain ⟨i, hi⟩ := List.mem_iff_getElem?.1 ht
      obtain ⟨s, hs, rfl⟩ := calculateSectionOffsets_section_inv file i t hi
      rw [hlen]
      cases hcat : category s with
      | none =>
        left
        rw [plannedSection_data]
        exact hplaced s (List.getElem?_mem hs) hcat
      | some k =>
        right
        rw [plannedSection_offset file i k s hcat]
        obtain ⟨hp1, _, _⟩ := plannedOffset_of_fits file hfit i k s hs hcat
        have hh : (calculateSectionOffsets file).1.header.shoff = file.header.shoff := rfl
        rw [hh]
        simp only [sizeofSectionHeader] at hal hstart ⊢
        omega)
    (by
      rw [List.pairwise_iff_getElem]
      intro i j hi hj hij
      obtain ⟨si, hsi, hti⟩ := calculateSectionOffsets_section_inv file i _
        (List.getElem?_eq_getElem hi)
      obtain ⟨sj, hsj, htj⟩ := calculateSectionOffsets_section_inv file j _
        (List.getElem?_eq_getElem hj)
      rw [hti, htj]
      exact plannedSection_apart file hfit i j si sj hij hsi hsj
        (hplaced si (List.getElem?_mem hsi)) (hplaced sj (List.getElem?_mem hsj)))
  exact ⟨out, h1, h2, h3, fun i s' hs' hne => h4 s' (List.getElem?_mem hs') hne⟩

set_option maxRecDepth 100000 in
/-- Witness of **C25**: the file written for `exampleLayoutFile` holds the header at 0 and
the sixteen bytes of the text section, which the planner places at 200, at 200. -/
theorem writeElf_holds_planned_witness :
    sizeofHeader ≤ exampleLayoutFile.header.shoff ∧ layoutFits exampleLayoutFile
    ∧ ∃ out : List Byte,
        writeElf (calculateSectionOffsets exampleLayoutFile).1 true = (true, some out)
        ∧ bytesAt out 0 sizeofHeader = headerBytes exampleLayoutFile.header
        ∧ ∃ t : Section, (calculateSectionOffsets exampleLayoutFile).1.sections[1]? = some t
            ∧ t.header.offset = 200 ∧ t.data = List.replicate 16 0x60
            ∧ bytesAt out 200 16 = t.data := by
  have hfit : layoutFits exampleLayoutFile := by decide
  obtain ⟨out, h1, h2, _, h4⟩ := writeElf_holds_planned exampleLayoutFile (by decide) hfit
    (by decide)
  refine ⟨by decide, hfit, out, h1, h2, ?_⟩
  have hv : (calculateSectionOffsets exampleLayoutFile).1.sections[1]?.map
      (fun s => (s.header.offset, s.data)) = some (200, List.replicate 16 0x60) := by decide
  cases ht : (calculateSectionOffsets exampleLayoutFile).1.sections[1]? with
  | none => rw [ht] at hv; cases hv
  | some t =>
    rw [ht] at hv
    simp only [Option.map_some', Option.some.injEq, Prod.mk.injEq] at hv
    have hne : t.data ≠ [] := by
      rw [hv.2]
      decide
    have h5 := h4 1 t ht hne
    rw [hv.1, hv.2] at h5
    exact ⟨t, rfl, hv.1, hv.2, hv.2.symm ▸ h5⟩

set_option maxRecDepth 100000 in
/-- **C25** fails in two ways.  On `exampleLowTableFile`, whose section table starts at `0x20`,
`calculateSectionOffsets` succeeds and the section table is written over bytes 32 to 51 of
the header.  On `exampleUnplacedFile`, `calculateSectionOffsets` succeeds although no loop
places the exports section, and the writer puts the eight bytes of that section at its
incoming offset `0x10`, over the header. -/
theorem writeElf_header_overwritten :
    ((calculateSectionOffsets exampleLowTableFile).2 = true
      ∧ ∃ out : List Byte,
          writeElf (calculateSectionOffsets exampleLowTableFile).1 true = (true, some out)
          ∧ bytesAt out 0 sizeofHeader
              ≠ headerBytes (calculateSectionOffsets exampleLowTableFile).1.header
          ∧ bytesAt out 32 4 = [0, 0, 0, 0]
          ∧ bytesAt (headerBytes (calculateSectionOffsets exampleLowTableFile).1.header) 32 4
              = [0, 0, 0, 0x20])
    ∧ ((calculateSectionOffsets exampleUnplacedFile).2 = true
      ∧ ∃ out : List Byte,
          writeElf (calculateSectionOffsets exampleUnplacedFile).1 true = (true, some out)
          ∧ bytesAt out 0 sizeofHeader
              ≠ headerBytes (calculateSectionOffsets exampleUnplacedFile).1.header
          ∧ bytesAt out 0x10 8 = List.replicate 8 0x11) := by
  refine ⟨⟨by decide, _, writeElf_true _, ?_, ?_, ?_⟩, ⟨by decide, _, writeElf_true _, ?_, ?_⟩⟩
    <;> decide

end Rpl2Elf
